import Mathlib

/-!
# Code execution service (`backend/pkg/execution/execution.go`)

A shallow embedding of the execution service of the backend: the static code
validator, the per-language harness templates, the docker command builder,
the per-test-case runner and the evaluation loop of `ExecuteCode`.

Go strings are modelled by `String` (valid Unicode text), Go's `len` by the
UTF-8 byte size.  The operating system and the docker runtime are modelled by
a `Host`, which fixes the answer of every external call, and a `World`, the
mutable state the service acts on (a filesystem and a log of effects).
-/

namespace Execution

/-! ## Go standard library -/

/-- Go `unicode.IsSpace`: the Latin-1 spaces and the characters with the
Unicode White_Space property. -/
def isSpace (c : Char) : Bool :=
  c = '\t' || c = '\n' || c.toNat = 0x0B || c.toNat = 0x0C || c = '\r' || c = ' ' ||
  c.toNat = 0x85 || c.toNat = 0xA0 || c.toNat = 0x1680 ||
  (0x2000 ≤ c.toNat && c.toNat ≤ 0x200A) ||
  c.toNat = 0x2028 || c.toNat = 0x2029 || c.toNat = 0x202F || c.toNat = 0x205F ||
  c.toNat = 0x3000

/-- Go `strings.TrimSpace`: drop the leading and the trailing white space. -/
def TrimSpace (s : String) : String :=
  ⟨((s.data.dropWhile isSpace).reverse.dropWhile isSpace).reverse⟩

/-- Substring test on character lists: `sub` occurs at some position of the list. -/
def containsChars (sub : List Char) : List Char → Bool
  | [] => sub.isEmpty
  | c :: cs => sub.isPrefixOf (c :: cs) || containsChars sub cs

/-- Go `strings.Contains`. -/
def Contains (s substr : String) : Bool :=
  containsChars substr.data s.data

/-- Go `strings.ToLower`: every rune is mapped by `unicode.ToLower`, whose
table is the parameter `lower`. -/
def ToLower (lower : Char → Char) (s : String) : String :=
  ⟨s.data.map lower⟩

/-- Go `strings.TrimSuffix`. -/
def TrimSuffix (s suffix : String) : String :=
  if suffix.data.isSuffixOf s.data then
    ⟨s.data.take (s.data.length - suffix.data.length)⟩
  else s

/-- The byte length `len(s)` of a Go string. -/
def len (s : String) : Nat :=
  s.utf8ByteSize

/-- Split a path at every slash. -/
def splitSlash : List Char → List (List Char)
  | [] => [[]]
  | c :: cs =>
    if c = '/' then [] :: splitSlash cs
    else
      match splitSlash cs with
      | [] => [[c]]
      | h :: t => (c :: h) :: t

/-- One step of the lexical clean-up of a path: `stack` holds the elements kept
so far, last one first. -/
def cleanStep (rooted : Bool) (stack : List (List Char)) (elem : List Char) : List (List Char) :=
  if elem = [] ∨ elem = ['.'] then stack
  else if elem = ['.', '.'] then
    match stack with
    | [] => if rooted then [] else [elem]
    | top :: below => if top = ['.', '.'] then elem :: top :: below else below
  else elem :: stack

/-- Go `filepath.Clean` for slash-separated paths. -/
def Clean (path : String) : String :=
  let rooted := path.data.head? = some '/'
  let elems := ((splitSlash path.data).foldl (cleanStep rooted) []).reverse
  let body := List.intercalate ['/'] elems
  let out := if rooted then '/' :: body else body
  if out = [] then "." else ⟨out⟩

/-- Go `filepath.Join` of a directory and a file name. -/
def Join (dir name : String) : String :=
  if dir = "" then (if name = "" then "" else Clean name)
  else if name = "" then Clean dir
  else Clean (dir ++ "/" ++ name)

/-- Go `filepath.Base`: the last element of the path. -/
def Base (path : String) : String :=
  if path.data = [] then "."
  else
    let stripped := (path.data.reverse.dropWhile (fun c => c = '/')).reverse
    if stripped = [] then "/"
    else ⟨(stripped.reverse.takeWhile (fun c => c ≠ '/')).reverse⟩

/-- The path `os.MkdirTemp` builds from a directory and a generated name. -/
def joinPath (dir name : String) : String :=
  if dir.data ≠ [] ∧ dir.data.getLast? = some '/' then dir ++ name
  else dir ++ "/" ++ name

/-! ## Models (`backend/pkg/models/models.go`) -/

def StatusAccepted : String := "Accepted"
def StatusWrongAnswer : String := "Wrong Answer"
def StatusTimeLimitExceeded : String := "Time Limit Exceeded"
def StatusMemoryLimitExceeded : String := "Memory Limit Exceeded"
def StatusRuntimeError : String := "Runtime Error"
def StatusCompileError : String := "Compile Error"
def StatusInternalError : String := "Internal Error"

def LanguageJavaScript : String := "javascript"
def LanguagePython : String := "python"
def LanguageJava : String := "java"

/-- The type `models.TestCase` (the creation time plays no part in execution). -/
structure TestCase where
  ID : Int := 0
  ProblemID : Int := 0
  Input : String := ""
  ExpectedOutput : String := ""
  IsHidden : Bool := false
  deriving DecidableEq, Repr

/-! ## Data model of the execution service -/

/-- The result of a single test case. -/
structure TestResult where
  Input : String := ""
  ExpectedOutput : String := ""
  ActualOutput : String := ""
  Passed : Bool := false
  RuntimeMs : Nat := 0
  MemoryKb : Nat := 0
  deriving DecidableEq, Repr

/-- The result of a code execution; every field starts at its Go zero value. -/
structure ExecutionResult where
  Status : String := ""
  Output : String := ""
  ErrorMessage : String := ""
  RuntimeMs : Nat := 0
  MemoryKb : Nat := 0
  TestCasesPassed : Nat := 0
  TotalTestCases : Nat := 0
  TestResults : List TestResult := []
  deriving DecidableEq, Repr

/-- The configuration held by the service. -/
structure ExecutionService where
  dockerImage : String
  timeoutSeconds : Int
  memoryLimitMB : Int
  tempDir : String
  deriving DecidableEq, Repr

def NewExecutionService : ExecutionService :=
  { dockerImage := "ubuntu:22.04"
    timeoutSeconds := 10
    memoryLimitMB := 128
    tempDir := "/tmp/leetcode-execution" }

/-! ## The outside world -/

/-- What one docker run gives back: the combined output, whether the context
deadline was exceeded, the error of `CombinedOutput` and the elapsed time. -/
structure RawOutcome where
  output : String := ""
  deadlineExceeded : Bool := false
  err : Option String := none
  elapsedMs : Nat := 0
  deriving DecidableEq, Repr

/-- The answers of the operating system and of docker to the calls of one
`ExecuteCode`: the table of `unicode.ToLower`, the default directory for
temporary files, the error of `os.MkdirAll` if any, the unique part of the name
chosen by `os.MkdirTemp` or its error, the error of writing the code file if
any, for the test case at each position the error of writing its input file if
any and the outcome of its docker run, and the error of the deferred
`os.RemoveAll` if any.  `os.MkdirTemp` only ever answers with the name of a
directory that did not exist before the call (see `isFresh`). -/
structure Host where
  unicodeToLower : Char → Char
  osTempDir : String
  mkdirAll : Option String
  mkdirTemp : Except String String
  writeCodeFile : Option String
  writeInputFile : Nat → Option String
  run : Nat → RawOutcome
  removeAll : Option String := none

/-- The path that `os.MkdirTemp dir "exec-*"` creates when the generated part of
the name is `unique`; an empty `dir` stands for the default directory. -/
def mkdirTempPath (host : Host) (dir unique : String) : String :=
  joinPath (if dir = "" then host.osTempDir else dir) ("exec-" ++ unique)

/-- An effect on the outside world. -/
inductive Event where
  | mkdirAll (path : String)
  | mkdirTemp (path : String)
  | writeFile (path content : String)
  | removeAll (path : String)
  | dockerRun (args : List String)
  deriving DecidableEq, Repr

/-- The directories and the files (path and content) that exist. -/
structure FileSystem where
  dirs : List String := []
  files : List (String × String) := []
  deriving DecidableEq, Repr

/-- The mutable state: the filesystem and the effects so far, oldest first. -/
structure World where
  fs : FileSystem := {}
  log : List Event := []
  deriving DecidableEq, Repr

/-- Whether `path` is `root` or lies below it. -/
def isUnder (root path : String) : Bool :=
  path = root || (root.data ++ ['/']).isPrefixOf path.data

/-- The effect of `os.MkdirAll`: the directory exists afterwards (its parents
are not tracked). -/
def World.mkdirAll (w : World) (path : String) : World :=
  { fs := { w.fs with dirs := if path ∈ w.fs.dirs then w.fs.dirs else w.fs.dirs ++ [path] }
    log := w.log ++ [Event.mkdirAll path] }

/-- The effect of `os.MkdirTemp`: the new directory exists.  The path is the
one the host has chosen, which the operating system takes care to be fresh. -/
def World.mkdirTemp (w : World) (path : String) : World :=
  { fs := { w.fs with dirs := w.fs.dirs ++ [path] }
    log := w.log ++ [Event.mkdirTemp path] }

/-- The effect of `os.WriteFile`: the file holds the content. -/
def World.writeFile (w : World) (path content : String) : World :=
  { fs := { w.fs with files := (w.fs.files.filter (fun f => f.1 ≠ path)) ++ [(path, content)] }
    log := w.log ++ [Event.writeFile path content] }

/-- The effect of `os.RemoveAll`, whose error is `err`: when it succeeds the
path and everything below it is gone; when it fails the path is still there
(what a failed removal has removed below it is not tracked: the tree is left
as it was). -/
def World.removeAll (w : World) (err : Option String) (path : String) : World :=
  { fs :=
      if err.isNone then
        { dirs := w.fs.dirs.filter (fun d => !isUnder path d)
          files := w.fs.files.filter (fun f => !isUnder path f.1) }
      else w.fs
    log := w.log ++ [Event.removeAll path] }

/-- Nothing exists at `path` or below it: what `os.MkdirTemp` makes sure of
for the directory it creates. -/
def isFresh (fs : FileSystem) (path : String) : Bool :=
  fs.dirs.all (fun d => !isUnder path d) && fs.files.all (fun f => !isUnder path f.1)

/-- A docker run leaves the filesystem of the host as it is. -/
def World.dockerRun (w : World) (args : List String) : World :=
  { w with log := w.log ++ [Event.dockerRun args] }

/-- The docker runs recorded in a log, oldest first. -/
def dockerRuns : List Event → List (List String)
  | [] => []
  | Event.dockerRun args :: rest => args :: dockerRuns rest
  | _ :: rest => dockerRuns rest

/-- The file writes recorded in a log, oldest first. -/
def fileWrites : List Event → List (String × String)
  | [] => []
  | Event.writeFile path content :: rest => (path, content) :: fileWrites rest
  | _ :: rest => fileWrites rest

/-! ## The execution service (`backend/pkg/execution/execution.go`) -/

/-- What a call of `ExecuteCode` ends in: the returned pair of result and
error (`none` for a nil error), or a run-time panic. -/
inductive Outcome where
  | returned (result : ExecutionResult) (err : Option String)
  | panicked (msg : String)
  deriving DecidableEq, Repr

def isLanguageSupported (language : String) : Bool :=
  let supportedLanguages := [LanguageJavaScript, LanguagePython, LanguageJava]
  supportedLanguages.any (fun supported => language = supported)

def dangerousPatterns : List String :=
  [ "import os", "import sys", "import subprocess", "import socket",
    "exec(", "eval(", "__import__", "open(", "file(",
    "System.exit", "Runtime.getRuntime", "ProcessBuilder",
    "require(\x27fs\x27)", "require(\x27os\x27)", "require(\x27child_process\x27)",
    "process.exit", "require(\x27net\x27)", "require(\x27http\x27)" ]

/-- The security validation of the submitted code: `none` is Go's nil error,
`some reason` a rejection.  The language is not looked at. -/
def validateCode (lower : Char → Char) (code : String) (_language : String) : Option String :=
  let codeLower := ToLower lower code
  match dangerousPatterns.find? (fun pattern => Contains codeLower (ToLower lower pattern)) with
  | some pattern => some ("code contains potentially dangerous pattern: " ++ pattern)
  | none =>
    if len code > 50000 then some "code exceeds maximum length limit"
    else none

def ValidateCode (lower : Char → Char) (code language : String) : Option String :=
  validateCode lower code language

def wrapJavaScriptCode (userCode : String) : String :=
  "\nconst fs = require(\x27fs\x27);\n\n// Read input\nconst input = fs.readFileSync(\x27/workspace/input.txt\x27, \x27utf8\x27).trim();\n\n// User\x27s solution code\n"
    ++ userCode ++
  "\n\n// Execute and output result\ntry \x7b\n    const result = solution(input);\n    console.log(result);\n\x7d catch (error) \x7b\n    console.error(\x27Runtime Error:\x27, error.message);\n\x7d\n"

def wrapPythonCode (userCode : String) : String :=
  "\nimport sys\n\n# Read input\nwith open(\x27/workspace/input.txt\x27, \x27r\x27) as f:\n    input_data = f.read().strip()\n\n# User\x27s solution code\n"
    ++ userCode ++
  "\n\n# Execute and output result\ntry:\n    result = solution(input_data)\n    print(result)\nexcept Exception as error:\n    print(f\x27Runtime Error: \x7berror\x7d\x27, file=sys.stderr)\n"

def wrapJavaCode (userCode : String) : String :=
  "\nimport java.io.*;\nimport java.util.*;\n\npublic class Solution \x7b\n    "
    ++ userCode ++
  "\n    \n    public static void main(String[] args) \x7b\n        try \x7b\n            Scanner scanner = new Scanner(new File(\"/workspace/input.txt\"));\n            String input = scanner.nextLine();\n            scanner.close();\n            \n            Solution sol = new Solution();\n            String result = sol.solution(input);\n            System.out.println(result);\n        \x7d catch (Exception error) \x7b\n            System.err.println(\"Runtime Error: \" + error.getMessage());\n        \x7d\n    \x7d\n\x7d\n"

/-- The docker arguments for one run. -/
def buildDockerCommand (es : ExecutionService) (execDir codeFile language : String) : List String :=
  let baseCmd :=
    [ "run",
      "--rm",
      "--network=none",
      "--read-only",
      "--tmpfs", "/tmp:rw,noexec,nosuid,size=10m",
      "--memory=" ++ toString es.memoryLimitMB ++ "m",
      "--cpus=0.5",
      "--user", "nobody",
      "-v", execDir ++ ":/workspace:ro",
      "-w", "/workspace" ]
  if language = LanguageJavaScript then
    baseCmd ++ ["node:18-alpine", "timeout", toString es.timeoutSeconds ++ "s", "node", Base codeFile]
  else if language = LanguagePython then
    baseCmd ++ ["python:3.11-alpine", "timeout", toString es.timeoutSeconds ++ "s", "python3",
      Base codeFile]
  else if language = LanguageJava then
    let className := TrimSuffix (Base codeFile) ".java"
    baseCmd ++ ["openjdk:17-alpine", "sh", "-c",
      "javac " ++ Base codeFile ++ " && timeout " ++ toString es.timeoutSeconds ++ "s java "
        ++ className]
  else
    baseCmd ++ ["alpine:latest", "echo", "Unsupported language"]

/-- Validate the code, wrap it in the harness of its language and write the
code file into the execution directory. -/
def prepareCodeFile (es : ExecutionService) (host : Host) (w : World)
    (execDir code language : String) : Except String String × World :=
  let _ := es
  match validateCode host.unicodeToLower code language with
  | some err => (.error err, w)
  | none =>
    let named : Option (String × String) :=
      if language = LanguageJavaScript then some ("solution.js", wrapJavaScriptCode code)
      else if language = LanguagePython then some ("solution.py", wrapPythonCode code)
      else if language = LanguageJava then some ("Solution.java", wrapJavaCode code)
      else none
    match named with
    | none => (.error ("unsupported language: " ++ language), w)
    | some (filename, finalCode) =>
      let codeFile := Join execDir filename
      match host.writeCodeFile with
      | some err => (.error ("failed to write code file: " ++ err), w)
      | none => (.ok codeFile, w.writeFile codeFile finalCode)

/-- Make sure the base directory exists and create the directory of this
execution; the host chooses the unique part of its name. -/
def createTempDir (es : ExecutionService) (host : Host) (w : World) :
    Except String String × World :=
  match host.mkdirAll with
  | some err => (.error err, w)
  | none =>
    let w1 := w.mkdirAll es.tempDir
    match host.mkdirTemp with
    | .error err => (.error err, w1)
    | .ok unique =>
      let execDir := mkdirTempPath host es.tempDir unique
      (.ok execDir, w1.mkdirTemp execDir)

def estimateMemoryUsage (output : String) : Nat :=
  let baseMemory := 1024
  let outputMemory := len output / 100
  baseMemory + outputMemory

/-- The second half of `executeTestCase`: the test result built from the raw
outcome of the run, with the deadline check, the error check and the
comparison of the trimmed outputs, in that order. -/
def buildTestResult (testCase : TestCase) (raw : RawOutcome) : TestResult :=
  let runtime := raw.elapsedMs
  let result : TestResult :=
    { Input := testCase.Input
      ExpectedOutput := TrimSpace testCase.ExpectedOutput
      ActualOutput := TrimSpace raw.output
      RuntimeMs := runtime
      MemoryKb := estimateMemoryUsage raw.output }
  if raw.deadlineExceeded then
    { result with ActualOutput := "timeout", Passed := false }
  else
    match raw.err with
    | some err => { result with ActualOutput := "error: " ++ err, Passed := false }
    | none => { result with Passed := result.ExpectedOutput = result.ActualOutput }

/-- Run the test case at position `i` of the list: write the input file, run
docker on the command of the language and build the test result. -/
def executeTestCase (es : ExecutionService) (host : Host) (i : Nat) (w : World)
    (execDir codeFile language : String) (testCase : TestCase) :
    Except String TestResult × World :=
  let inputFile := Join execDir "input.txt"
  match host.writeInputFile i with
  | some err => (.error ("failed to create input file: " ++ err), w)
  | none =>
    let w1 := w.writeFile inputFile testCase.Input
    let dockerCmd := buildDockerCommand es execDir codeFile language
    let w2 := w1.dockerRun dockerCmd
    (.ok (buildTestResult testCase (host.run i)), w2)

/-- The local variables of `ExecuteCode` that the loop over the test cases updates. -/
structure LoopState where
  result : ExecutionResult
  totalRuntime : Nat := 0
  maxMemory : Nat := 0
  deriving DecidableEq, Repr

/-- How the loop over the test cases is left: by the `return` inside it, or by
running to its end or to its `break`. -/
inductive LoopExit where
  | returned (result : ExecutionResult)
  | finished (s : LoopState)
  deriving DecidableEq, Repr

/-- The status chosen for the first failing test case from its actual output. -/
def failureStatus (actualOutput : String) : String :=
  if Contains actualOutput "timeout" then StatusTimeLimitExceeded
  else if Contains actualOutput "memory" then StatusMemoryLimitExceeded
  else if Contains actualOutput "error" || Contains actualOutput "Error" then StatusRuntimeError
  else StatusWrongAnswer

/-- The loop of `ExecuteCode` over the test cases from position `i` on. -/
def runTestCases (es : ExecutionService) (host : Host) (execDir codeFile language : String) :
    Nat → List TestCase → LoopState → World → LoopExit × World
  | _, [], s, w => (.finished s, w)
  | i, testCase :: rest, s, w =>
    match executeTestCase es host i w execDir codeFile language testCase with
    | (.error err, w1) =>
      (.returned { s.result with Status := StatusInternalError, ErrorMessage := err }, w1)
    | (.ok testResult, w1) =>
      let result := { s.result with TestResults := s.result.TestResults ++ [testResult] }
      let totalRuntime := s.totalRuntime + testResult.RuntimeMs
      let maxMemory := if testResult.MemoryKb > s.maxMemory then testResult.MemoryKb else s.maxMemory
      if testResult.Passed then
        runTestCases es host execDir codeFile language (i + 1) rest
          { result := { result with TestCasesPassed := result.TestCasesPassed + 1 }
            totalRuntime := totalRuntime
            maxMemory := maxMemory } w1
      else
        (.finished
          { result :=
              { result with
                Status := failureStatus testResult.ActualOutput
                ErrorMessage := "Test case failed: expected " ++ testResult.ExpectedOutput
                  ++ ", got " ++ testResult.ActualOutput }
            totalRuntime := totalRuntime
            maxMemory := maxMemory }, w1)

/-- The part of `ExecuteCode` that runs once the execution directory exists,
that is between registering the deferred removal and the removal itself. -/
def executeInDir (es : ExecutionService) (host : Host) (w : World)
    (execDir code language : String) (testCases : List TestCase) : Outcome × World :=
  match prepareCodeFile es host w execDir code language with
  | (.error err, w1) =>
    (.returned { Status := StatusInternalError, ErrorMessage := "Failed to prepare code file" }
      (some err), w1)
  | (.ok codeFile, w1) =>
    let result : ExecutionResult := { TotalTestCases := testCases.length, TestResults := [] }
    match runTestCases es host execDir codeFile language 0 testCases { result := result } w1 with
    | (.returned result, w2) => (.returned result none, w2)
    | (.finished s, w2) =>
      let result :=
        if s.result.TestCasesPassed = s.result.TotalTestCases then
          { s.result with Status := StatusAccepted }
        else s.result
      if testCases.length = 0 then
        (.panicked "runtime error: integer divide by zero", w2)
      else
        (.returned { result with RuntimeMs := s.totalRuntime / testCases.length
                                 MemoryKb := s.maxMemory } none, w2)

/-- Run the code against the test cases.  The removal of the execution
directory is deferred in the source, so it happens on every way out of
`executeInDir`, a panic included; its own error is discarded there. -/
def ExecuteCode (es : ExecutionService) (host : Host) (w : World)
    (code language : String) (testCases : List TestCase) : Outcome × World :=
  if !isLanguageSupported language then
    (.returned { Status := StatusInternalError
                 ErrorMessage := "Unsupported language: " ++ language } none, w)
  else
    match createTempDir es host w with
    | (.error err, w1) =>
      (.returned { Status := StatusInternalError
                   ErrorMessage := "Failed to create temporary directory" } (some err), w1)
    | (.ok execDir, w1) =>
      match executeInDir es host w1 execDir code language testCases with
      | (out, w2) => (out, w2.removeAll host.removeAll execDir)

/-! ## Sample hosts and inputs -/

/-- A host on which every filesystem call succeeds, the execution directory
gets the name `exec-1` and the run of test case `i` yields `runs i`; only
ASCII letters are lowered. -/
def okHost (runs : Nat → RawOutcome) : Host :=
  { unicodeToLower := Char.toLower
    osTempDir := "/tmp"
    mkdirAll := none
    mkdirTemp := .ok "1"
    writeCodeFile := none
    writeInputFile := fun _ => none
    run := runs }

/-- The runs of a list of raw outcomes; beyond the list the run is empty. -/
def runsOf (outcomes : List RawOutcome) : Nat → RawOutcome :=
  fun i => outcomes.getD i {}

/-- A valid Python submission. -/
def sampleCode : String := "def solution(x): return x"

/-- A test case with input `1` and expected output `42`. -/
def sampleTest : TestCase := { Input := "1", ExpectedOutput := "42" }

/-- The result of running `sampleCode` on `sampleTest` when the run prints `42` after 5 ms. -/
def acceptedSample : ExecutionResult :=
  { Status := StatusAccepted
    RuntimeMs := 5
    MemoryKb := 1024
    TestCasesPassed := 1
    TotalTestCases := 1
    TestResults :=
      [{ Input := "1", ExpectedOutput := "42", ActualOutput := "42", Passed := true,
         RuntimeMs := 5, MemoryKb := 1024 }] }

/-! ## Vocabulary of the statements -/

/-- The calls that `ExecuteCode` makes before the first test case all succeed:
the language is supported, the directories get created, the code is valid and
the code file gets written. -/
def setupOk (host : Host) (code language : String) : Bool :=
  isLanguageSupported language && host.mkdirAll.isNone && host.mkdirTemp.toBool &&
    (validateCode host.unicodeToLower code language).isNone && host.writeCodeFile.isNone

/-- The test case at position `i` is run and passes. -/
def passesAt (host : Host) (i : Nat) (testCase : TestCase) : Bool :=
  (host.writeInputFile i).isNone && (buildTestResult testCase (host.run i)).Passed

/-- Every test case of the list, the first of which is at position `i`, is
run and passes. -/
def allPassFrom (host : Host) : Nat → List TestCase → Bool
  | _, [] => true
  | i, testCase :: rest => passesAt host i testCase && allPassFrom host (i + 1) rest

/-- The test results of the test cases of the list, the first of which is at
position `i`. -/
def resultsFrom (host : Host) : Nat → List TestCase → List TestResult
  | _, [] => []
  | i, testCase :: rest => buildTestResult testCase (host.run i) :: resultsFrom host (i + 1) rest

/-- The effects of running one test case: the input file is written and docker is run. -/
def runEvents (es : ExecutionService) (execDir codeFile language : String)
    (testCase : TestCase) : List Event :=
  [ Event.writeFile (Join execDir "input.txt") testCase.Input,
    Event.dockerRun (buildDockerCommand es execDir codeFile language) ]

/-- What `ExecuteCode` makes of the way the loop was left. -/
def conclude (host : Host) (testCases : List TestCase) (execDir : String) :
    LoopExit × World → Outcome × World
  | (.returned result, w2) => (.returned result none, w2.removeAll host.removeAll execDir)
  | (.finished s, w2) =>
    (if testCases.length = 0 then .panicked "runtime error: integer divide by zero"
     else
      .returned
        { (if s.result.TestCasesPassed = s.result.TotalTestCases then
            { s.result with Status := StatusAccepted }
           else s.result) with
          RuntimeMs := s.totalRuntime / testCases.length
          MemoryKb := s.maxMemory } none,
     w2.removeAll host.removeAll execDir)

/-- The running maximum of the memory figures, as the loop keeps it: it starts
at `m` and is replaced by each larger figure. -/
def maxMemoryFrom (m : Nat) : List TestResult → Nat
  | [] => m
  | testResult :: rest =>
    maxMemoryFrom (if testResult.MemoryKb > m then testResult.MemoryKb else m) rest

/-- A host like `okHost` on which the input file of the test case at position
`k` cannot be written. -/
def inputWriteFailsAt (k : Nat) (runs : Nat → RawOutcome) : Host :=
  { okHost runs with
    writeInputFile := fun i => if i = k then some "no space left on device" else none }

/-- The error message of the result that `ExecuteCode` returns when its set-up
fails, by the step that fails first. -/
def setupFailureMessage (host : Host) (language : String) : String :=
  if !isLanguageSupported language then "Unsupported language: " ++ language
  else if !host.mkdirAll.isNone || !host.mkdirTemp.toBool then
    "Failed to create temporary directory"
  else "Failed to prepare code file"

/-- Two results agree on the verdict: on the status, the counters, the error
message and, test result by test result, on the pass flag and the actual output. -/
def sameVerdict (r1 r2 : ExecutionResult) : Prop :=
  r1.Status = r2.Status ∧ r1.TestCasesPassed = r2.TestCasesPassed ∧
  r1.ErrorMessage = r2.ErrorMessage ∧ r1.TotalTestCases = r2.TotalTestCases ∧
  r1.TestResults.map (fun tr => (tr.Passed, tr.ActualOutput))
    = r2.TestResults.map (fun tr => (tr.Passed, tr.ActualOutput))

/-! ## Machine integers -/

/-- The value of a computation on Go's 64-bit `int`: the exact result wrapped
into the range from `-2^63` to `2^63 - 1`. -/
def wrapInt64 (x : Int) : Int :=
  (x + 9223372036854775808) % 18446744073709551616 - 9223372036854775808

/-! ## The submission service (`backend/pkg/services/submission_service.go`) -/

/-- The type `models.Submission`; a nil pointer is `none`, the submission time a number. -/
structure Submission where
  ID : Int := 0
  UserID : Int := 0
  ProblemID : Int := 0
  Language : String := ""
  Code : String := ""
  Status : String := ""
  RuntimeMs : Option Int := none
  MemoryKb : Option Int := none
  TestCasesPassed : Int := 0
  TotalTestCases : Int := 0
  ErrorMessage : Option String := none
  SubmittedAt : Nat := 0
  deriving DecidableEq, Repr

structure SubmissionRequest where
  UserID : Int := 0
  ProblemID : Int := 0
  Language : String := ""
  Code : String := ""
  deriving DecidableEq, Repr

structure SubmissionResponse where
  ID : Int := 0
  Status : String := ""
  RuntimeMs : Option Int := none
  MemoryKb : Option Int := none
  TestCasesPassed : Int := 0
  TotalTestCases : Int := 0
  ErrorMessage : Option String := none
  SubmittedAt : Nat := 0
  TestResults : List TestResult := []
  deriving DecidableEq, Repr

structure SubmissionListResponse where
  Submissions : List Submission := []
  Total : Int := 0
  Page : Int := 0
  PageSize : Int := 0
  HasNext : Bool := false
  deriving DecidableEq, Repr

/-- What the collaborators of the submission service answer: the test case
repository, the execution service and the submission repository. -/
structure SubmissionDeps where
  getTestCases : Int → Except String (List TestCase)
  executeCode : String → String → List TestCase → Outcome
  createSubmission : Submission → Except String Submission

/-- What a call of `ProcessSubmission` ends in: a response with a nil error, a
nil response with an error, or a panic of the execution service. -/
inductive SubmissionOutcome where
  | response (r : SubmissionResponse)
  | failed (err : String)
  | panicked (msg : String)
  deriving DecidableEq, Repr

def validateSubmissionRequest (req : SubmissionRequest) : Option String :=
  if req.UserID ≤ 0 then some "invalid user ID"
  else if req.ProblemID ≤ 0 then some "invalid problem ID"
  else if req.Code = "" then some "code cannot be empty"
  else if req.Language = "" then some "language cannot be empty"
  else
    let supportedLanguages := [LanguageJavaScript, LanguagePython, LanguageJava]
    let languageSupported := supportedLanguages.any (fun lang => req.Language = lang)
    if !languageSupported then some ("unsupported language: " ++ req.Language)
    else none

/-- The loop that keeps the results of the public test cases: the result at
position `i` is appended when there is a test case at position `i` and it is
not hidden. -/
def publicTestResultsFrom (testCases : List TestCase) :
    Nat → List TestResult → List TestResult → List TestResult
  | _, [], kept => kept
  | i, testResult :: rest, kept =>
    match testCases[i]? with
    | some testCase =>
      if !testCase.IsHidden then publicTestResultsFrom testCases (i + 1) rest (kept ++ [testResult])
      else publicTestResultsFrom testCases (i + 1) rest kept
    | none => publicTestResultsFrom testCases (i + 1) rest kept

/-- The test results that `ProcessSubmission` and the handler `SubmitCode` put
into their response. -/
def publicTestResults (testCases : List TestCase) (results : List TestResult) :
    List TestResult :=
  publicTestResultsFrom testCases 0 results []

/-- Process a submission: validate it, run it against all test cases of the
problem, store it and answer with the results of the public test cases.  The
update of the user progress that follows an accepted submission only writes to
its own repository and logs its error; it has no part in the outcome. -/
def ProcessSubmission (deps : SubmissionDeps) (req : SubmissionRequest) : SubmissionOutcome :=
  match validateSubmissionRequest req with
  | some err => .failed ("invalid submission request: " ++ err)
  | none =>
    match deps.getTestCases req.ProblemID with
    | .error err => .failed ("failed to retrieve test cases: " ++ err)
    | .ok testCases =>
      if testCases.length = 0 then
        .failed ("no test cases available for problem " ++ toString req.ProblemID)
      else
        match deps.executeCode req.Code req.Language testCases with
        | .panicked msg => .panicked msg
        | .returned _ (some err) => .failed ("code execution failed: " ++ err)
        | .returned executionResult none =>
          let submission : Submission :=
            { UserID := req.UserID
              ProblemID := req.ProblemID
              Language := req.Language
              Code := req.Code
              Status := executionResult.Status
              TestCasesPassed := executionResult.TestCasesPassed
              TotalTestCases := executionResult.TotalTestCases
              RuntimeMs :=
                if executionResult.RuntimeMs > 0 then some executionResult.RuntimeMs else none
              MemoryKb :=
                if executionResult.MemoryKb > 0 then some executionResult.MemoryKb else none
              ErrorMessage :=
                if executionResult.ErrorMessage ≠ "" then some executionResult.ErrorMessage
                else none }
          match deps.createSubmission submission with
          | .error err => .failed ("failed to store submission: " ++ err)
          | .ok createdSubmission =>
            .response
              { ID := createdSubmission.ID
                Status := createdSubmission.Status
                RuntimeMs := createdSubmission.RuntimeMs
                MemoryKb := createdSubmission.MemoryKb
                TestCasesPassed := createdSubmission.TestCasesPassed
                TotalTestCases := createdSubmission.TotalTestCases
                ErrorMessage := createdSubmission.ErrorMessage
                SubmittedAt := createdSubmission.SubmittedAt
                TestResults := publicTestResults testCases executionResult.TestResults }

/-- The common body of `GetUserSubmissions`, `GetProblemSubmissions` and
`GetUserProblemSubmissions`: `query limit offset` is the call of the repository
and `failure` the text put before its error. -/
def listSubmissions (query : Int → Int → Except String (List Submission)) (failure : String)
    (page pageSize : Int) : Except String SubmissionListResponse :=
  let page := if page < 1 then 1 else page
  let pageSize := if pageSize < 1 ∨ pageSize > 100 then 20 else pageSize
  let offset := wrapInt64 ((page - 1) * pageSize)
  match query (pageSize + 1) offset with
  | .error err => .error (failure ++ err)
  | .ok submissions =>
    let hasNext := decide ((submissions.length : Int) > pageSize)
    let submissions := if hasNext then submissions.take pageSize.toNat else submissions
    .ok { Submissions := submissions
          Total := submissions.length
          Page := page
          PageSize := pageSize
          HasNext := hasNext }

def GetUserSubmissions (getByUserID : Int → Int → Int → Except String (List Submission))
    (userID page pageSize : Int) : Except String SubmissionListResponse :=
  listSubmissions (getByUserID userID) "failed to retrieve user submissions: " page pageSize

def GetProblemSubmissions (getByProblemID : Int → Int → Int → Except String (List Submission))
    (problemID page pageSize : Int) : Except String SubmissionListResponse :=
  listSubmissions (getByProblemID problemID) "failed to retrieve problem submissions: " page
    pageSize

def GetUserProblemSubmissions
    (getByUserAndProblem : Int → Int → Int → Int → Except String (List Submission))
    (userID problemID page pageSize : Int) : Except String SubmissionListResponse :=
  listSubmissions (getByUserAndProblem userID problemID)
    "failed to retrieve user problem submissions: " page pageSize

/-- The integer entries of the statistics map (the acceptance rate, a
floating-point number, is left out). -/
structure SubmissionStats where
  total_submissions : Int := 0
  accepted : Int := 0
  wrong_answer : Int := 0
  time_limit_exceeded : Int := 0
  memory_limit_exceeded : Int := 0
  runtime_error : Int := 0
  compile_error : Int := 0
  avg_runtime_ms : Int := 0
  avg_memory_kb : Int := 0
  deriving DecidableEq, Repr

/-- The variables that the loop of `GetUserSubmissionStats` updates. -/
structure StatsLoop where
  stats : SubmissionStats
  totalRuntime : Int := 0
  totalMemory : Int := 0
  runtimeCount : Int := 0
  memoryCount : Int := 0
  deriving DecidableEq, Repr

/-- One turn of the loop of `GetUserSubmissionStats`; the totals are 64-bit sums. -/
def statsStep (s : StatsLoop) (submission : Submission) : StatsLoop :=
  let stats :=
    if submission.Status = StatusAccepted then { s.stats with accepted := s.stats.accepted + 1 }
    else if submission.Status = StatusWrongAnswer then
      { s.stats with wrong_answer := s.stats.wrong_answer + 1 }
    else if submission.Status = StatusTimeLimitExceeded then
      { s.stats with time_limit_exceeded := s.stats.time_limit_exceeded + 1 }
    else if submission.Status = StatusMemoryLimitExceeded then
      { s.stats with memory_limit_exceeded := s.stats.memory_limit_exceeded + 1 }
    else if submission.Status = StatusRuntimeError then
      { s.stats with runtime_error := s.stats.runtime_error + 1 }
    else if submission.Status = StatusCompileError then
      { s.stats with compile_error := s.stats.compile_error + 1 }
    else s.stats
  let (totalRuntime, runtimeCount) :=
    match submission.RuntimeMs with
    | some runtime => (wrapInt64 (s.totalRuntime + runtime), s.runtimeCount + 1)
    | none => (s.totalRuntime, s.runtimeCount)
  let (totalMemory, memoryCount) :=
    match submission.MemoryKb with
    | some memory => (wrapInt64 (s.totalMemory + memory), s.memoryCount + 1)
    | none => (s.totalMemory, s.memoryCount)
  { stats := stats
    totalRuntime := totalRuntime
    totalMemory := totalMemory
    runtimeCount := runtimeCount
    memoryCount := memoryCount }

/-- The statistics computed from the submissions that the repository returned. -/
def submissionStats (submissions : List Submission) : SubmissionStats :=
  let stats : SubmissionStats := { total_submissions := submissions.length }
  if submissions.length = 0 then stats
  else
    let s := submissions.foldl statsStep { stats := stats }
    let stats :=
      if s.runtimeCount > 0 then
        { s.stats with avg_runtime_ms := Int.tdiv s.totalRuntime s.runtimeCount }
      else s.stats
    if s.memoryCount > 0 then
      { stats with avg_memory_kb := Int.tdiv s.totalMemory s.memoryCount }
    else stats

def GetUserSubmissionStats (getByUserID : Int → Int → Int → Except String (List Submission))
    (userID : Int) : Except String SubmissionStats :=
  match getByUserID userID 1000 0 with
  | .error err => .error ("failed to retrieve user submissions for stats: " ++ err)
  | .ok submissions => .ok (submissionStats submissions)

/-! ## The handler `SubmitCode` (`backend/pkg/handlers/execution_handlers.go`) -/

structure ExecuteCodeRequest where
  Code : String := ""
  Language : String := ""
  ProblemID : Int := 0
  deriving DecidableEq, Repr

/-- What the handler answers: the result with the status 200, an error
message with its status, or a panic of the execution service. -/
inductive HandlerReply where
  | ok (result : ExecutionResult)
  | error (status : Nat) (message : String)
  | panicked (msg : String)
  deriving DecidableEq, Repr

/-- Run a submission against all test cases and answer with the result, of
which only the results of the public test cases are kept; `request` is `none`
when the payload cannot be bound. -/
def SubmitCode (getTestCases : Int → Except String (List TestCase))
    (executeCode : String → String → List TestCase → Outcome)
    (request : Option ExecuteCodeRequest) : HandlerReply :=
  match request with
  | none => .error 400 "Invalid request payload"
  | some req =>
    match getTestCases req.ProblemID with
    | .error _ => .error 500 "Failed to retrieve test cases"
    | .ok testCases =>
      if testCases.length = 0 then .error 400 "No test cases available for this problem"
      else
        match executeCode req.Code req.Language testCases with
        | .panicked msg => .panicked msg
        | .returned _ (some _) => .error 500 "Code execution failed"
        | .returned result none =>
          .ok { Status := result.Status
                Output := result.Output
                ErrorMessage := result.ErrorMessage
                RuntimeMs := result.RuntimeMs
                MemoryKb := result.MemoryKb
                TestCasesPassed := result.TestCasesPassed
                TotalTestCases := result.TotalTestCases
                TestResults := publicTestResults testCases result.TestResults }

/-! ## The problem service (`backend/pkg/services/problem_service.go`) -/

structure Example where
  Input : String := ""
  Output : String := ""
  Explanation : String := ""
  deriving DecidableEq, Repr

/-- The type `models.Problem`, without its two time stamps; the template code,
a map in the source, is the list of its entries in the order of iteration. -/
structure Problem where
  ID : Int := 0
  Title : String := ""
  Slug : String := ""
  Description : String := ""
  Difficulty : String := ""
  Tags : List String := []
  Examples : List Example := []
  Constraints : String := ""
  TemplateCode : List (String × String) := []
  deriving DecidableEq, Repr

def DifficultyEasy : String := "Easy"
def DifficultyMedium : String := "Medium"
def DifficultyHard : String := "Hard"

/-- Go `strings.Trim`: drop the leading and the trailing characters that are in the cutset. -/
def Trim (s cutset : String) : String :=
  ⟨((s.data.dropWhile (fun c => cutset.data.contains c)).reverse.dropWhile
      (fun c => cutset.data.contains c)).reverse⟩

/-- The characters that the pattern `[^a-z0-9]+` leaves alone. -/
def isSlugChar (c : Char) : Bool :=
  (97 ≤ c.toNat && c.toNat ≤ 122) || (48 ≤ c.toNat && c.toNat ≤ 57)

/-- Go `ReplaceAllString` for the pattern `[^a-z0-9]+` and the replacement `-`:
every maximal run of other characters becomes one hyphen; `inRun` tells that
the run the next character would belong to has been replaced already. -/
def replaceNonSlugRuns (inRun : Bool) : List Char → List Char
  | [] => []
  | c :: cs =>
    if isSlugChar c then c :: replaceNonSlugRuns false cs
    else if inRun then replaceNonSlugRuns true cs
    else '-' :: replaceNonSlugRuns true cs

def generateSlug (lower : Char → Char) (title : String) : String :=
  let slug := ToLower lower title
  let slug : String := ⟨replaceNonSlugRuns false slug.data⟩
  Trim slug "-"

/-- The loop of `validateProblem` over the examples, from example number `i + 1` on. -/
def validateExamples : Nat → List Example → Option String
  | _, [] => none
  | i, ex :: rest =>
    if TrimSpace ex.Input = "" then
      some ("example " ++ toString (i + 1) ++ " input is required")
    else if TrimSpace ex.Output = "" then
      some ("example " ++ toString (i + 1) ++ " output is required")
    else validateExamples (i + 1) rest

/-- The loop of `validateProblem` over the entries of the template code. -/
def validateTemplateCode : List (String × String) → Option String
  | [] => none
  | (lang, code) :: rest =>
    if ¬ (lang = LanguageJavaScript ∨ lang = LanguagePython ∨ lang = LanguageJava) then
      some ("unsupported language: " ++ lang)
    else if TrimSpace code = "" then
      some ("template code for " ++ lang ++ " cannot be empty")
    else validateTemplateCode rest

def validateProblem (problem : Problem) : Option String :=
  if TrimSpace problem.Title = "" then some "title is required"
  else if len problem.Title > 200 then some "title must be 200 characters or less"
  else if TrimSpace problem.Description = "" then some "description is required"
  else if ¬ (problem.Difficulty = DifficultyEasy ∨ problem.Difficulty = DifficultyMedium ∨
      problem.Difficulty = DifficultyHard) then
    some "difficulty must be one of: Easy, Medium, Hard"
  else if problem.Examples.length = 0 then some "at least one example is required"
  else
    match validateExamples 0 problem.Examples with
    | some err => some err
    | none =>
      if problem.TemplateCode.length = 0 then some "at least one template code is required"
      else validateTemplateCode problem.TemplateCode

/-- Create a problem: validate it, generate the slug when none is given and
hand the problem to the repository, whose answer is `create`.  The second
component is the problem that a successful creation has stored. -/
def CreateProblem (lower : Char → Char) (create : Problem → Except String Problem)
    (problem : Problem) : Except String Problem × Option Problem :=
  match validateProblem problem with
  | some err => (.error ("validation failed: " ++ err), none)
  | none =>
    let problem :=
      if problem.Slug = "" then { problem with Slug := generateSlug lower problem.Title }
      else problem
    match create problem with
    | .error err => (.error ("failed to create problem: " ++ err), none)
    | .ok created => (.ok created, some problem)

/-- A repository that stores the row it is given under the identifier 1. -/
def storeSubmission (submission : Submission) : Except String Submission :=
  .ok { submission with ID := 1, SubmittedAt := 1730000000 }

/-- A repository that stores the problem it is given under the identifier 1. -/
def storeProblem (problem : Problem) : Except String Problem :=
  .ok { problem with ID := 1 }

/-! ## Samples and vocabulary for the services -/

/-- A hidden test case with input `1` and the given expected output. -/
def hiddenTest (expected : String) : TestCase :=
  { Input := "1", ExpectedOutput := expected, IsHidden := true }

/-- A valid request of user 1 for problem 1. -/
def sampleRequest : SubmissionRequest :=
  { UserID := 1, ProblemID := 1, Language := "python", Code := sampleCode }

/-- The collaborators of the submission service for a problem with the given
test cases: the execution service with its default settings on the given host
and a submission repository that stores every row. -/
def sampleDeps (testCases : List TestCase) (host : Host) : SubmissionDeps :=
  { getTestCases := fun _ => .ok testCases
    executeCode := fun code language testCases =>
      (ExecuteCode NewExecutionService host {} code language testCases).1
    createSubmission := storeSubmission }

/-- The results of the public test cases, as the specification words them: the
results at the positions whose test case is not hidden, in their order. -/
def publicResultsSpec (testCases : List TestCase) (results : List TestResult) :
    List TestResult :=
  ((results.zip testCases).filter (fun p => !p.2.IsHidden)).map Prod.fst

/-- The number of submissions that have exactly the given status. -/
def countStatus (status : String) (submissions : List Submission) : Int :=
  (submissions.filter (fun s => decide (s.Status = status))).length

/-- The run times of the submissions that have one, in their order. -/
def runtimeValues (submissions : List Submission) : List Int :=
  submissions.filterMap (fun s => s.RuntimeMs)

/-- The memory figures of the submissions that have one, in their order. -/
def memoryValues (submissions : List Submission) : List Int :=
  submissions.filterMap (fun s => s.MemoryKb)

/-- The average as the specification words it: the truncating quotient of the
sum of the values by their number, and 0 when there is no value. -/
def truncatedAverage (values : List Int) : Int :=
  if values.length = 0 then 0 else Int.tdiv values.sum values.length

/-- Three stored submissions: two accepted ones and a wrong answer. -/
def statsSample : List Submission :=
  [{ ID := 1, Status := StatusAccepted, RuntimeMs := some 100, MemoryKb := some 1024 },
   { ID := 2, Status := StatusWrongAnswer, RuntimeMs := some 200, MemoryKb := some 2048 },
   { ID := 3, Status := StatusAccepted, RuntimeMs := some 200, MemoryKb := some 1024 }]

/-- A problem that passes `validateProblem` and whose title has no letter and no digit. -/
def symbolProblem : Problem :=
  { Title := "???"
    Description := "What is asked"
    Difficulty := DifficultyEasy
    Examples := [{ Input := "1", Output := "1" }]
    TemplateCode := [("javascript", "function solution(x) \x7b return x; \x7d")] }

/-- A host like `okHost` on which the deferred removal of the execution
directory fails. -/
def removalFailsHost (runs : Nat → RawOutcome) : Host :=
  { okHost runs with removeAll := some "unlinkat /tmp/leetcode-execution/exec-1: device busy" }

/-- A world in which the base directory and a file of another execution exist. -/
def usedWorld : World :=
  { fs := { dirs := ["/tmp/leetcode-execution", "/tmp/leetcode-execution/exec-0"]
            files := [("/tmp/leetcode-execution/exec-0/input.txt", "7")] } }

/-! ## The loop over the test cases -/

theorem executeTestCase_write_failed (es : ExecutionService) (host : Host) (i : Nat) (w : World)
    (execDir codeFile language : String) (testCase : TestCase) (err : String)
    (h : host.writeInputFile i = some err) :
    executeTestCase es host i w execDir codeFile language testCase
      = (.error ("failed to create input file: " ++ err), w) := by
  simp [executeTestCase, h]

theorem executeTestCase_run (es : ExecutionService) (host : Host) (i : Nat) (w : World)
    (execDir codeFile language : String) (testCase : TestCase)
    (h : host.writeInputFile i = none) :
    executeTestCase es host i w execDir codeFile language testCase
      = (.ok (buildTestResult testCase (host.run i)),
          (w.writeFile (Join execDir "input.txt") testCase.Input).dockerRun
            (buildDockerCommand es execDir codeFile language)) := by
  simp [executeTestCase, h]

theorem runStep_log (es : ExecutionService) (w : World)
    (execDir codeFile language : String) (testCase : TestCase) :
    ((w.writeFile (Join execDir "input.txt") testCase.Input).dockerRun
        (buildDockerCommand es execDir codeFile language)).log
      = w.log ++ runEvents es execDir codeFile language testCase := by
  simp [World.writeFile, World.dockerRun, runEvents]

theorem runStep_dirs (w : World) (path content : String) (args : List String) :
    ((w.writeFile path content).dockerRun args).fs.dirs = w.fs.dirs := by
  simp [World.writeFile, World.dockerRun]

theorem resultsFrom_length (host : Host) (tcs : List TestCase) :
    ∀ i, (resultsFrom host i tcs).length = tcs.length := by
  induction tcs with
  | nil => intro i; rfl
  | cons tc rest ih => intro i; simp [resultsFrom, ih]

theorem resultsFrom_getElem? (host : Host) (tcs : List TestCase) :
    ∀ i j, (resultsFrom host i tcs)[j]?
      = (tcs[j]?).map (fun tc => buildTestResult tc (host.run (i + j))) := by
  induction tcs with
  | nil => intro i j; simp [resultsFrom]
  | cons tc rest ih =>
    intro i j
    cases j with
    | zero => simp [resultsFrom]
    | succ j =>
      simp only [resultsFrom, List.getElem?_cons_succ, ih]
      have : i + 1 + j = i + (j + 1) := by omega
      rw [this]

theorem resultsFrom_passed (host : Host) (tcs : List TestCase) :
    ∀ i, allPassFrom host i tcs = true → ∀ r ∈ resultsFrom host i tcs, r.Passed = true := by
  induction tcs with
  | nil => intro i _ r hr; simp [resultsFrom] at hr
  | cons tc rest ih =>
    intro i h r hr
    simp only [allPassFrom, passesAt, Bool.and_eq_true] at h
    simp only [resultsFrom, List.mem_cons] at hr
    rcases hr with hr | hr
    · rw [hr]; exact h.1.2
    · exact ih (i + 1) h.2 r hr

/-- While the test cases pass, the loop goes on: it reaches the rest of the list
with the passed results recorded. -/
theorem runTestCases_passing (es : ExecutionService) (host : Host)
    (execDir codeFile language : String) (pre rest : List TestCase) :
    ∀ (i : Nat) (s : LoopState) (w : World), allPassFrom host i pre = true →
    ∃ s' w',
      runTestCases es host execDir codeFile language i (pre ++ rest) s w
        = runTestCases es host execDir codeFile language (i + pre.length) rest s' w' ∧
      s'.result.TestCasesPassed = s.result.TestCasesPassed + pre.length ∧
      s'.result.TotalTestCases = s.result.TotalTestCases ∧
      s'.result.Status = s.result.Status ∧
      s'.result.ErrorMessage = s.result.ErrorMessage ∧
      s'.result.TestResults = s.result.TestResults ++ resultsFrom host i pre ∧
      s'.totalRuntime = s.totalRuntime + ((resultsFrom host i pre).map (·.RuntimeMs)).sum ∧
      w'.log = w.log ++ pre.flatMap (runEvents es execDir codeFile language) ∧
      w'.fs.dirs = w.fs.dirs := by
  induction pre with
  | nil =>
    intro i s w _
    exact ⟨s, w, by simp, by simp, rfl, rfl, rfl, by simp [resultsFrom], by simp [resultsFrom],
      by simp, rfl⟩
  | cons tc pre ih =>
    intro i s w h
    simp only [allPassFrom, passesAt, Bool.and_eq_true, Option.isNone_iff_eq_none] at h
    obtain ⟨⟨hw, hp⟩, hrest⟩ := h
    obtain ⟨s', w', heq, h1, h2, h3, h4, h5, h6, h7, h8⟩ :=
      ih (i + 1)
        { result :=
            { s.result with
              TestResults := s.result.TestResults ++ [buildTestResult tc (host.run i)]
              TestCasesPassed := s.result.TestCasesPassed + 1 }
          totalRuntime := s.totalRuntime + (buildTestResult tc (host.run i)).RuntimeMs
          maxMemory :=
            if (buildTestResult tc (host.run i)).MemoryKb > s.maxMemory then
              (buildTestResult tc (host.run i)).MemoryKb
            else s.maxMemory }
        ((w.writeFile (Join execDir "input.txt") tc.Input).dockerRun
          (buildDockerCommand es execDir codeFile language)) hrest
    refine ⟨s', w', ?_, ?_, ?_, ?_, ?_, ?_, ?_, ?_, ?_⟩
    · have hlen : i + (tc :: pre).length = i + 1 + pre.length := by simp; omega
      rw [hlen, ← heq]
      simp only [List.cons_append, runTestCases, executeTestCase_run _ _ _ _ _ _ _ _ hw, hp,
        if_true]
      rfl
    · rw [h1]; simp; omega
    · rw [h2]
    · rw [h3]
    · rw [h4]
    · rw [h5]; simp [resultsFrom]
    · rw [h6]; simp [resultsFrom]; omega
    · rw [h7, runStep_log]; simp [List.flatMap, List.append_assoc]
    · rw [h8, runStep_dirs]

/-- The loop stops at a test case that is run and does not pass. -/
theorem runTestCases_fail_head (es : ExecutionService) (host : Host)
    (execDir codeFile language : String) (i : Nat) (tc : TestCase) (post : List TestCase)
    (s : LoopState) (w : World)
    (hw : host.writeInputFile i = none)
    (hp : (buildTestResult tc (host.run i)).Passed = false) :
    runTestCases es host execDir codeFile language i (tc :: post) s w
      = (.finished
          { result :=
              { s.result with
                TestResults := s.result.TestResults ++ [buildTestResult tc (host.run i)]
                Status := failureStatus (buildTestResult tc (host.run i)).ActualOutput
                ErrorMessage := "Test case failed: expected "
                  ++ (buildTestResult tc (host.run i)).ExpectedOutput
                  ++ ", got " ++ (buildTestResult tc (host.run i)).ActualOutput }
            totalRuntime := s.totalRuntime + (buildTestResult tc (host.run i)).RuntimeMs
            maxMemory :=
              if (buildTestResult tc (host.run i)).MemoryKb > s.maxMemory then
                (buildTestResult tc (host.run i)).MemoryKb
              else s.maxMemory },
          (w.writeFile (Join execDir "input.txt") tc.Input).dockerRun
            (buildDockerCommand es execDir codeFile language)) := by
  simp [runTestCases, executeTestCase_run _ _ _ _ _ _ _ _ hw, hp]

/-- The loop returns at a test case whose input file cannot be written. -/
theorem runTestCases_write_failed_head (es : ExecutionService) (host : Host)
    (execDir codeFile language : String) (i : Nat) (tc : TestCase) (post : List TestCase)
    (s : LoopState) (w : World) (err : String)
    (hw : host.writeInputFile i = some err) :
    runTestCases es host execDir codeFile language i (tc :: post) s w
      = (.returned { s.result with
            Status := StatusInternalError
            ErrorMessage := "failed to create input file: " ++ err }, w) := by
  simp [runTestCases, executeTestCase_write_failed _ _ _ _ _ _ _ _ _ hw]

/-! ## `ExecuteCode` once the set-up has succeeded -/

theorem isLanguageSupported_iff (language : String) :
    isLanguageSupported language = true ↔
      language = LanguageJavaScript ∨ language = LanguagePython ∨ language = LanguageJava := by
  simp [isLanguageSupported]

theorem ExecuteCode_of_setupOk (es : ExecutionService) (host : Host) (w : World)
    (code language : String) (testCases : List TestCase)
    (h : setupOk host code language = true) :
    ∃ execDir codeFile finalCode,
      ExecuteCode es host w code language testCases
        = conclude host testCases execDir
            (runTestCases es host execDir codeFile language 0 testCases
              { result := { TotalTestCases := testCases.length, TestResults := [] } }
              (((w.mkdirAll es.tempDir).mkdirTemp execDir).writeFile codeFile finalCode)) := by
  simp only [setupOk, Bool.and_eq_true, Option.isNone_iff_eq_none] at h
  obtain ⟨⟨⟨⟨hl, hm⟩, ht⟩, hv⟩, hc⟩ := h
  cases hmt : host.mkdirTemp with
  | error e => rw [hmt] at ht; simp [Except.toBool] at ht
  | ok unique =>
    have hlang := (isLanguageSupported_iff language).1 hl
    have hprep : ∃ codeFile finalCode, ∀ w1 : World,
        prepareCodeFile es host w1 (mkdirTempPath host es.tempDir unique) code language
          = (.ok codeFile, w1.writeFile codeFile finalCode) := by
      rcases hlang with hj | hj | hj
      · subst hj
        exact ⟨Join (mkdirTempPath host es.tempDir unique) "solution.js",
          wrapJavaScriptCode code, fun w1 => by simp [prepareCodeFile, hv, hc]⟩
      · subst hj
        exact ⟨Join (mkdirTempPath host es.tempDir unique) "solution.py",
          wrapPythonCode code, fun w1 => by
            simp only [prepareCodeFile, hv, hc]
            simp [LanguagePython, LanguageJavaScript]⟩
      · subst hj
        exact ⟨Join (mkdirTempPath host es.tempDir unique) "Solution.java",
          wrapJavaCode code, fun w1 => by
            simp only [prepareCodeFile, hv, hc]
            simp [LanguagePython, LanguageJavaScript, LanguageJava]⟩
    obtain ⟨codeFile, finalCode, hprep⟩ := hprep
    refine ⟨mkdirTempPath host es.tempDir unique, codeFile, finalCode, ?_⟩
    rcases hx : runTestCases es host (mkdirTempPath host es.tempDir unique) codeFile language 0
      testCases { result := { TotalTestCases := testCases.length, TestResults := [] } }
      (((w.mkdirAll es.tempDir).mkdirTemp (mkdirTempPath host es.tempDir unique)).writeFile
        codeFile finalCode) with ⟨exit, w2⟩
    simp only [ExecuteCode, hl, createTempDir, hm, hmt, executeInDir, hprep, hx]
    cases exit with
    | returned result => simp [conclude]
    | finished s =>
      simp only [conclude]
      by_cases hlen : testCases.length = 0
      · simp [hlen]
      · simp only [hlen, if_false]
        split <;> simp_all

/-- A list of test cases either passes as a whole or splits at its first test
case that is not run or does not pass. -/
theorem allPassFrom_or_split (host : Host) (tcs : List TestCase) :
    ∀ i, allPassFrom host i tcs = true ∨
      ∃ pre tc post, tcs = pre ++ tc :: post ∧ allPassFrom host i pre = true ∧
        passesAt host (i + pre.length) tc = false := by
  induction tcs with
  | nil => intro i; left; rfl
  | cons tc rest ih =>
    intro i
    cases hp : passesAt host i tc with
    | false => right; exact ⟨[], tc, rest, rfl, rfl, by simpa using hp⟩
    | true =>
      rcases ih (i + 1) with h | ⟨pre, tc', post, hsplit, hpre, hfail⟩
      · left; simp [allPassFrom, hp, h]
      · right
        refine ⟨tc :: pre, tc', post, by simp [hsplit], by simp [allPassFrom, hp, hpre], ?_⟩
        have : i + (tc :: pre).length = i + 1 + pre.length := by simp; omega
        rw [this]; exact hfail

/-- The first test case that is run and fails ends the evaluation: the result
carries the passed results and the failing one, and the status drawn from the
failing output. -/
theorem ExecuteCode_first_failure (es : ExecutionService) (host : Host) (w : World)
    (code language : String) (pre : List TestCase) (tc : TestCase) (post : List TestCase)
    (hsetup : setupOk host code language = true)
    (hpre : allPassFrom host 0 pre = true)
    (hw : host.writeInputFile pre.length = none)
    (hp : (buildTestResult tc (host.run pre.length)).Passed = false) :
    ∃ r w' execDir codeFile finalCode,
      ExecuteCode es host w code language (pre ++ tc :: post) = (.returned r none, w') ∧
      r.Status = failureStatus (buildTestResult tc (host.run pre.length)).ActualOutput ∧
      r.ErrorMessage = "Test case failed: expected "
        ++ (buildTestResult tc (host.run pre.length)).ExpectedOutput
        ++ ", got " ++ (buildTestResult tc (host.run pre.length)).ActualOutput ∧
      r.TestCasesPassed = pre.length ∧
      r.TotalTestCases = (pre ++ tc :: post).length ∧
      r.TestResults = resultsFrom host 0 pre ++ [buildTestResult tc (host.run pre.length)] ∧
      r.RuntimeMs = (((resultsFrom host 0 pre).map (·.RuntimeMs)).sum
        + (buildTestResult tc (host.run pre.length)).RuntimeMs) / (pre ++ tc :: post).length ∧
      w'.log = w.log
        ++ [Event.mkdirAll es.tempDir, Event.mkdirTemp execDir, Event.writeFile codeFile finalCode]
        ++ (pre ++ [tc]).flatMap (runEvents es execDir codeFile language)
        ++ [Event.removeAll execDir] := by
  obtain ⟨execDir, codeFile, finalCode, hexec⟩ :=
    ExecuteCode_of_setupOk es host w code language (pre ++ tc :: post) hsetup
  obtain ⟨s', w1, hrun, h1, h2, h3, h4, h5, h6, h7, _⟩ :=
    runTestCases_passing es host execDir codeFile language pre (tc :: post) 0
      { result := { TotalTestCases := (pre ++ tc :: post).length, TestResults := [] } }
      (((w.mkdirAll es.tempDir).mkdirTemp execDir).writeFile codeFile finalCode) hpre
  rw [Nat.zero_add] at hrun
  rw [hrun, runTestCases_fail_head es host execDir codeFile language pre.length tc post s' w1 hw hp]
    at hexec
  have hne : (pre ++ tc :: post).length ≠ 0 := by simp
  have hlt : ¬ (s'.result.TestCasesPassed = s'.result.TotalTestCases) := by
    rw [h1, h2]; simp
  simp only [conclude, hne, if_false, hlt] at hexec
  refine ⟨_, _, execDir, codeFile, finalCode, hexec, ?_, ?_, ?_, ?_, ?_, ?_, ?_⟩
  · rfl
  · rfl
  · simp [h1]
  · simp [h2]
  · simp [h5]
  · simp [h6]
  · simp only [World.removeAll]
    rw [runStep_log, h7]
    simp [World.writeFile, World.mkdirTemp, World.mkdirAll, List.flatMap, runEvents]

/-- When every test case of a non-empty list is run and passes, the result is
accepted and carries all the results. -/
theorem ExecuteCode_all_pass (es : ExecutionService) (host : Host) (w : World)
    (code language : String) (tcs : List TestCase)
    (hsetup : setupOk host code language = true)
    (hne : tcs ≠ [])
    (hall : allPassFrom host 0 tcs = true) :
    ∃ r w' execDir codeFile finalCode,
      ExecuteCode es host w code language tcs = (.returned r none, w') ∧
      r.Status = StatusAccepted ∧
      r.ErrorMessage = "" ∧
      r.TestCasesPassed = tcs.length ∧
      r.TotalTestCases = tcs.length ∧
      r.TestResults = resultsFrom host 0 tcs ∧
      r.RuntimeMs = ((resultsFrom host 0 tcs).map (·.RuntimeMs)).sum / tcs.length ∧
      w'.log = w.log
        ++ [Event.mkdirAll es.tempDir, Event.mkdirTemp execDir, Event.writeFile codeFile finalCode]
        ++ tcs.flatMap (runEvents es execDir codeFile language)
        ++ [Event.removeAll execDir] := by
  obtain ⟨execDir, codeFile, finalCode, hexec⟩ :=
    ExecuteCode_of_setupOk es host w code language tcs hsetup
  obtain ⟨s', w1, hrun, h1, h2, h3, h4, h5, h6, h7, _⟩ :=
    runTestCases_passing es host execDir codeFile language tcs [] 0
      { result := { TotalTestCases := tcs.length, TestResults := [] } }
      (((w.mkdirAll es.tempDir).mkdirTemp execDir).writeFile codeFile finalCode) hall
  rw [List.append_nil] at hrun
  rw [hrun] at hexec
  have hlen : tcs.length ≠ 0 := by simpa using hne
  have heq : s'.result.TestCasesPassed = s'.result.TotalTestCases := by
    rw [h1, h2]; simp
  simp only [runTestCases, conclude, hlen, if_false, heq, if_true] at hexec
  refine ⟨_, _, execDir, codeFile, finalCode, hexec, ?_, ?_, ?_, ?_, ?_, ?_, ?_⟩
  · rfl
  · simp [h4]
  · simp [h2]
  · simp [h2]
  · simp [h5]
  · simp [h6]
  · simp [World.removeAll, h7, World.writeFile, World.mkdirTemp, World.mkdirAll]

/-- When the input file of the first test case that does not pass cannot be
written, `ExecuteCode` returns an internal error from inside the loop. -/
theorem ExecuteCode_input_write_failed (es : ExecutionService) (host : Host) (w : World)
    (code language : String) (pre : List TestCase) (tc : TestCase) (post : List TestCase)
    (err : String)
    (hsetup : setupOk host code language = true)
    (hpre : allPassFrom host 0 pre = true)
    (hw : host.writeInputFile pre.length = some err) :
    ∃ r w',
      ExecuteCode es host w code language (pre ++ tc :: post) = (.returned r none, w') ∧
      r.Status = StatusInternalError ∧
      r.ErrorMessage = "failed to create input file: " ++ err ∧
      r.TestCasesPassed = pre.length ∧
      r.TotalTestCases = (pre ++ tc :: post).length ∧
      r.TestResults = resultsFrom host 0 pre := by
  obtain ⟨execDir, codeFile, finalCode, hexec⟩ :=
    ExecuteCode_of_setupOk es host w code language (pre ++ tc :: post) hsetup
  obtain ⟨s', w1, hrun, h1, h2, h3, h4, h5, h6, h7, _⟩ :=
    runTestCases_passing es host execDir codeFile language pre (tc :: post) 0
      { result := { TotalTestCases := (pre ++ tc :: post).length, TestResults := [] } }
      (((w.mkdirAll es.tempDir).mkdirTemp execDir).writeFile codeFile finalCode) hpre
  rw [Nat.zero_add] at hrun
  rw [hrun,
    runTestCases_write_failed_head es host execDir codeFile language pre.length tc post s' w1 err hw]
    at hexec
  simp only [conclude] at hexec
  refine ⟨_, _, hexec, rfl, rfl, ?_, ?_, ?_⟩
  · simp [h1]
  · simp [h2]
  · simp [h5]

/-! ## The result of one test case -/

theorem buildTestResult_input (tc : TestCase) (raw : RawOutcome) :
    (buildTestResult tc raw).Input = tc.Input := by
  unfold buildTestResult
  split
  · rfl
  · split <;> rfl

theorem buildTestResult_timeout (tc : TestCase) (raw : RawOutcome)
    (hd : raw.deadlineExceeded = true) :
    (buildTestResult tc raw).ActualOutput = "timeout" ∧ (buildTestResult tc raw).Passed = false := by
  simp [buildTestResult, hd]

theorem buildTestResult_error (tc : TestCase) (raw : RawOutcome) (cause : String)
    (hd : raw.deadlineExceeded = false) (he : raw.err = some cause) :
    (buildTestResult tc raw).ActualOutput = "error: " ++ cause ∧
      (buildTestResult tc raw).Passed = false := by
  simp [buildTestResult, hd, he]

theorem buildTestResult_normal (tc : TestCase) (raw : RawOutcome)
    (hd : raw.deadlineExceeded = false) (he : raw.err = none) :
    (buildTestResult tc raw).ActualOutput = TrimSpace raw.output ∧
      ((buildTestResult tc raw).Passed = true ↔
        TrimSpace tc.ExpectedOutput = TrimSpace raw.output) := by
  simp [buildTestResult, hd, he]

/-! ## Output mismatch -/

/-- C1, as stated, fails: on a run that completes normally and prints `Error`
where `42` is expected, the status is `Runtime Error`, not `Wrong Answer`. -/
theorem mismatch_classified_runtime_error :
    ((okHost (runsOf [{ output := "Error\n", elapsedMs := 5 }])).run 0).deadlineExceeded = false ∧
    ((okHost (runsOf [{ output := "Error\n", elapsedMs := 5 }])).run 0).err = none ∧
    TrimSpace "Error\n" ≠ TrimSpace sampleTest.ExpectedOutput ∧
    ∃ r, (ExecuteCode NewExecutionService (okHost (runsOf [{ output := "Error\n", elapsedMs := 5 }]))
        {} sampleCode "python" [sampleTest]).1 = .returned r none ∧
      r.Status = StatusRuntimeError ∧ r.Status ≠ StatusWrongAnswer :=
  ⟨rfl, rfl, by decide, _, rfl, rfl, by decide⟩

/-- C1, amended: when the first failing test case completed normally, its
trimmed output differs from the trimmed expected output and contains none of
`timeout`, `memory`, `error`, `Error`, the returned status is `Wrong Answer`. -/
theorem wrongAnswer_on_plain_mismatch (es : ExecutionService) (host : Host) (w : World)
    (code language : String) (pre : List TestCase) (tc : TestCase) (post : List TestCase)
    (hsetup : setupOk host code language = true)
    (hpre : allPassFrom host 0 pre = true)
    (hw : host.writeInputFile pre.length = none)
    (hd : (host.run pre.length).deadlineExceeded = false)
    (he : (host.run pre.length).err = none)
    (hdiff : TrimSpace tc.ExpectedOutput ≠ TrimSpace (host.run pre.length).output)
    (h1 : Contains (TrimSpace (host.run pre.length).output) "timeout" = false)
    (h2 : Contains (TrimSpace (host.run pre.length).output) "memory" = false)
    (h3 : Contains (TrimSpace (host.run pre.length).output) "error" = false)
    (h4 : Contains (TrimSpace (host.run pre.length).output) "Error" = false) :
    ∃ r, (ExecuteCode es host w code language (pre ++ tc :: post)).1 = .returned r none ∧
      r.Status = StatusWrongAnswer := by
  obtain ⟨hact, hpass⟩ := buildTestResult_normal tc (host.run pre.length) hd he
  have hp : (buildTestResult tc (host.run pre.length)).Passed = false := by
    cases hb : (buildTestResult tc (host.run pre.length)).Passed with
    | false => rfl
    | true => exact absurd (hpass.1 hb) hdiff
  obtain ⟨r, w', _, _, _, hexec, hstatus, _⟩ :=
    ExecuteCode_first_failure es host w code language pre tc post hsetup hpre hw hp
  refine ⟨r, by rw [hexec], ?_⟩
  rw [hstatus, hact]
  simp [failureStatus, h1, h2, h3, h4]

/-- Witness of C1, amended: a run that prints `41` where `42` is expected. -/
theorem wrongAnswer_on_plain_mismatch_witness :
    ∃ r, (ExecuteCode NewExecutionService (okHost (runsOf [{ output := "41\n", elapsedMs := 5 }])) {}
        sampleCode "python" ([] ++ sampleTest :: [])).1 = .returned r none ∧
      r.Status = StatusWrongAnswer :=
  wrongAnswer_on_plain_mismatch NewExecutionService
    (okHost (runsOf [{ output := "41\n", elapsedMs := 5 }])) {} sampleCode "python" [] sampleTest []
    (by decide) (by decide) (by decide) (by decide) (by decide) (by decide) (by decide)
    (by decide) (by decide) (by decide)

/-! ## Aggregate runtime -/

/-- C2: the code divides the summed runtime by the number of supplied test
cases.  With two test cases of which the first fails after 100 ms, the only
evaluated runtime is 100 and the reported runtime is 50. -/
theorem runtime_averaged_over_all_test_cases :
    (ExecuteCode NewExecutionService
        (okHost (runsOf [{ output := "41\n", elapsedMs := 100 }, { output := "42\n", elapsedMs := 7 }]))
        {} sampleCode "python" [sampleTest, sampleTest]).1
      = .returned
          { Status := StatusWrongAnswer
            ErrorMessage := "Test case failed: expected 42, got 41"
            RuntimeMs := 50
            MemoryKb := 1024
            TestCasesPassed := 0
            TotalTestCases := 2
            TestResults :=
              [{ Input := "1", ExpectedOutput := "42", ActualOutput := "41", Passed := false,
                 RuntimeMs := 100, MemoryKb := 1024 }] } none := by
  decide

/-! ## `ExecuteCode` when the set-up fails -/

/-- When the set-up fails, `ExecuteCode` returns an internal error with empty
counters before any file is written or any test case is run. -/
theorem ExecuteCode_setup_failed (es : ExecutionService) (host : Host) (w : World)
    (code language : String) (testCases : List TestCase)
    (h : setupOk host code language = false) :
    ∃ r err w' events,
      ExecuteCode es host w code language testCases = (.returned r err, w') ∧
      r.Status = StatusInternalError ∧
      r.TestCasesPassed = 0 ∧ r.TotalTestCases = 0 ∧ r.TestResults = [] ∧
      (isLanguageSupported language = true → err ≠ none) ∧
      w'.log = w.log ++ events ∧ fileWrites events = [] ∧ dockerRuns events = [] ∧
      (∀ f ∈ w'.fs.files, f ∈ w.fs.files) := by
  cases hl : isLanguageSupported language with
  | false =>
    have hexec : ExecuteCode es host w code language testCases
        = (.returned { Status := StatusInternalError
                       ErrorMessage := "Unsupported language: " ++ language } none, w) := by
      simp [ExecuteCode, hl]
    exact ⟨_, _, _, [], hexec, rfl, rfl, rfl, rfl, by simp, by simp, rfl, rfl, fun f hf => hf⟩
  | true =>
    cases hm : host.mkdirAll with
    | some e =>
      have hexec : ExecuteCode es host w code language testCases
          = (.returned { Status := StatusInternalError
                         ErrorMessage := "Failed to create temporary directory" } (some e), w) := by
        simp [ExecuteCode, hl, createTempDir, hm]
      exact ⟨_, _, _, [], hexec, rfl, rfl, rfl, rfl, by simp, by simp, rfl, rfl, fun f hf => hf⟩
    | none =>
      cases hmt : host.mkdirTemp with
      | error e =>
        have hexec : ExecuteCode es host w code language testCases
            = (.returned { Status := StatusInternalError
                           ErrorMessage := "Failed to create temporary directory" } (some e),
                w.mkdirAll es.tempDir) := by
          simp [ExecuteCode, hl, createTempDir, hm, hmt]
        exact ⟨_, _, _, [Event.mkdirAll es.tempDir], hexec, rfl, rfl, rfl, rfl,
          by simp, by simp [World.mkdirAll], rfl, rfl,
          fun f hf => by simpa [World.mkdirAll] using hf⟩
      | ok unique =>
        have hprep : ∃ e, ∀ w1 : World,
            prepareCodeFile es host w1 (mkdirTempPath host es.tempDir unique) code language
              = (.error e, w1) := by
          cases hv : validateCode host.unicodeToLower code language with
          | some e => exact ⟨e, fun w1 => by simp [prepareCodeFile, hv]⟩
          | none =>
            cases hc : host.writeCodeFile with
            | none => simp [setupOk, hl, hm, hmt, hv, hc, Except.toBool] at h
            | some e =>
              rcases (isLanguageSupported_iff language).1 hl with hj | hj | hj
              · exact ⟨"failed to write code file: " ++ e, fun w1 => by
                  simp only [prepareCodeFile, hv, hc]; simp [hj]⟩
              · exact ⟨"failed to write code file: " ++ e, fun w1 => by
                  simp only [prepareCodeFile, hv, hc]
                  simp [hj, LanguagePython, LanguageJavaScript]⟩
              · exact ⟨"failed to write code file: " ++ e, fun w1 => by
                  simp only [prepareCodeFile, hv, hc]
                  simp [hj, LanguagePython, LanguageJavaScript, LanguageJava]⟩
        obtain ⟨e, hprep⟩ := hprep
        have hexec : ExecuteCode es host w code language testCases
            = (.returned { Status := StatusInternalError
                           ErrorMessage := "Failed to prepare code file" } (some e),
                (((w.mkdirAll es.tempDir).mkdirTemp
                  (mkdirTempPath host es.tempDir unique)).removeAll host.removeAll
                  (mkdirTempPath host es.tempDir unique))) := by
          simp [ExecuteCode, hl, createTempDir, hm, hmt, executeInDir, hprep]
        refine ⟨_, _, _, [Event.mkdirAll es.tempDir,
            Event.mkdirTemp (mkdirTempPath host es.tempDir unique),
            Event.removeAll (mkdirTempPath host es.tempDir unique)],
          hexec, rfl, rfl, rfl, rfl, by simp, ?_, rfl, rfl, ?_⟩
        · simp [World.removeAll, World.mkdirTemp, World.mkdirAll]
        · intro f hf
          simp only [World.removeAll, World.mkdirTemp, World.mkdirAll] at hf
          split at hf
          · exact (List.mem_filter.mp hf).1
          · exact hf

theorem ExecuteCode_empty_panics (es : ExecutionService) (host : Host) (w : World)
    (code language : String) (hsetup : setupOk host code language = true) :
    ∃ w', ExecuteCode es host w code language []
      = (.panicked "runtime error: integer divide by zero", w') := by
  obtain ⟨execDir, codeFile, finalCode, hexec⟩ :=
    ExecuteCode_of_setupOk es host w code language [] hsetup
  exact ⟨(((w.mkdirAll es.tempDir).mkdirTemp execDir).writeFile codeFile finalCode).removeAll
    host.removeAll execDir, by rw [hexec]; simp [runTestCases, conclude]⟩

theorem failureStatus_cases (actualOutput : String) :
    failureStatus actualOutput = StatusTimeLimitExceeded ∨
    failureStatus actualOutput = StatusMemoryLimitExceeded ∨
    failureStatus actualOutput = StatusRuntimeError ∨
    failureStatus actualOutput = StatusWrongAnswer := by
  unfold failureStatus
  split
  · exact Or.inl rfl
  · split
    · exact Or.inr (Or.inl rfl)
    · split
      · exact Or.inr (Or.inr (Or.inl rfl))
      · exact Or.inr (Or.inr (Or.inr rfl))

theorem failureStatus_ne_accepted (actualOutput : String) :
    failureStatus actualOutput ≠ StatusAccepted := by
  rcases failureStatus_cases actualOutput with h | h | h | h <;> rw [h] <;> decide

theorem failureStatus_ne_internal (actualOutput : String) :
    failureStatus actualOutput ≠ StatusInternalError := by
  rcases failureStatus_cases actualOutput with h | h | h | h <;> rw [h] <;> decide

theorem passesAt_false_cases (host : Host) (i : Nat) (tc : TestCase)
    (h : passesAt host i tc = false) :
    (∃ err, host.writeInputFile i = some err) ∨
      (host.writeInputFile i = none ∧ (buildTestResult tc (host.run i)).Passed = false) := by
  cases hw : host.writeInputFile i with
  | some err => exact Or.inl ⟨err, rfl⟩
  | none =>
    right
    simp [passesAt, hw] at h
    exact ⟨rfl, h⟩

/-! ## Passed count and status -/

/-- C3, as stated, fails: for an unsupported language the returned result has
both counters at zero, hence equal, and the status `Internal Error`. -/
theorem counters_equal_without_accepted :
    ∃ r, (ExecuteCode NewExecutionService (okHost (runsOf [])) {} sampleCode "cpp" [sampleTest]).1
        = .returned r none ∧
      r.TestCasesPassed = r.TotalTestCases ∧ r.Status ≠ StatusAccepted :=
  ⟨_, rfl, rfl, by decide⟩

/-- C3, amended: in every result that `ExecuteCode` returns a status of
`Accepted` comes with all test cases passed; and in every result returned with
a nil error for a supported language the passed count equals the total
exactly when the status is `Accepted`. -/
theorem passed_eq_total_iff_accepted (es : ExecutionService) (host : Host) (w : World)
    (code language : String) (testCases : List TestCase) (r : ExecutionResult)
    (err : Option String)
    (h : (ExecuteCode es host w code language testCases).1 = .returned r err) :
    (r.Status = StatusAccepted → r.TestCasesPassed = r.TotalTestCases) ∧
    (isLanguageSupported language = true → err = none →
      (r.TestCasesPassed = r.TotalTestCases ↔ r.Status = StatusAccepted)) := by
  cases hs : setupOk host code language with
  | false =>
    obtain ⟨r', err', w', events, hexec, hst, h0, h1, _, herr, _⟩ :=
      ExecuteCode_setup_failed es host w code language testCases hs
    rw [hexec] at h
    simp only [Outcome.returned.injEq] at h
    obtain ⟨hr, he⟩ := h
    subst hr; subst he
    refine ⟨fun ha => by rw [h0, h1], fun hl he => absurd he (herr hl)⟩
  | true =>
    rcases allPassFrom_or_split host testCases 0 with hall | ⟨pre, tc, post, hsplit, hpre, hfail⟩
    · cases testCases with
      | nil =>
        obtain ⟨w', hexec⟩ := ExecuteCode_empty_panics es host w code language hs
        rw [hexec] at h
        simp at h
      | cons tc rest =>
        obtain ⟨r', w', _, _, _, hexec, hst, _, hp, ht, _⟩ :=
          ExecuteCode_all_pass es host w code language (tc :: rest) hs (by simp) hall
        rw [hexec] at h
        simp only [Outcome.returned.injEq] at h
        obtain ⟨hr, _⟩ := h
        subst hr
        exact ⟨fun _ => by rw [hp, ht], fun _ _ => ⟨fun _ => hst, fun _ => by rw [hp, ht]⟩⟩
    · subst hsplit
      rw [Nat.zero_add] at hfail
      rcases passesAt_false_cases host pre.length tc hfail with ⟨e, hw⟩ | ⟨hw, hp⟩
      · obtain ⟨r', w', hexec, hst, _, hp, ht, _⟩ :=
          ExecuteCode_input_write_failed es host w code language pre tc post e hs hpre hw
        rw [hexec] at h
        simp only [Outcome.returned.injEq] at h
        obtain ⟨hr, _⟩ := h
        subst hr
        have hne : r'.TestCasesPassed ≠ r'.TotalTestCases := by rw [hp, ht]; simp
        have hna : r'.Status ≠ StatusAccepted := by rw [hst]; decide
        exact ⟨fun ha => absurd ha hna, fun _ _ => ⟨fun he => absurd he hne, fun ha => absurd ha hna⟩⟩
      · obtain ⟨r', w', _, _, _, hexec, hst, _, hp, ht, _⟩ :=
          ExecuteCode_first_failure es host w code language pre tc post hs hpre hw hp
        rw [hexec] at h
        simp only [Outcome.returned.injEq] at h
        obtain ⟨hr, _⟩ := h
        subst hr
        have hne : r'.TestCasesPassed ≠ r'.TotalTestCases := by rw [hp, ht]; simp
        have hna : r'.Status ≠ StatusAccepted := by rw [hst]; exact failureStatus_ne_accepted _
        exact ⟨fun ha => absurd ha hna, fun _ _ => ⟨fun he => absurd he hne, fun ha => absurd ha hna⟩⟩

/-- Witness of C3, amended: the accepted result of a passing run. -/
theorem passed_eq_total_iff_accepted_witness :
    (ExecuteCode NewExecutionService (okHost (runsOf [{ output := "42\n", elapsedMs := 5 }])) {}
        sampleCode "python" [sampleTest]).1 = .returned acceptedSample none ∧
    (acceptedSample.Status = StatusAccepted →
      acceptedSample.TestCasesPassed = acceptedSample.TotalTestCases) ∧
    (isLanguageSupported "python" = true → (none : Option String) = none →
      (acceptedSample.TestCasesPassed = acceptedSample.TotalTestCases ↔
        acceptedSample.Status = StatusAccepted)) :=
  ⟨by decide,
    passed_eq_total_iff_accepted NewExecutionService
      (okHost (runsOf [{ output := "42\n", elapsedMs := 5 }])) {} sampleCode "python" [sampleTest]
      acceptedSample none (by decide)⟩

/-! ## Validation and the temporary directories -/

/-- C4, as stated, fails: for the rejected code `import os` in Python the base
directory and the directory `exec-1` are created before the code is validated;
the latter is removed again, the former stays. -/
theorem directories_created_before_validation :
    validateCode Char.toLower "import os" "python"
      = some "code contains potentially dangerous pattern: import os" ∧
    (ExecuteCode NewExecutionService (okHost (runsOf [])) {} "import os" "python" [sampleTest]).2
      = { fs := { dirs := ["/tmp/leetcode-execution"], files := [] }
          log := [ Event.mkdirAll "/tmp/leetcode-execution",
                   Event.mkdirTemp "/tmp/leetcode-execution/exec-1",
                   Event.removeAll "/tmp/leetcode-execution/exec-1" ] } ∧
    (ExecuteCode NewExecutionService (okHost (runsOf [])) {} "import os" "python" [sampleTest]).2.fs
      ≠ ({} : World).fs := by
  decide

/-! ## Process errors and deadlines -/

theorem contains_error_sentinel (cause : String) :
    Contains ("error: " ++ cause) "error" = true := by
  show containsChars ['e', 'r', 'r', 'o', 'r']
    (['e', 'r', 'r', 'o', 'r', ':', ' '] ++ cause.data) = true
  simp [containsChars, List.isPrefixOf]

/-- C5, as stated, fails: a process error whose cause is `i/o timeout`, without
the deadline being hit, gives the status `Time Limit Exceeded`, although the
sentinel text does not contain `memory`. -/
theorem process_error_classified_timeout :
    ((okHost (runsOf [{ err := some "i/o timeout" }])).run 0).deadlineExceeded = false ∧
    Contains ("error: " ++ "i/o timeout") "memory" = false ∧
    ∃ r, (ExecuteCode NewExecutionService (okHost (runsOf [{ err := some "i/o timeout" }])) {}
        sampleCode "python" [sampleTest]).1 = .returned r none ∧
      r.Status = StatusTimeLimitExceeded ∧ r.Status ≠ StatusRuntimeError :=
  ⟨rfl, by decide, _, rfl, rfl, by decide⟩

/-- C5, amended: a test case whose process fails with cause `c` without hitting
the deadline has the actual output `error: c` and is not passed; when it is the
first failing test case, the status is `Time Limit Exceeded` if that text
contains `timeout`, otherwise `Memory Limit Exceeded` if it contains `memory`,
otherwise `Runtime Error`. -/
theorem process_error_outcome (es : ExecutionService) (host : Host) (w w0 : World)
    (code language execDir codeFile : String) (pre : List TestCase) (tc : TestCase)
    (post : List TestCase) (cause : String) (i : Nat)
    (hw : host.writeInputFile i = none)
    (hd : (host.run i).deadlineExceeded = false)
    (he : (host.run i).err = some cause) :
    (∃ tr, (executeTestCase es host i w0 execDir codeFile language tc).1 = .ok tr ∧
      tr.ActualOutput = "error: " ++ cause ∧ tr.Passed = false) ∧
    (setupOk host code language = true → allPassFrom host 0 pre = true → i = pre.length →
      ∃ r, (ExecuteCode es host w code language (pre ++ tc :: post)).1 = .returned r none ∧
        r.Status =
          if Contains ("error: " ++ cause) "timeout" then StatusTimeLimitExceeded
          else if Contains ("error: " ++ cause) "memory" then StatusMemoryLimitExceeded
          else StatusRuntimeError) := by
  obtain ⟨hact, hpass⟩ := buildTestResult_error tc (host.run i) cause hd he
  refine ⟨⟨_, by rw [executeTestCase_run _ _ _ _ _ _ _ _ hw], hact, hpass⟩, ?_⟩
  intro hsetup hpre hi
  subst hi
  obtain ⟨r, w', _, _, _, hexec, hstatus, _⟩ :=
    ExecuteCode_first_failure es host w code language pre tc post hsetup hpre hw hpass
  refine ⟨r, by rw [hexec], ?_⟩
  rw [hstatus, hact]
  simp [failureStatus, contains_error_sentinel]

/-- Witness of C5, amended: a process that ends with `exit status 1`. -/
theorem process_error_outcome_witness :
    (∃ tr, (executeTestCase NewExecutionService (okHost (runsOf [{ err := some "exit status 1" }]))
        0 {} "/tmp/leetcode-execution/exec-1" "/tmp/leetcode-execution/exec-1/solution.py"
        "python" sampleTest).1 = .ok tr ∧
      tr.ActualOutput = "error: " ++ "exit status 1" ∧ tr.Passed = false) ∧
    ∃ r, (ExecuteCode NewExecutionService (okHost (runsOf [{ err := some "exit status 1" }])) {}
        sampleCode "python" ([] ++ sampleTest :: [])).1 = .returned r none ∧
      r.Status =
        if Contains ("error: " ++ "exit status 1") "timeout" then StatusTimeLimitExceeded
        else if Contains ("error: " ++ "exit status 1") "memory" then StatusMemoryLimitExceeded
        else StatusRuntimeError :=
  ⟨(process_error_outcome NewExecutionService (okHost (runsOf [{ err := some "exit status 1" }]))
      {} {} sampleCode "python" "/tmp/leetcode-execution/exec-1"
      "/tmp/leetcode-execution/exec-1/solution.py" [] sampleTest [] "exit status 1" 0
      (by decide) (by decide) (by decide)).1,
   (process_error_outcome NewExecutionService (okHost (runsOf [{ err := some "exit status 1" }]))
      {} {} sampleCode "python" "/tmp/leetcode-execution/exec-1"
      "/tmp/leetcode-execution/exec-1/solution.py" [] sampleTest [] "exit status 1" 0
      (by decide) (by decide) (by decide)).2 (by decide) (by decide) (by decide)⟩

theorem dockerRuns_append (a b : List Event) :
    dockerRuns (a ++ b) = dockerRuns a ++ dockerRuns b := by
  induction a with
  | nil => rfl
  | cons e a ih => cases e <;> simp [dockerRuns, ih]

theorem dockerRuns_runEvents (es : ExecutionService) (execDir codeFile language : String)
    (tcs : List TestCase) :
    dockerRuns (tcs.flatMap (runEvents es execDir codeFile language))
      = List.replicate tcs.length (buildDockerCommand es execDir codeFile language) := by
  induction tcs with
  | nil => rfl
  | cons tc rest ih =>
    rw [List.flatMap_cons, dockerRuns_append, ih]
    simp [runEvents, dockerRuns, List.replicate_succ]

/-- The docker runs that `ExecuteCode` adds to the log when it runs the test cases `tcs`. -/
theorem dockerRuns_execution_log (es : ExecutionService) (execDir codeFile finalCode language : String)
    (log : List Event) (tcs : List TestCase) :
    dockerRuns (log
        ++ [Event.mkdirAll es.tempDir, Event.mkdirTemp execDir, Event.writeFile codeFile finalCode]
        ++ tcs.flatMap (runEvents es execDir codeFile language)
        ++ [Event.removeAll execDir])
      = dockerRuns log
        ++ List.replicate tcs.length (buildDockerCommand es execDir codeFile language) := by
  simp [dockerRuns_append, dockerRuns_runEvents, dockerRuns]

/-- C6: a test case whose run hits the deadline has the actual output
`timeout` and is not passed, whatever the process printed or reported and
whatever output is expected; when it is reached, `ExecuteCode` stops there with
the status `Time Limit Exceeded`: the failing result is the last one and no
further docker run is started. -/
theorem deadline_outcome (es : ExecutionService) (host : Host) (w w0 : World)
    (code language execDir codeFile : String) (pre : List TestCase) (tc : TestCase)
    (post : List TestCase) (i : Nat)
    (hw : host.writeInputFile i = none)
    (hd : (host.run i).deadlineExceeded = true) :
    (∃ tr, (executeTestCase es host i w0 execDir codeFile language tc).1 = .ok tr ∧
      tr.ActualOutput = "timeout" ∧ tr.Passed = false) ∧
    (setupOk host code language = true → allPassFrom host 0 pre = true → i = pre.length →
      ∃ r w' tr,
        ExecuteCode es host w code language (pre ++ tc :: post) = (.returned r none, w') ∧
        r.Status = StatusTimeLimitExceeded ∧
        r.TestCasesPassed = pre.length ∧
        r.TestResults.length = pre.length + 1 ∧
        r.TestResults.getLast? = some tr ∧ tr.ActualOutput = "timeout" ∧ tr.Passed = false ∧
        tr.Input = tc.Input ∧
        (dockerRuns w'.log).length = (dockerRuns w.log).length + (pre.length + 1)) := by
  obtain ⟨hact, hpass⟩ := buildTestResult_timeout tc (host.run i) hd
  refine ⟨⟨_, by rw [executeTestCase_run _ _ _ _ _ _ _ _ hw], hact, hpass⟩, ?_⟩
  intro hsetup hpre hi
  subst hi
  obtain ⟨r, w', execDir', codeFile', finalCode, hexec, hstatus, _, hp, _, hres, _, hlog⟩ :=
    ExecuteCode_first_failure es host w code language pre tc post hsetup hpre hw hpass
  refine ⟨r, w', buildTestResult tc (host.run pre.length), hexec, ?_, hp, ?_, ?_, hact, hpass,
    buildTestResult_input _ _, ?_⟩
  · rw [hstatus, hact]; decide
  · rw [hres]; simp [resultsFrom_length]
  · rw [hres]; simp
  · rw [hlog, dockerRuns_execution_log]; simp

/-- Witness of C6: a run that hits the deadline, reports an error and is expected to print `timeout`. -/
theorem deadline_outcome_witness :
    (∃ tr, (executeTestCase NewExecutionService
        (okHost (runsOf [{ output := "timeout", deadlineExceeded := true, err := some "signal: killed" }]))
        0 {} "/tmp/leetcode-execution/exec-1" "/tmp/leetcode-execution/exec-1/solution.py"
        "python" { Input := "1", ExpectedOutput := "timeout" }).1 = .ok tr ∧
      tr.ActualOutput = "timeout" ∧ tr.Passed = false) ∧
    ∃ r w' tr,
      ExecuteCode NewExecutionService
        (okHost (runsOf [{ output := "timeout", deadlineExceeded := true, err := some "signal: killed" }]))
        {} sampleCode "python" ([] ++ { Input := "1", ExpectedOutput := "timeout" } :: [sampleTest])
        = (.returned r none, w') ∧
      r.Status = StatusTimeLimitExceeded ∧
      r.TestCasesPassed = ([] : List TestCase).length ∧
      r.TestResults.length = ([] : List TestCase).length + 1 ∧
      r.TestResults.getLast? = some tr ∧ tr.ActualOutput = "timeout" ∧ tr.Passed = false ∧
      tr.Input = "1" ∧
      (dockerRuns w'.log).length
        = (dockerRuns ({} : World).log).length + (([] : List TestCase).length + 1) :=
  ⟨(deadline_outcome NewExecutionService
      (okHost (runsOf [{ output := "timeout", deadlineExceeded := true, err := some "signal: killed" }]))
      {} {} sampleCode "python" "/tmp/leetcode-execution/exec-1"
      "/tmp/leetcode-execution/exec-1/solution.py" [] { Input := "1", ExpectedOutput := "timeout" }
      [sampleTest] 0 (by decide) (by decide)).1,
   (deadline_outcome NewExecutionService
      (okHost (runsOf [{ output := "timeout", deadlineExceeded := true, err := some "signal: killed" }]))
      {} {} sampleCode "python" "/tmp/leetcode-execution/exec-1"
      "/tmp/leetcode-execution/exec-1/solution.py" [] { Input := "1", ExpectedOutput := "timeout" }
      [sampleTest] 0 (by decide) (by decide)).2 (by decide) (by decide) (by decide)⟩

/-! ## Short-circuit -/

theorem resultsFrom_append (host : Host) (pre rest : List TestCase) :
    ∀ i, resultsFrom host i (pre ++ rest)
      = resultsFrom host i pre ++ resultsFrom host (i + pre.length) rest := by
  induction pre with
  | nil => intro i; simp [resultsFrom]
  | cons tc pre ih =>
    intro i
    have : i + (tc :: pre).length = i + 1 + pre.length := by simp; omega
    rw [this]
    simp [resultsFrom, ih]

/-- C7: in every result with one of the four failing statuses the test results
are those of the first `TestCasesPassed + 1` test cases, in order, all passed
but the last; the effects are the three of the set-up, then the input write
and the docker run of each of these test cases, then the removal of the
directory, so that no later test case reaches the runner. -/
theorem failing_result_short_circuit (es : ExecutionService) (host : Host) (w w' : World)
    (code language : String) (testCases : List TestCase) (r : ExecutionResult)
    (err : Option String)
    (h : ExecuteCode es host w code language testCases = (.returned r err, w'))
    (hstatus : r.Status = StatusWrongAnswer ∨ r.Status = StatusTimeLimitExceeded ∨
      r.Status = StatusMemoryLimitExceeded ∨ r.Status = StatusRuntimeError) :
    r.TestResults.length = r.TestCasesPassed + 1 ∧
    (∀ j tr, r.TestResults[j]? = some tr →
      ∃ tc, testCases[j]? = some tc ∧ tr = buildTestResult tc (host.run j) ∧
        tr.Input = tc.Input) ∧
    (∀ j tr, r.TestResults[j]? = some tr → (tr.Passed = true ↔ j < r.TestCasesPassed)) ∧
    (∃ execDir codeFile finalCode,
      w'.log = w.log
        ++ [Event.mkdirAll es.tempDir, Event.mkdirTemp execDir, Event.writeFile codeFile finalCode]
        ++ (testCases.take (r.TestCasesPassed + 1)).flatMap
            (runEvents es execDir codeFile language)
        ++ [Event.removeAll execDir]) ∧
    (dockerRuns w'.log).length = (dockerRuns w.log).length + (r.TestCasesPassed + 1) := by
  have hnotInternal : r.Status ≠ StatusInternalError := by
    rcases hstatus with h' | h' | h' | h' <;> rw [h'] <;> decide
  have hnotAccepted : r.Status ≠ StatusAccepted := by
    rcases hstatus with h' | h' | h' | h' <;> rw [h'] <;> decide
  cases hs : setupOk host code language with
  | false =>
    obtain ⟨r', err', w2, events, hexec, hst, _⟩ :=
      ExecuteCode_setup_failed es host w code language testCases hs
    rw [hexec] at h
    simp only [Prod.mk.injEq, Outcome.returned.injEq] at h
    obtain ⟨⟨hr, _⟩, _⟩ := h
    subst hr
    exact absurd hst hnotInternal
  | true =>
    rcases allPassFrom_or_split host testCases 0 with hall | ⟨pre, tc, post, hsplit, hpre, hfail⟩
    · cases testCases with
      | nil =>
        obtain ⟨w2, hexec⟩ := ExecuteCode_empty_panics es host w code language hs
        rw [hexec] at h
        simp at h
      | cons tc rest =>
        obtain ⟨r', w2, _, _, _, hexec, hst, _⟩ :=
          ExecuteCode_all_pass es host w code language (tc :: rest) hs (by simp) hall
        rw [hexec] at h
        simp only [Prod.mk.injEq, Outcome.returned.injEq] at h
        obtain ⟨⟨hr, _⟩, _⟩ := h
        subst hr
        exact absurd hst hnotAccepted
    · subst hsplit
      rw [Nat.zero_add] at hfail
      rcases passesAt_false_cases host pre.length tc hfail with ⟨e, hw⟩ | ⟨hw, hp⟩
      · obtain ⟨r', w2, hexec, hst, _⟩ :=
          ExecuteCode_input_write_failed es host w code language pre tc post e hs hpre hw
        rw [hexec] at h
        simp only [Prod.mk.injEq, Outcome.returned.injEq] at h
        obtain ⟨⟨hr, _⟩, _⟩ := h
        subst hr
        exact absurd hst hnotInternal
      · obtain ⟨r', w2, execDir, codeFile, finalCode, hexec, _, _, hpassed, _, hres, _, hlog⟩ :=
          ExecuteCode_first_failure es host w code language pre tc post hs hpre hw hp
        rw [hexec] at h
        simp only [Prod.mk.injEq, Outcome.returned.injEq] at h
        obtain ⟨⟨hr, _⟩, hw'⟩ := h
        subst hr; subst hw'
        have hres' : r'.TestResults = resultsFrom host 0 (pre ++ [tc]) := by
          rw [hres, resultsFrom_append]; simp [resultsFrom]
        have htake : (pre ++ tc :: post).take (r'.TestCasesPassed + 1) = pre ++ [tc] := by
          rw [hpassed]
          have : pre ++ tc :: post = (pre ++ [tc]) ++ post := by simp
          rw [this, List.take_left']
          simp
        refine ⟨?_, ?_, ?_, ⟨execDir, codeFile, finalCode, ?_⟩, ?_⟩
        · rw [hres, hpassed]; simp [resultsFrom_length]
        · intro j tr hj
          rw [hres', resultsFrom_getElem?, Nat.zero_add] at hj
          cases hget : (pre ++ [tc])[j]? with
          | none => rw [hget] at hj; simp at hj
          | some tc' =>
            rw [hget] at hj
            simp only [Option.map_some', Option.some.injEq] at hj
            have hjlt : j < (pre ++ [tc]).length := by
              by_contra hge
              rw [List.getElem?_eq_none (by omega)] at hget
              exact absurd hget (by simp)
            refine ⟨tc', ?_, hj.symm, ?_⟩
            · have : pre ++ tc :: post = (pre ++ [tc]) ++ post := by simp
              rw [this, List.getElem?_append_left hjlt, hget]
            · rw [← hj]; exact buildTestResult_input _ _
        · intro j tr hj
          rw [hres, hpassed] at *
          by_cases hjlt : j < pre.length
          · have hlen : j < (resultsFrom host 0 pre).length := by
              rw [resultsFrom_length]; exact hjlt
            rw [List.getElem?_append_left hlen] at hj
            have hmem : tr ∈ resultsFrom host 0 pre := List.getElem?_mem hj
            exact ⟨fun _ => hjlt, fun _ => resultsFrom_passed host pre 0 hpre tr hmem⟩
          · have hlen : (resultsFrom host 0 pre).length ≤ j := by
              rw [resultsFrom_length]; omega
            rw [List.getElem?_append_right hlen, resultsFrom_length] at hj
            have hj0 : j - pre.length = 0 := by
              by_contra hne
              rw [List.getElem?_eq_none (by simp; omega)] at hj
              exact absurd hj (by simp)
            rw [hj0] at hj
            simp only [List.getElem?_cons_zero, Option.some.injEq] at hj
            rw [← hj, hp]
            exact ⟨fun hf => absurd hf (by simp), fun hlt => absurd hlt hjlt⟩
        · rw [htake]; exact hlog
        · rw [hlog, dockerRuns_execution_log, hpassed]; simp

/-- Witness of C7: two test cases of which the first fails. -/
theorem failing_result_short_circuit_witness :
    ∃ r w',
      ExecuteCode NewExecutionService
        (okHost (runsOf [{ output := "41\n", elapsedMs := 100 }, { output := "42\n", elapsedMs := 7 }]))
        {} sampleCode "python" [sampleTest, sampleTest] = (.returned r none, w') ∧
      r.Status = StatusWrongAnswer ∧
      r.TestResults.length = r.TestCasesPassed + 1 ∧
      (dockerRuns w'.log).length = (dockerRuns ({} : World).log).length + (r.TestCasesPassed + 1) :=
  ⟨_, _, rfl, rfl,
    (failing_result_short_circuit NewExecutionService
      (okHost (runsOf [{ output := "41\n", elapsedMs := 100 }, { output := "42\n", elapsedMs := 7 }]))
      {} _ sampleCode "python" [sampleTest, sampleTest] _ none rfl (Or.inl rfl)).1,
    (failing_result_short_circuit NewExecutionService
      (okHost (runsOf [{ output := "41\n", elapsedMs := 100 }, { output := "42\n", elapsedMs := 7 }]))
      {} _ sampleCode "python" [sampleTest, sampleTest] _ none rfl (Or.inl rfl)).2.2.2.2⟩

/-! ## Acceptance -/

theorem allPassFrom_of_forall (host : Host) (tcs : List TestCase) :
    ∀ i, (∀ j tc, tcs[j]? = some tc → passesAt host (i + j) tc = true) →
      allPassFrom host i tcs = true := by
  induction tcs with
  | nil => intro i _; rfl
  | cons tc rest ih =>
    intro i h
    have h0 := h 0 tc (by simp)
    rw [Nat.add_zero] at h0
    have hrest : allPassFrom host (i + 1) rest = true := by
      apply ih
      intro j tc' hj
      have := h (j + 1) tc' (by simpa using hj)
      have hidx : i + (j + 1) = i + 1 + j := by omega
      rw [hidx] at this
      exact this
    simp [allPassFrom, h0, hrest]

/-- C8: for a supported language, valid code and a non-empty list of test
cases, when the set-up calls succeed and every run completes normally with an
output equal to the expected one after trimming, `ExecuteCode` returns a nil
error and an accepted result with every test case passed and no error message. -/
theorem all_passing_accepted (es : ExecutionService) (host : Host) (w : World)
    (code language unique : String) (testCases : List TestCase)
    (hlang : isLanguageSupported language = true)
    (hvalid : validateCode host.unicodeToLower code language = none)
    (hmkdir : host.mkdirAll = none) (htemp : host.mkdirTemp = .ok unique)
    (hcode : host.writeCodeFile = none)
    (hne : testCases ≠ [])
    (hruns : ∀ j tc, testCases[j]? = some tc →
      host.writeInputFile j = none ∧ (host.run j).deadlineExceeded = false ∧
      (host.run j).err = none ∧
      TrimSpace (host.run j).output = TrimSpace tc.ExpectedOutput) :
    ∃ r, (ExecuteCode es host w code language testCases).1 = .returned r none ∧
      r.Status = StatusAccepted ∧
      r.TestCasesPassed = testCases.length ∧
      r.TotalTestCases = testCases.length ∧
      r.TestResults.length = testCases.length ∧
      (∀ tr ∈ r.TestResults, tr.Passed = true) ∧
      r.ErrorMessage = "" := by
  have hsetup : setupOk host code language = true := by
    simp [setupOk, hlang, hvalid, hmkdir, htemp, hcode, Except.toBool]
  have hall : allPassFrom host 0 testCases = true := by
    apply allPassFrom_of_forall
    intro j tc hj
    obtain ⟨hw, hd, he, heq⟩ := hruns j tc hj
    rw [Nat.zero_add]
    simp only [passesAt, hw, Option.isNone_none, Bool.true_and]
    exact (buildTestResult_normal tc (host.run j) hd he).2.2 heq.symm
  obtain ⟨r, w', _, _, _, hexec, hst, hmsg, hp, ht, hres, _⟩ :=
    ExecuteCode_all_pass es host w code language testCases hsetup hne hall
  refine ⟨r, by rw [hexec], hst, hp, ht, ?_, ?_, hmsg⟩
  · rw [hres, resultsFrom_length]
  · rw [hres]; exact resultsFrom_passed host testCases 0 hall

/-- Witness of C8: one test case whose output differs from the expected one in white space only. -/
theorem all_passing_accepted_witness :
    ∃ r, (ExecuteCode NewExecutionService
        (okHost (runsOf [{ output := " 42\n", elapsedMs := 5 }])) {} sampleCode "python"
        [sampleTest]).1 = .returned r none ∧
      r.Status = StatusAccepted ∧
      r.TestCasesPassed = [sampleTest].length ∧
      r.TotalTestCases = [sampleTest].length ∧
      r.TestResults.length = [sampleTest].length ∧
      (∀ tr ∈ r.TestResults, tr.Passed = true) ∧
      r.ErrorMessage = "" :=
  all_passing_accepted NewExecutionService (okHost (runsOf [{ output := " 42\n", elapsedMs := 5 }]))
    {} sampleCode "python" "1" [sampleTest] (by decide) (by decide) rfl rfl rfl (by decide)
    (by
      intro j tc hj
      cases j with
      | zero =>
        simp only [List.getElem?_cons_zero, Option.some.injEq] at hj
        subst hj
        decide
      | succ j => simp at hj)

/-! ## Comparison of the outputs -/

theorem dropWhile_append_of_all {α : Type} (p : α → Bool) (l t : List α)
    (h : ∀ x ∈ l, p x = true) : (l ++ t).dropWhile p = t.dropWhile p := by
  induction l with
  | nil => rfl
  | cons x l ih =>
    have hx : p x = true := h x (by simp)
    simp only [List.cons_append, List.dropWhile_cons, hx, if_true]
    exact ih (fun y hy => h y (by simp [hy]))

theorem dropWhile_append_of_exists {α : Type} (p : α → Bool) (l t : List α)
    (h : ∃ x ∈ l, p x = false) : (l ++ t).dropWhile p = l.dropWhile p ++ t := by
  induction l with
  | nil => simp at h
  | cons x l ih =>
    cases hx : p x with
    | false => simp [List.dropWhile_cons, hx]
    | true =>
      simp only [List.cons_append, List.dropWhile_cons, hx, if_true]
      apply ih
      obtain ⟨y, hy, hpy⟩ := h
      simp only [List.mem_cons] at hy
      rcases hy with hy | hy
      · rw [hy, hx] at hpy; simp at hpy
      · exact ⟨y, hy, hpy⟩

theorem dropWhile_eq_nil_of_all {α : Type} (p : α → Bool) (l : List α)
    (h : ∀ x ∈ l, p x = true) : l.dropWhile p = [] := by
  have := dropWhile_append_of_all p l [] h
  simpa using this

/-- Trimming forgets white space put around a text. -/
theorem TrimSpace_padded (lead core trail : String)
    (hlead : ∀ c ∈ lead.data, isSpace c = true) (htrail : ∀ c ∈ trail.data, isSpace c = true) :
    TrimSpace (lead ++ core ++ trail) = TrimSpace core := by
  have hrtrim : ∀ l : List Char,
      ((l ++ trail.data).reverse.dropWhile isSpace).reverse
        = (l.reverse.dropWhile isSpace).reverse := by
    intro l
    rw [List.reverse_append,
      dropWhile_append_of_all isSpace trail.data.reverse l.reverse (by simpa using htrail)]
  unfold TrimSpace
  simp only [String.data_append, List.append_assoc]
  rw [dropWhile_append_of_all isSpace lead.data _ hlead]
  by_cases hcore : ∃ x ∈ core.data, isSpace x = false
  · rw [dropWhile_append_of_exists isSpace core.data trail.data hcore, hrtrim]
  · have hall : ∀ x ∈ core.data, isSpace x = true := by
      intro x hx
      cases hpx : isSpace x with
      | true => rfl
      | false => exact absurd ⟨x, hx, hpx⟩ hcore
    rw [dropWhile_append_of_all isSpace core.data _ hall,
      dropWhile_eq_nil_of_all isSpace trail.data htrail,
      dropWhile_eq_nil_of_all isSpace core.data hall]

/-- C9: a test case whose run completes normally is passed exactly when the
expected output and the process output are equal after trimming; hence two
outputs that are the same text with different white space around it pass. -/
theorem passed_iff_trimmed_equal (es : ExecutionService) (host : Host) (i : Nat) (w : World)
    (execDir codeFile language : String) (tc : TestCase)
    (hw : host.writeInputFile i = none)
    (hd : (host.run i).deadlineExceeded = false)
    (he : (host.run i).err = none) :
    ∃ tr, (executeTestCase es host i w execDir codeFile language tc).1 = .ok tr ∧
      tr.ExpectedOutput = TrimSpace tc.ExpectedOutput ∧
      tr.ActualOutput = TrimSpace (host.run i).output ∧
      (tr.Passed = true ↔ TrimSpace tc.ExpectedOutput = TrimSpace (host.run i).output) ∧
      (∀ core lead trail lead' trail' : String,
        (∀ c ∈ lead.data, isSpace c = true) → (∀ c ∈ trail.data, isSpace c = true) →
        (∀ c ∈ lead'.data, isSpace c = true) → (∀ c ∈ trail'.data, isSpace c = true) →
        tc.ExpectedOutput = lead ++ core ++ trail → (host.run i).output = lead' ++ core ++ trail' →
        tr.Passed = true) := by
  obtain ⟨hact, hpass⟩ := buildTestResult_normal tc (host.run i) hd he
  refine ⟨_, by rw [executeTestCase_run _ _ _ _ _ _ _ _ hw], ?_, hact, hpass, ?_⟩
  · simp [buildTestResult, hd, he]
  · intro core lead trail lead' trail' h1 h2 h3 h4 hexp hout
    apply hpass.2
    rw [hexp, hout, TrimSpace_padded lead core trail h1 h2, TrimSpace_padded lead' core trail' h3 h4]

/-- Witness of C9: the output ` 42` followed by a line feed against the expected `42`. -/
theorem passed_iff_trimmed_equal_witness :
    ∃ tr, (executeTestCase NewExecutionService (okHost (runsOf [{ output := " 42\n" }])) 0 {}
        "/tmp/leetcode-execution/exec-1" "/tmp/leetcode-execution/exec-1/solution.py" "python"
        sampleTest).1 = .ok tr ∧
      tr.ExpectedOutput = TrimSpace sampleTest.ExpectedOutput ∧
      tr.ActualOutput = TrimSpace " 42\n" ∧
      (tr.Passed = true ↔ TrimSpace sampleTest.ExpectedOutput = TrimSpace " 42\n") ∧
      (∀ core lead trail lead' trail' : String,
        (∀ c ∈ lead.data, isSpace c = true) → (∀ c ∈ trail.data, isSpace c = true) →
        (∀ c ∈ lead'.data, isSpace c = true) → (∀ c ∈ trail'.data, isSpace c = true) →
        sampleTest.ExpectedOutput = lead ++ core ++ trail → " 42\n" = lead' ++ core ++ trail' →
        tr.Passed = true) :=
  passed_iff_trimmed_equal NewExecutionService (okHost (runsOf [{ output := " 42\n" }])) 0 {}
    "/tmp/leetcode-execution/exec-1" "/tmp/leetcode-execution/exec-1/solution.py" "python"
    sampleTest (by decide) (by decide) (by decide)

/-! ## Length ceiling -/

theorem length_le_utf8ByteSize (s : String) : s.length ≤ s.utf8ByteSize := by
  have hgo : ∀ cs : List Char, cs.length ≤ String.utf8ByteSize.go cs := by
    intro cs
    induction cs with
    | nil => simp [String.utf8ByteSize.go]
    | cons c cs ih =>
      have hc : 0 < c.utf8Size := Char.utf8Size_pos c
      simp only [String.utf8ByteSize.go, List.length_cons]
      omega
  cases s with
  | mk data => exact hgo data

/-- C10: a code whose length exceeds 50,000, counted in bytes as the code does
or in characters as the specification says, is rejected whatever it contains
and whatever the declared language is. -/
theorem oversized_code_rejected (lower : Char → Char) (code language : String)
    (h : 50000 < len code ∨ 50000 < code.length) :
    validateCode lower code language ≠ none := by
  have hlen : 50000 < len code := by
    rcases h with h | h
    · exact h
    · exact Nat.lt_of_lt_of_le h (length_le_utf8ByteSize code)
  simp only [validateCode, hlen, if_true]
  split <;> simp

/-- Witness of C10: a code of 60,000 characters. -/
theorem oversized_code_rejected_witness :
    validateCode Char.toLower (String.mk (List.replicate 60000 'a')) "javascript" ≠ none :=
  oversized_code_rejected Char.toLower (String.mk (List.replicate 60000 'a')) "javascript"
    (Or.inr (by
      show 50000 < (List.replicate 60000 'a').length
      rw [List.length_replicate]
      decide))

/-! ## The deny-list -/

theorem find?_first {α : Type} (f : α → Bool) (pre : List α) (p : α) (post : List α)
    (hpre : ∀ q ∈ pre, f q = false) (hp : f p = true) :
    (pre ++ p :: post).find? f = some p := by
  induction pre with
  | nil => simp [List.find?_cons, hp]
  | cons q pre ih =>
    have hq : f q = false := hpre q (by simp)
    simp only [List.cons_append, List.find?_cons, hq]
    exact ih (fun x hx => hpre x (by simp [hx]))

theorem find?_split {α : Type} (f : α → Bool) (l : List α) (h : ∃ q ∈ l, f q = true) :
    ∃ pre p post, l = pre ++ p :: post ∧ (∀ q ∈ pre, f q = false) ∧ f p = true := by
  induction l with
  | nil => simp at h
  | cons a l ih =>
    cases ha : f a with
    | true => exact ⟨[], a, l, rfl, by simp, ha⟩
    | false =>
      have hrest : ∃ q ∈ l, f q = true := by
        obtain ⟨q, hq, hfq⟩ := h
        simp only [List.mem_cons] at hq
        rcases hq with hq | hq
        · rw [hq, ha] at hfq; simp at hfq
        · exact ⟨q, hq, hfq⟩
      obtain ⟨pre, p, post, hl, hpre, hp⟩ := ih hrest
      refine ⟨a :: pre, p, post, by simp [hl], ?_, hp⟩
      intro q hq
      simp only [List.mem_cons] at hq
      rcases hq with hq | hq
      · rw [hq]; exact ha
      · exact hpre q hq

/-- The reason given for the first deny-list pattern that the lowered code contains. -/
theorem validateCode_first_match (lower : Char → Char) (code language : String)
    (pre : List String) (p : String) (post : List String)
    (hsplit : dangerousPatterns = pre ++ p :: post)
    (hpre : ∀ q ∈ pre, Contains (ToLower lower code) (ToLower lower q) = false)
    (hp : Contains (ToLower lower code) (ToLower lower p) = true) :
    validateCode lower code language
      = some ("code contains potentially dangerous pattern: " ++ p) := by
  simp only [validateCode]
  rw [hsplit, find?_first _ pre p post hpre hp]

/-- Without a deny-list match the length decides. -/
theorem validateCode_no_match (lower : Char → Char) (code language : String)
    (hnone : ∀ q ∈ dangerousPatterns, Contains (ToLower lower code) (ToLower lower q) = false) :
    validateCode lower code language
      = if len code > 50000 then some "code exceeds maximum length limit" else none := by
  have hfind : dangerousPatterns.find?
      (fun pattern => Contains (ToLower lower code) (ToLower lower pattern)) = none := by
    rw [List.find?_eq_none]
    intro q hq
    simp [hnone q hq]
  simp only [validateCode, hfind]

/-- C11: a code whose lowered text contains the lowered form of a deny-list
pattern is rejected, whatever the language; and the result of the validation
is the same for any two languages. -/
theorem denied_pattern_rejected (lower : Char → Char) (code language p : String)
    (hp : p ∈ dangerousPatterns)
    (hcontains : Contains (ToLower lower code) (ToLower lower p) = true) :
    validateCode lower code language ≠ none ∧
    (∀ l1 l2 : String, validateCode lower code l1 = validateCode lower code l2) := by
  refine ⟨?_, fun l1 l2 => rfl⟩
  obtain ⟨pre, q, post, hsplit, hpre, hq⟩ :=
    find?_split (fun pattern => Contains (ToLower lower code) (ToLower lower pattern))
      dangerousPatterns ⟨p, hp, hcontains⟩
  rw [validateCode_first_match lower code language pre q post hsplit hpre hq]
  simp

/-- Witness of C11: `IMPORT OS` in upper case, declared as an unsupported language. -/
theorem denied_pattern_rejected_witness :
    validateCode Char.toLower "IMPORT OS" "cpp" ≠ none ∧
    (∀ l1 l2 : String,
      validateCode Char.toLower "IMPORT OS" l1 = validateCode Char.toLower "IMPORT OS" l2) :=
  denied_pattern_rejected Char.toLower "IMPORT OS" "cpp" "import os" (by decide) (by decide)

/-- C13: when the lowered code contains a deny-list pattern, the reason of the
rejection is the fixed text followed by the first pattern of the deny-list
that occurs, for every language and whatever the length of the code. -/
theorem rejection_names_first_pattern (lower : Char → Char) (code : String)
    (h : ∃ q ∈ dangerousPatterns, Contains (ToLower lower code) (ToLower lower q) = true) :
    ∃ pre p post, dangerousPatterns = pre ++ p :: post ∧
      (∀ q ∈ pre, Contains (ToLower lower code) (ToLower lower q) = false) ∧
      Contains (ToLower lower code) (ToLower lower p) = true ∧
      ∀ language : String, validateCode lower code language
        = some ("code contains potentially dangerous pattern: " ++ p) := by
  obtain ⟨pre, p, post, hsplit, hpre, hp⟩ :=
    find?_split (fun pattern => Contains (ToLower lower code) (ToLower lower pattern))
      dangerousPatterns h
  exact ⟨pre, p, post, hsplit, hpre, hp,
    fun language => validateCode_first_match lower code language pre p post hsplit hpre hp⟩

/-- Witness of C13: a code with `EVAL(` before `import sys`; `import sys` comes
first in the deny-list. -/
theorem rejection_names_first_pattern_witness :
    ∃ pre p post, dangerousPatterns = pre ++ p :: post ∧
      (∀ q ∈ pre, Contains (ToLower Char.toLower "EVAL(x); import sys")
        (ToLower Char.toLower q) = false) ∧
      Contains (ToLower Char.toLower "EVAL(x); import sys") (ToLower Char.toLower p) = true ∧
      ∀ language : String, validateCode Char.toLower "EVAL(x); import sys" language
        = some ("code contains potentially dangerous pattern: " ++ p) :=
  rejection_names_first_pattern Char.toLower "EVAL(x); import sys"
    ⟨"eval(", by decide, by decide⟩

/-! ## Accepted codes -/

theorem containsChars_replicate (sub : List Char) (c : Char) (n : Nat)
    (h : (match sub with | [] => false | a :: _ => a != c) = true) :
    containsChars sub (List.replicate n c) = false := by
  cases sub with
  | nil => simp at h
  | cons a rest =>
    have hac : (a == c) = false := by simpa using h
    induction n with
    | zero => simp [containsChars]
    | succ n ih => simp [List.replicate_succ, containsChars, List.isPrefixOf, hac, ih]

theorem Contains_replicate (lower : Char → Char) (q : String) (c : Char) (n : Nat)
    (h : (match (ToLower lower q).data with | [] => false | a :: _ => a != lower c) = true) :
    Contains (ToLower lower (String.mk (List.replicate n c))) (ToLower lower q) = false := by
  simp only [Contains, ToLower, List.map_replicate]
  exact containsChars_replicate _ _ _ h

theorem len_replicate (c : Char) (n : Nat) :
    len (String.mk (List.replicate n c)) = n * c.utf8Size := by
  show String.utf8ByteSize.go (List.replicate n c) = n * c.utf8Size
  induction n with
  | zero => simp [String.utf8ByteSize.go]
  | succ n ih =>
    simp only [List.replicate_succ, String.utf8ByteSize.go, ih, Nat.succ_mul]

/-- C12, as stated, fails: a code of 50,000 characters `é`, which contains no
deny-list pattern, takes 100,000 bytes and is rejected for its length. -/
theorem clean_code_of_50000_characters_rejected :
    (String.mk (List.replicate 50000 'é')).length = 50000 ∧
    (∀ q ∈ dangerousPatterns,
      Contains (ToLower Char.toLower (String.mk (List.replicate 50000 'é')))
        (ToLower Char.toLower q) = false) ∧
    validateCode Char.toLower (String.mk (List.replicate 50000 'é')) "python"
      = some "code exceeds maximum length limit" := by
  have hclean : ∀ q ∈ dangerousPatterns,
      Contains (ToLower Char.toLower (String.mk (List.replicate 50000 'é')))
        (ToLower Char.toLower q) = false := by
    have hheads : ∀ q ∈ dangerousPatterns,
        (match (ToLower Char.toLower q).data with
          | [] => false
          | a :: _ => a != Char.toLower 'é') = true := by decide
    exact fun q hq => Contains_replicate Char.toLower q 'é' 50000 (hheads q hq)
  refine ⟨List.length_replicate 50000 'é', hclean, ?_⟩
  rw [validateCode_no_match Char.toLower _ _ hclean, len_replicate]
  have : ('é' : Char).utf8Size = 2 := by decide
  simp [this]

/-- C12, amended: a code of at most 50,000 bytes whose lowered text contains no
deny-list pattern is accepted, for every language; so the validator rejects
for a deny-list match or for a length over 50,000 bytes only. -/
theorem clean_short_code_accepted (lower : Char → Char) (code language : String)
    (hlen : len code ≤ 50000)
    (hclean : ∀ q ∈ dangerousPatterns,
      Contains (ToLower lower code) (ToLower lower q) = false) :
    validateCode lower code language = none := by
  rw [validateCode_no_match lower code language hclean]
  simp [Nat.not_lt.mpr hlen]

/-- Witness of C12, amended: a code of exactly 50,000 letters `x`. -/
theorem clean_short_code_accepted_witness :
    len (String.mk (List.replicate 50000 'x')) = 50000 ∧
    validateCode Char.toLower (String.mk (List.replicate 50000 'x')) "javascript" = none :=
  have hlen : len (String.mk (List.replicate 50000 'x')) = 50000 := by
    rw [len_replicate]
    have : ('x' : Char).utf8Size = 1 := by decide
    simp [this]
  have hheads : ∀ q ∈ dangerousPatterns,
      (match (ToLower Char.toLower q).data with
        | [] => false
        | a :: _ => a != Char.toLower 'x') = true := by decide
  ⟨hlen, clean_short_code_accepted Char.toLower (String.mk (List.replicate 50000 'x')) "javascript"
    (by rw [hlen])
    (fun q hq => Contains_replicate Char.toLower q 'x' 50000 (hheads q hq))⟩

/-! ## Rejected code in `ExecuteCode` -/

/-- When the directories get created and the validation fails, `ExecuteCode`
returns the generic message in the result and the reason as its error. -/
theorem ExecuteCode_rejected (es : ExecutionService) (host : Host) (w : World)
    (code language reason unique : String) (testCases : List TestCase)
    (hl : isLanguageSupported language = true)
    (hm : host.mkdirAll = none) (ht : host.mkdirTemp = .ok unique)
    (hv : validateCode host.unicodeToLower code language = some reason) :
    ExecuteCode es host w code language testCases
      = (.returned { Status := StatusInternalError
                     ErrorMessage := "Failed to prepare code file" } (some reason),
          ((w.mkdirAll es.tempDir).mkdirTemp (mkdirTempPath host es.tempDir unique)).removeAll
            host.removeAll (mkdirTempPath host es.tempDir unique)) := by
  simp [ExecuteCode, hl, createTempDir, hm, ht, executeInDir, prepareCodeFile, hv]

/-- C14, as stated, fails: for the rejected code `Import OS` in Python the
error message of the result is the generic `Failed to prepare code file`; the
matched pattern is named in the returned error only. -/
theorem rejected_result_message_generic :
    ∃ r, (ExecuteCode NewExecutionService (okHost (runsOf [])) {} "Import OS" "python"
        [sampleTest]).1
        = .returned r (some "code contains potentially dangerous pattern: import os") ∧
      r.Status = StatusInternalError ∧
      r.ErrorMessage = "Failed to prepare code file" ∧
      Contains r.ErrorMessage "import os" = false :=
  ⟨{ Status := StatusInternalError, ErrorMessage := "Failed to prepare code file" },
    by decide, rfl, rfl, by decide⟩

/-- C14, amended: for a supported language and a code whose first deny-list
match is the pattern `p`, `ExecuteCode` runs no test case and returns a result
with the status `Internal Error` and no test result; when the directories get
created, the error message of the result is `Failed to prepare code file` and
the returned error is the rejection reason, which names `p`. -/
theorem rejected_code_internal_error (es : ExecutionService) (host : Host) (w : World)
    (code language : String) (testCases : List TestCase)
    (pre : List String) (p : String) (post : List String)
    (hl : isLanguageSupported language = true)
    (hsplit : dangerousPatterns = pre ++ p :: post)
    (hpre : ∀ q ∈ pre,
      Contains (ToLower host.unicodeToLower code) (ToLower host.unicodeToLower q) = false)
    (hp : Contains (ToLower host.unicodeToLower code) (ToLower host.unicodeToLower p) = true) :
    ∃ r err,
      (ExecuteCode es host w code language testCases).1 = .returned r err ∧
      r.Status = StatusInternalError ∧ r.TestResults = [] ∧
      dockerRuns (ExecuteCode es host w code language testCases).2.log = dockerRuns w.log ∧
      (∀ unique, host.mkdirAll = none → host.mkdirTemp = .ok unique →
        r.ErrorMessage = "Failed to prepare code file" ∧
        err = some ("code contains potentially dangerous pattern: " ++ p)) := by
  have hv := validateCode_first_match host.unicodeToLower code language pre p post hsplit hpre hp
  have hs : setupOk host code language = false := by simp [setupOk, hv]
  obtain ⟨r, err, w', events, hexec, hst, _, _, hres, _, hlog, _, hdr, _⟩ :=
    ExecuteCode_setup_failed es host w code language testCases hs
  refine ⟨r, err, by rw [hexec], hst, hres, ?_, ?_⟩
  · rw [hexec]
    show dockerRuns w'.log = dockerRuns w.log
    rw [hlog, dockerRuns_append, hdr, List.append_nil]
  · intro unique hm ht
    rw [ExecuteCode_rejected es host w code language _ unique testCases hl hm ht hv] at hexec
    simp only [Prod.mk.injEq, Outcome.returned.injEq] at hexec
    obtain ⟨⟨hr, he⟩, _⟩ := hexec
    subst hr; subst he
    exact ⟨rfl, rfl⟩

/-- Witness of C14, amended: the code `Import OS` in Python. -/
theorem rejected_code_internal_error_witness :
    ∃ r err,
      (ExecuteCode NewExecutionService (okHost (runsOf [])) {} "Import OS" "python"
        [sampleTest]).1 = .returned r err ∧
      r.Status = StatusInternalError ∧ r.TestResults = [] ∧
      dockerRuns (ExecuteCode NewExecutionService (okHost (runsOf [])) {} "Import OS" "python"
        [sampleTest]).2.log = dockerRuns ({} : World).log ∧
      (∀ unique, (okHost (runsOf [])).mkdirAll = none →
        (okHost (runsOf [])).mkdirTemp = .ok unique →
        r.ErrorMessage = "Failed to prepare code file" ∧
        err = some ("code contains potentially dangerous pattern: " ++ "import os")) :=
  rejected_code_internal_error NewExecutionService (okHost (runsOf [])) {} "Import OS" "python"
    [sampleTest] [] "import os" (dangerousPatterns.drop 1) (by decide) (by decide)
    (by intro q hq; simp at hq) (by decide)

/-! ## Unsupported languages -/

/-- C15: the supported languages are exactly `javascript`, `python` and
`java`, in this spelling; for any other language `ExecuteCode` returns a nil
error and the result with the status `Internal Error` and the message
`Unsupported language: ` followed by the language, whatever the code, the test
cases and the host are, and leaves the world untouched: no directory is
created, no file written and no test case run. -/
theorem unsupported_language_internal_error (es : ExecutionService) (host : Host) (w : World)
    (code language : String) (testCases : List TestCase) :
    (isLanguageSupported language = true ↔
      language = "javascript" ∨ language = "python" ∨ language = "java") ∧
    isLanguageSupported "cpp" = false ∧ isLanguageSupported "go" = false ∧
    isLanguageSupported "" = false ∧ isLanguageSupported "Python" = false ∧
    (isLanguageSupported language = false →
      ExecuteCode es host w code language testCases
        = (.returned { Status := StatusInternalError
                       ErrorMessage := "Unsupported language: " ++ language } none, w)) := by
  refine ⟨isLanguageSupported_iff language, by decide, by decide, by decide, by decide, ?_⟩
  intro h
  simp [ExecuteCode, h]

/-! ## Harness round-trip -/

theorem containsChars_infix (sub head tail : List Char) :
    containsChars sub (head ++ sub ++ tail) = true := by
  induction head with
  | nil =>
    cases hs : sub ++ tail with
    | nil =>
      have hsub : sub = [] := (List.append_eq_nil.1 hs).1
      have htail : tail = [] := (List.append_eq_nil.1 hs).2
      simp [containsChars, hsub, htail]
    | cons c cs =>
      have hpre : sub.isPrefixOf (c :: cs) = true := by
        rw [← hs, List.isPrefixOf_iff_prefix]
        exact List.prefix_append sub tail
      simp [containsChars, hs, hpre]
  | cons c head ih =>
    have : c :: head ++ sub ++ tail = c :: (head ++ sub ++ tail) := by simp
    rw [this]
    simp only [containsChars, ih, Bool.or_true]

theorem Contains_infix (head code tail : String) :
    Contains (head ++ code ++ tail) code = true := by
  simp only [Contains, String.data_append]
  exact containsChars_infix code.data head.data tail.data

/-- C16: each of the three wrappers puts the user code, unchanged and in one
piece, between a head and a tail that do not depend on it; so the wrapped
program contains the user code as a substring, whatever characters it has. -/
theorem wrapped_code_contains_user_code :
    (∃ head tail : String, ∀ userCode : String,
      wrapJavaScriptCode userCode = head ++ userCode ++ tail ∧
      Contains (wrapJavaScriptCode userCode) userCode = true) ∧
    (∃ head tail : String, ∀ userCode : String,
      wrapPythonCode userCode = head ++ userCode ++ tail ∧
      Contains (wrapPythonCode userCode) userCode = true) ∧
    (∃ head tail : String, ∀ userCode : String,
      wrapJavaCode userCode = head ++ userCode ++ tail ∧
      Contains (wrapJavaCode userCode) userCode = true) :=
  ⟨⟨_, _, fun userCode => ⟨rfl, Contains_infix _ userCode _⟩⟩,
   ⟨_, _, fun userCode => ⟨rfl, Contains_infix _ userCode _⟩⟩,
   ⟨_, _, fun userCode => ⟨rfl, Contains_infix _ userCode _⟩⟩⟩

/-! ## Isolation profile -/

/-- C17: whatever the language, the execution directory and the code file
are, the docker arguments start with the same fourteen arguments of the
isolation profile, of which only the memory limit comes from the service and
only the mount from the execution directory; the image and the command follow.
The default memory limit gives `--memory=128m`. -/
theorem docker_command_isolation_profile (es : ExecutionService)
    (execDir codeFile language : String) :
    (∃ image command, buildDockerCommand es execDir codeFile language
      = [ "run", "--rm", "--network=none", "--read-only",
          "--tmpfs", "/tmp:rw,noexec,nosuid,size=10m",
          "--memory=" ++ toString es.memoryLimitMB ++ "m",
          "--cpus=0.5",
          "--user", "nobody",
          "-v", execDir ++ ":/workspace:ro",
          "-w", "/workspace" ] ++ image :: command) ∧
    "--memory=" ++ toString NewExecutionService.memoryLimitMB ++ "m" = "--memory=128m" := by
  refine ⟨?_, by decide⟩
  unfold buildDockerCommand
  split
  · exact ⟨_, _, rfl⟩
  · split
    · exact ⟨_, _, rfl⟩
    · split
      · exact ⟨_, _, rfl⟩
      · exact ⟨_, _, rfl⟩

/-! ## The returned error -/

/-- Once the set-up has succeeded, whatever `ExecuteCode` returns comes with a
nil error and one of six statuses. -/
theorem ExecuteCode_setupOk_returned (es : ExecutionService) (host : Host) (w : World)
    (code language : String) (testCases : List TestCase) (r : ExecutionResult)
    (err : Option String)
    (hs : setupOk host code language = true)
    (h : (ExecuteCode es host w code language testCases).1 = .returned r err) :
    err = none ∧
    (r.Status = StatusAccepted ∨ r.Status = StatusInternalError ∨
      r.Status = StatusTimeLimitExceeded ∨ r.Status = StatusMemoryLimitExceeded ∨
      r.Status = StatusRuntimeError ∨ r.Status = StatusWrongAnswer) := by
  rcases allPassFrom_or_split host testCases 0 with hall | ⟨pre, tc, post, hsplit, hpre, hfail⟩
  · cases testCases with
    | nil =>
      obtain ⟨w2, hexec⟩ := ExecuteCode_empty_panics es host w code language hs
      rw [hexec] at h
      simp at h
    | cons tc rest =>
      obtain ⟨r2, w2, _, _, _, hexec, hst, _⟩ :=
        ExecuteCode_all_pass es host w code language (tc :: rest) hs (by simp) hall
      rw [hexec] at h
      simp only [Outcome.returned.injEq] at h
      obtain ⟨hr, he⟩ := h
      subst hr; subst he
      exact ⟨rfl, Or.inl hst⟩
  · subst hsplit
    rw [Nat.zero_add] at hfail
    rcases passesAt_false_cases host pre.length tc hfail with ⟨e, hw⟩ | ⟨hw, hp⟩
    · obtain ⟨r2, w2, hexec, hst, _⟩ :=
        ExecuteCode_input_write_failed es host w code language pre tc post e hs hpre hw
      rw [hexec] at h
      simp only [Outcome.returned.injEq] at h
      obtain ⟨hr, he⟩ := h
      subst hr; subst he
      exact ⟨rfl, Or.inr (Or.inl hst)⟩
    · obtain ⟨r2, w2, _, _, _, hexec, hst, _⟩ :=
        ExecuteCode_first_failure es host w code language pre tc post hs hpre hw hp
      rw [hexec] at h
      simp only [Outcome.returned.injEq] at h
      obtain ⟨hr, he⟩ := h
      subst hr; subst he
      refine ⟨rfl, Or.inr (Or.inr ?_)⟩
      rw [hst]
      exact failureStatus_cases _

/-- C18: a non-nil error is returned only when the language is supported and
creating the temporary directory or preparing the code file fails, and then
with the status `Internal Error` and no test result; when these steps succeed,
every returned result comes with a nil error and carries the outcome in its
status. -/
theorem error_only_from_setup (es : ExecutionService) (host : Host) (w : World)
    (code language : String) (testCases : List TestCase) (r : ExecutionResult)
    (err : Option String)
    (h : (ExecuteCode es host w code language testCases).1 = .returned r err) :
    (err ≠ none →
      isLanguageSupported language = true ∧
      (host.mkdirAll ≠ none ∨ host.mkdirTemp.toBool = false ∨
        validateCode host.unicodeToLower code language ≠ none ∨ host.writeCodeFile ≠ none) ∧
      r.Status = StatusInternalError ∧ r.TestResults = []) ∧
    (isLanguageSupported language = true → host.mkdirAll = none →
      host.mkdirTemp.toBool = true →
      validateCode host.unicodeToLower code language = none → host.writeCodeFile = none →
      err = none ∧
      (r.Status = StatusAccepted ∨ r.Status = StatusInternalError ∨
        r.Status = StatusTimeLimitExceeded ∨ r.Status = StatusMemoryLimitExceeded ∨
        r.Status = StatusRuntimeError ∨ r.Status = StatusWrongAnswer)) := by
  constructor
  · intro herr
    cases hs : setupOk host code language with
    | true =>
      exact absurd (ExecuteCode_setupOk_returned es host w code language testCases r err hs h).1 herr
    | false =>
      obtain ⟨r2, err2, w2, events, hexec, hst, _, _, hres, _⟩ :=
        ExecuteCode_setup_failed es host w code language testCases hs
      rw [hexec] at h
      simp only [Outcome.returned.injEq] at h
      obtain ⟨hr, he⟩ := h
      subst hr; subst he
      cases hl : isLanguageSupported language with
      | false =>
        have hexec2 : ExecuteCode es host w code language testCases
            = (.returned { Status := StatusInternalError
                           ErrorMessage := "Unsupported language: " ++ language } none, w) := by
          simp [ExecuteCode, hl]
        rw [hexec2] at hexec
        simp only [Prod.mk.injEq, Outcome.returned.injEq] at hexec
        exact absurd hexec.1.2.symm herr
      | true =>
        refine ⟨rfl, ?_, hst, hres⟩
        simp only [setupOk, hl, Bool.true_and, Bool.and_eq_false_iff] at hs
        rcases hs with ((hs | hs) | hs) | hs
        · left; intro hn; simp [hn] at hs
        · right; left; exact hs
        · right; right; left; intro hn; simp [hn] at hs
        · right; right; right; intro hn; simp [hn] at hs
  · intro hl hm ht hv hc
    have hs : setupOk host code language = true := by simp [setupOk, hl, hm, ht, hv, hc]
    exact ExecuteCode_setupOk_returned es host w code language testCases r err hs h

/-- Witness of C18: a run that hits the deadline is returned with a nil error. -/
theorem error_only_from_setup_witness :
    ∃ r, (ExecuteCode NewExecutionService (okHost (runsOf [{ deadlineExceeded := true }])) {}
        sampleCode "python" [sampleTest]).1 = .returned r none ∧
      ((none : Option String) = none ∧
        (r.Status = StatusAccepted ∨ r.Status = StatusInternalError ∨
          r.Status = StatusTimeLimitExceeded ∨ r.Status = StatusMemoryLimitExceeded ∨
          r.Status = StatusRuntimeError ∨ r.Status = StatusWrongAnswer)) :=
  ⟨_, rfl,
    (error_only_from_setup NewExecutionService (okHost (runsOf [{ deadlineExceeded := true }])) {}
      sampleCode "python" [sampleTest] _ none rfl).2 (by decide) rfl rfl (by decide) rfl⟩

/-! ## Memory -/

theorem buildTestResult_memory (tc : TestCase) (raw : RawOutcome) :
    (buildTestResult tc raw).MemoryKb = 1024 + len raw.output / 100 := by
  unfold buildTestResult
  split
  · rfl
  · split <;> rfl

theorem maxMemoryFrom_ge_init (rs : List TestResult) :
    ∀ m, m ≤ maxMemoryFrom m rs := by
  induction rs with
  | nil => intro m; exact Nat.le_refl m
  | cons tr rs ih =>
    intro m
    simp only [maxMemoryFrom]
    have := ih (if tr.MemoryKb > m then tr.MemoryKb else m)
    by_cases hgt : tr.MemoryKb > m <;> simp only [hgt, if_true, if_false] at this ⊢ <;> omega

theorem maxMemoryFrom_ge_mem (rs : List TestResult) :
    ∀ m, ∀ tr ∈ rs, tr.MemoryKb ≤ maxMemoryFrom m rs := by
  induction rs with
  | nil => intro m tr htr; simp at htr
  | cons tr0 rs ih =>
    intro m tr htr
    simp only [maxMemoryFrom]
    simp only [List.mem_cons] at htr
    rcases htr with htr | htr
    · have := maxMemoryFrom_ge_init rs (if tr0.MemoryKb > m then tr0.MemoryKb else m)
      rw [htr]
      by_cases hgt : tr0.MemoryKb > m <;> simp only [hgt, if_true, if_false] at this ⊢ <;> omega
    · exact ih _ tr htr

theorem maxMemoryFrom_attained (rs : List TestResult) :
    ∀ m, maxMemoryFrom m rs = m ∨ ∃ tr ∈ rs, tr.MemoryKb = maxMemoryFrom m rs := by
  induction rs with
  | nil => intro m; left; rfl
  | cons tr0 rs ih =>
    intro m
    simp only [maxMemoryFrom]
    rcases ih (if tr0.MemoryKb > m then tr0.MemoryKb else m) with h | ⟨tr, htr, h⟩
    · by_cases hgt : tr0.MemoryKb > m
      · right
        rw [if_pos hgt] at h ⊢
        exact ⟨tr0, by simp, h.symm⟩
      · left
        rw [if_neg hgt] at h ⊢
        exact h
    · right; exact ⟨tr, by simp [htr], h⟩

/-- The `return` inside the loop carries the status `Internal Error`. -/
theorem runTestCases_returned_status (es : ExecutionService) (host : Host)
    (execDir codeFile language : String) (tcs : List TestCase) :
    ∀ (i : Nat) (s : LoopState) (w : World) (r : ExecutionResult) (w' : World),
      runTestCases es host execDir codeFile language i tcs s w = (.returned r, w') →
      r.Status = StatusInternalError := by
  induction tcs with
  | nil => intro i s w r w' h; simp [runTestCases] at h
  | cons tc rest ih =>
    intro i s w r w' h
    cases hw : host.writeInputFile i with
    | some e =>
      rw [runTestCases_write_failed_head es host execDir codeFile language i tc rest s w e hw] at h
      simp only [Prod.mk.injEq, LoopExit.returned.injEq] at h
      rw [← h.1]
    | none =>
      cases hp : (buildTestResult tc (host.run i)).Passed with
      | false =>
        rw [runTestCases_fail_head es host execDir codeFile language i tc rest s w hw hp] at h
        simp at h
      | true =>
        simp only [runTestCases, executeTestCase_run _ _ _ _ _ _ _ _ hw, hp, if_true] at h
        exact ih _ _ _ r w' h

/-- When the loop runs to its end or to its `break`, the results it has added
are those of the first test cases, in order, and the maximum it holds is the
running maximum over them. -/
theorem runTestCases_finished_results (es : ExecutionService) (host : Host)
    (execDir codeFile language : String) (tcs : List TestCase) :
    ∀ (i : Nat) (s : LoopState) (w : World) (s' : LoopState) (w' : World),
      runTestCases es host execDir codeFile language i tcs s w = (.finished s', w') →
      ∃ rs, s'.result.TestResults = s.result.TestResults ++ rs ∧
        (tcs ≠ [] → rs ≠ []) ∧
        (∀ j tr, rs[j]? = some tr →
          ∃ tc, tcs[j]? = some tc ∧ tr = buildTestResult tc (host.run (i + j))) ∧
        s'.maxMemory = maxMemoryFrom s.maxMemory rs := by
  induction tcs with
  | nil =>
    intro i s w s' w' h
    simp only [runTestCases, Prod.mk.injEq, LoopExit.finished.injEq] at h
    rw [← h.1]
    exact ⟨[], by simp, by simp, by simp, rfl⟩
  | cons tc rest ih =>
    intro i s w s' w' h
    cases hw : host.writeInputFile i with
    | some e =>
      rw [runTestCases_write_failed_head es host execDir codeFile language i tc rest s w e hw] at h
      simp at h
    | none =>
      cases hp : (buildTestResult tc (host.run i)).Passed with
      | false =>
        rw [runTestCases_fail_head es host execDir codeFile language i tc rest s w hw hp] at h
        simp only [Prod.mk.injEq, LoopExit.finished.injEq] at h
        rw [← h.1]
        refine ⟨[buildTestResult tc (host.run i)], rfl, by simp, ?_, rfl⟩
        intro j tr hj
        cases j with
        | zero =>
          simp only [List.getElem?_cons_zero, Option.some.injEq] at hj
          exact ⟨tc, by simp, by rw [← hj]; rfl⟩
        | succ j => simp at hj
      | true =>
        simp only [runTestCases, executeTestCase_run _ _ _ _ _ _ _ _ hw, hp, if_true] at h
        obtain ⟨rs, hres, _, hidx, hmax⟩ := ih _ _ _ s' w' h
        refine ⟨buildTestResult tc (host.run i) :: rs, ?_, by simp, ?_, ?_⟩
        · rw [hres]; simp
        · intro j tr hj
          cases j with
          | zero =>
            simp only [List.getElem?_cons_zero, Option.some.injEq] at hj
            exact ⟨tc, by simp, by rw [← hj]; rfl⟩
          | succ j =>
            simp only [List.getElem?_cons_succ] at hj
            obtain ⟨tc2, htc, htr⟩ := hidx j tr hj
            refine ⟨tc2, by simpa using htc, ?_⟩
            rw [htr]
            have : i + 1 + j = i + (j + 1) := by omega
            rw [this]
        · rw [hmax]; rfl

/-- C19, as stated, fails: when the first test case passes and the input file
of the second one cannot be written, the returned result holds the result of
the evaluated test case, with a memory figure of 1024, and reports a memory of 0. -/
theorem memory_unset_on_internal_error :
    ∃ r, (ExecuteCode NewExecutionService
        (inputWriteFailsAt 1 (runsOf [{ output := "42\n", elapsedMs := 5 }])) {}
        sampleCode "python" [sampleTest, sampleTest]).1 = .returned r none ∧
      r.Status = StatusInternalError ∧
      r.TestResults.map (·.MemoryKb) = [1024] ∧
      r.MemoryKb = 0 :=
  ⟨{ Status := StatusInternalError
     ErrorMessage := "failed to create input file: no space left on device"
     TestCasesPassed := 1
     TotalTestCases := 2
     TestResults :=
       [{ Input := "1", ExpectedOutput := "42", ActualOutput := "42", Passed := true,
          RuntimeMs := 5, MemoryKb := 1024 }] },
    by decide, rfl, rfl, rfl⟩

/-- C19, amended: in every result returned with a status other than
`Internal Error` there is at least one test result, the memory figure of the
test result at position `j` is 1024 plus the hundredth part, rounded down, of
the byte length of the untrimmed output of run `j`, and the memory of the
result is the maximum of these figures, hence at least 1024. -/
theorem memory_is_maximum (es : ExecutionService) (host : Host) (w : World)
    (code language : String) (testCases : List TestCase) (r : ExecutionResult)
    (err : Option String)
    (h : (ExecuteCode es host w code language testCases).1 = .returned r err)
    (hst : r.Status ≠ StatusInternalError) :
    r.TestResults ≠ [] ∧
    (∀ j tr, r.TestResults[j]? = some tr →
      tr.MemoryKb = 1024 + len (host.run j).output / 100) ∧
    (∀ tr ∈ r.TestResults, tr.MemoryKb ≤ r.MemoryKb) ∧
    (∃ tr ∈ r.TestResults, tr.MemoryKb = r.MemoryKb) ∧
    1024 ≤ r.MemoryKb := by
  cases hs : setupOk host code language with
  | false =>
    obtain ⟨r2, err2, w2, events, hexec, hst2, _⟩ :=
      ExecuteCode_setup_failed es host w code language testCases hs
    rw [hexec] at h
    simp only [Outcome.returned.injEq] at h
    rw [← h.1] at hst
    exact absurd hst2 hst
  | true =>
    obtain ⟨execDir, codeFile, finalCode, hexec⟩ :=
      ExecuteCode_of_setupOk es host w code language testCases hs
    rw [hexec] at h
    rcases hrun : runTestCases es host execDir codeFile language 0 testCases
      { result := { TotalTestCases := testCases.length, TestResults := [] } }
      (((w.mkdirAll es.tempDir).mkdirTemp execDir).writeFile codeFile finalCode) with ⟨exit, w2⟩
    rw [hrun] at h
    cases exit with
    | returned r2 =>
      simp only [conclude, Outcome.returned.injEq] at h
      have := runTestCases_returned_status es host execDir codeFile language testCases _ _ _ _ _ hrun
      rw [h.1] at this
      exact absurd this hst
    | finished s' =>
      obtain ⟨rs, hres, hne, hidx, hmax⟩ :=
        runTestCases_finished_results es host execDir codeFile language testCases _ _ _ _ _ hrun
      simp only [List.nil_append] at hres
      simp only [conclude] at h
      by_cases hlen : testCases.length = 0
      · simp [hlen] at h
      · simp only [hlen, if_false, Outcome.returned.injEq] at h
        have hrnil : rs ≠ [] := hne (by intro hnil; rw [hnil] at hlen; simp at hlen)
        have hrres : r.TestResults = rs := by
          rw [← h.1, ← hres]
          split <;> rfl
        have hrmem : r.MemoryKb = maxMemoryFrom 0 rs := by
          rw [← h.1, ← hmax]
        have hfig : ∀ j tr, rs[j]? = some tr →
            tr.MemoryKb = 1024 + len (host.run j).output / 100 := by
          intro j tr hj
          obtain ⟨tc, _, htr⟩ := hidx j tr hj
          rw [htr, buildTestResult_memory, Nat.zero_add]
        have hatt : ∃ tr ∈ rs, tr.MemoryKb = maxMemoryFrom 0 rs := by
          rcases maxMemoryFrom_attained rs 0 with h0 | hex
          · cases rs with
            | nil => exact absurd rfl hrnil
            | cons tr0 rest =>
              have hge := maxMemoryFrom_ge_mem (tr0 :: rest) 0 tr0 (by simp)
              have h1024 := hfig 0 tr0 (by simp)
              omega
          · exact hex
        rw [hrres, hrmem]
        refine ⟨hrnil, hfig, maxMemoryFrom_ge_mem rs 0, hatt, ?_⟩
        obtain ⟨tr, htr, heq⟩ := hatt
        obtain ⟨j, hj⟩ := List.mem_iff_getElem?.1 htr
        have := hfig j tr hj
        omega

set_option maxRecDepth 20000 in
/-- Witness of C19, amended: two test cases, the second of which fails with a
long output. -/
theorem memory_is_maximum_witness :
    ∃ r, (ExecuteCode NewExecutionService
        (okHost (runsOf [{ output := "42\n" }, { output := String.mk (List.replicate 250 'x') }]))
        {} sampleCode "python" [sampleTest, sampleTest]).1 = .returned r none ∧
      r.MemoryKb = 1026 ∧
      (∀ tr ∈ r.TestResults, tr.MemoryKb ≤ r.MemoryKb) ∧
      (∃ tr ∈ r.TestResults, tr.MemoryKb = r.MemoryKb) :=
  ⟨_, rfl, rfl,
    (memory_is_maximum NewExecutionService
      (okHost (runsOf [{ output := "42\n" }, { output := String.mk (List.replicate 250 'x') }]))
      {} sampleCode "python" [sampleTest, sampleTest] _ none rfl (by decide)).2.2.1,
    (memory_is_maximum NewExecutionService
      (okHost (runsOf [{ output := "42\n" }, { output := String.mk (List.replicate 250 'x') }]))
      {} sampleCode "python" [sampleTest, sampleTest] _ none rfl (by decide)).2.2.2.1⟩

/-! ## Independence of the elapsed times -/

theorem ExecuteCode_setup_failed_result (es : ExecutionService) (host : Host) (w : World)
    (code language : String) (testCases : List TestCase)
    (h : setupOk host code language = false) :
    ∃ err w', ExecuteCode es host w code language testCases
      = (.returned { Status := StatusInternalError
                     ErrorMessage := setupFailureMessage host language } err, w') := by
  cases hl : isLanguageSupported language with
  | false => exact ⟨none, w, by simp [ExecuteCode, hl, setupFailureMessage]⟩
  | true =>
    cases hm : host.mkdirAll with
    | some e =>
      exact ⟨some e, w, by simp [ExecuteCode, hl, createTempDir, hm, setupFailureMessage]⟩
    | none =>
      cases hmt : host.mkdirTemp with
      | error e =>
        exact ⟨some e, w.mkdirAll es.tempDir, by
          simp [ExecuteCode, hl, createTempDir, hm, hmt, setupFailureMessage, Except.toBool]⟩
      | ok unique =>
        have hmsg : setupFailureMessage host language = "Failed to prepare code file" := by
          simp [setupFailureMessage, hl, hm, hmt, Except.toBool]
        obtain ⟨r, err, w', events, hexec, hst, h0, h1, hres, _⟩ :=
          ExecuteCode_setup_failed es host w code language testCases h
        refine ⟨err, w', ?_⟩
        rw [hmsg]
        cases hv : validateCode host.unicodeToLower code language with
        | some e =>
          rw [ExecuteCode_rejected es host w code language e unique testCases hl hm hmt hv] at hexec ⊢
          simp only [Prod.mk.injEq, Outcome.returned.injEq] at hexec
          rw [← hexec.1.2, ← hexec.2]
        | none =>
          cases hc : host.writeCodeFile with
          | none => simp [setupOk, hl, hm, hmt, hv, hc, Except.toBool] at h
          | some e =>
            have hprep : ∀ w1 : World,
                prepareCodeFile es host w1 (mkdirTempPath host es.tempDir unique) code language
                  = (.error ("failed to write code file: " ++ e), w1) := by
              intro w1
              rcases (isLanguageSupported_iff language).1 hl with hj | hj | hj
              · simp only [prepareCodeFile, hv, hc]; simp [hj]
              · simp only [prepareCodeFile, hv, hc]
                simp [hj, LanguagePython, LanguageJavaScript]
              · simp only [prepareCodeFile, hv, hc]
                simp [hj, LanguagePython, LanguageJavaScript, LanguageJava]
            have hexec2 : ExecuteCode es host w code language testCases
                = (.returned { Status := StatusInternalError
                               ErrorMessage := "Failed to prepare code file" }
                    (some ("failed to write code file: " ++ e)),
                    ((w.mkdirAll es.tempDir).mkdirTemp
                      (mkdirTempPath host es.tempDir unique)).removeAll host.removeAll
                      (mkdirTempPath host es.tempDir unique)) := by
              simp [ExecuteCode, hl, createTempDir, hm, hmt, executeInDir, hprep]
            rw [hexec2] at hexec ⊢
            simp only [Prod.mk.injEq, Outcome.returned.injEq] at hexec
            rw [← hexec.1.2, ← hexec.2]

theorem buildTestResult_agree (tc : TestCase) (raw1 raw2 : RawOutcome)
    (ho : raw1.output = raw2.output) (hd : raw1.deadlineExceeded = raw2.deadlineExceeded)
    (he : raw1.err = raw2.err) :
    (buildTestResult tc raw1).Passed = (buildTestResult tc raw2).Passed ∧
    (buildTestResult tc raw1).ActualOutput = (buildTestResult tc raw2).ActualOutput ∧
    (buildTestResult tc raw1).ExpectedOutput = (buildTestResult tc raw2).ExpectedOutput := by
  unfold buildTestResult
  rw [ho, hd, he]
  split
  · exact ⟨rfl, rfl, rfl⟩
  · split <;> exact ⟨rfl, rfl, rfl⟩

/-- Two loops over the same test cases whose runs differ in the elapsed times
only are left in the same way with results that agree on the verdict. -/
theorem runTestCases_sameVerdict (es : ExecutionService) (host1 host2 : Host)
    (execDir1 codeFile1 execDir2 codeFile2 language : String)
    (hinput : ∀ i, host1.writeInputFile i = host2.writeInputFile i)
    (hruns : ∀ i, (host1.run i).output = (host2.run i).output ∧
      (host1.run i).deadlineExceeded = (host2.run i).deadlineExceeded ∧
      (host1.run i).err = (host2.run i).err)
    (tcs : List TestCase) :
    ∀ (i : Nat) (s1 s2 : LoopState) (w1 w2 : World), sameVerdict s1.result s2.result →
      (∃ r1 r2 v1 v2,
        runTestCases es host1 execDir1 codeFile1 language i tcs s1 w1 = (.returned r1, v1) ∧
        runTestCases es host2 execDir2 codeFile2 language i tcs s2 w2 = (.returned r2, v2) ∧
        sameVerdict r1 r2) ∨
      (∃ t1 t2 v1 v2,
        runTestCases es host1 execDir1 codeFile1 language i tcs s1 w1 = (.finished t1, v1) ∧
        runTestCases es host2 execDir2 codeFile2 language i tcs s2 w2 = (.finished t2, v2) ∧
        sameVerdict t1.result t2.result) := by
  induction tcs with
  | nil =>
    intro i s1 s2 w1 w2 hs
    exact Or.inr ⟨s1, s2, w1, w2, rfl, rfl, hs⟩
  | cons tc rest ih =>
    intro i s1 s2 w1 w2 hs
    obtain ⟨hst, hpassed, hmsg, htotal, hres⟩ := hs
    cases hw1 : host1.writeInputFile i with
    | some e =>
      have hw2 : host2.writeInputFile i = some e := by rw [← hinput i, hw1]
      left
      refine ⟨_, _, _, _,
        runTestCases_write_failed_head es host1 execDir1 codeFile1 language i tc rest s1 w1 e hw1,
        runTestCases_write_failed_head es host2 execDir2 codeFile2 language i tc rest s2 w2 e hw2,
        ?_⟩
      exact ⟨rfl, hpassed, rfl, htotal, hres⟩
    | none =>
      have hw2 : host2.writeInputFile i = none := by rw [← hinput i, hw1]
      obtain ⟨ho, hd, he⟩ := hruns i
      obtain ⟨hp, ha, hx⟩ := buildTestResult_agree tc (host1.run i) (host2.run i) ho hd he
      cases hp1 : (buildTestResult tc (host1.run i)).Passed with
      | false =>
        have hp2 : (buildTestResult tc (host2.run i)).Passed = false := by rw [← hp, hp1]
        right
        refine ⟨_, _, _, _,
          runTestCases_fail_head es host1 execDir1 codeFile1 language i tc rest s1 w1 hw1 hp1,
          runTestCases_fail_head es host2 execDir2 codeFile2 language i tc rest s2 w2 hw2 hp2,
          ?_⟩
        refine ⟨by simp only [ha], hpassed, by simp only [ha, hx], htotal, ?_⟩
        simp only [List.map_append, List.map_cons, List.map_nil, hres, hp, ha]
      | true =>
        have hp2 : (buildTestResult tc (host2.run i)).Passed = true := by rw [← hp, hp1]
        simp only [runTestCases, executeTestCase_run _ _ _ _ _ _ _ _ hw1,
          executeTestCase_run _ _ _ _ _ _ _ _ hw2, hp1, hp2, if_true]
        apply ih
        refine ⟨hst, by simp only [hpassed], hmsg, htotal, ?_⟩
        simp only [List.map_append, List.map_cons, List.map_nil, hres, hp, ha]

theorem getElem?_of_map_eq {α β : Type} (f : α → β) (l1 l2 : List α)
    (h : l1.map f = l2.map f) (j : Nat) (a b : α)
    (ha : l1[j]? = some a) (hb : l2[j]? = some b) : f a = f b := by
  have hj := congrArg (fun l => l[j]?) h
  simp only [List.getElem?_map, ha, hb, Option.map_some', Option.some.injEq] at hj
  exact hj

/-- C20: two calls of `ExecuteCode` with the same service, code, language and
test cases, on hosts that answer alike but for the elapsed times of the runs
(and for the name of the execution directory and the texts of the set-up
errors), end alike: both panic, or both return results with the same status,
passed count, error message and number of test results, and with the same
pass flag and actual output in every test result. -/
theorem verdict_independent_of_elapsed_time (es : ExecutionService) (host1 host2 : Host)
    (w1 w2 : World) (code language : String) (testCases : List TestCase)
    (hlower : host1.unicodeToLower = host2.unicodeToLower)
    (hmkdir : host1.mkdirAll.isNone = host2.mkdirAll.isNone)
    (htemp : host1.mkdirTemp.toBool = host2.mkdirTemp.toBool)
    (hcode : host1.writeCodeFile.isNone = host2.writeCodeFile.isNone)
    (hinput : ∀ i, host1.writeInputFile i = host2.writeInputFile i)
    (hruns : ∀ i, (host1.run i).output = (host2.run i).output ∧
      (host1.run i).deadlineExceeded = (host2.run i).deadlineExceeded ∧
      (host1.run i).err = (host2.run i).err) :
    (∃ msg, (ExecuteCode es host1 w1 code language testCases).1 = .panicked msg ∧
      (ExecuteCode es host2 w2 code language testCases).1 = .panicked msg) ∨
    (∃ r1 r2 e1 e2,
      (ExecuteCode es host1 w1 code language testCases).1 = .returned r1 e1 ∧
      (ExecuteCode es host2 w2 code language testCases).1 = .returned r2 e2 ∧
      r1.Status = r2.Status ∧ r1.TestCasesPassed = r2.TestCasesPassed ∧
      r1.ErrorMessage = r2.ErrorMessage ∧
      r1.TestResults.length = r2.TestResults.length ∧
      (∀ (j : Nat) (tr1 tr2 : TestResult),
        r1.TestResults[j]? = some tr1 → r2.TestResults[j]? = some tr2 →
        tr1.Passed = tr2.Passed ∧ tr1.ActualOutput = tr2.ActualOutput)) := by
  have hfinish : ∀ r1 r2 e1 e2,
      (ExecuteCode es host1 w1 code language testCases).1 = .returned r1 e1 →
      (ExecuteCode es host2 w2 code language testCases).1 = .returned r2 e2 →
      sameVerdict r1 r2 →
      ∃ r1 r2 e1 e2,
        (ExecuteCode es host1 w1 code language testCases).1 = .returned r1 e1 ∧
        (ExecuteCode es host2 w2 code language testCases).1 = .returned r2 e2 ∧
        r1.Status = r2.Status ∧ r1.TestCasesPassed = r2.TestCasesPassed ∧
        r1.ErrorMessage = r2.ErrorMessage ∧
        r1.TestResults.length = r2.TestResults.length ∧
        (∀ (j : Nat) (tr1 tr2 : TestResult),
        r1.TestResults[j]? = some tr1 → r2.TestResults[j]? = some tr2 →
          tr1.Passed = tr2.Passed ∧ tr1.ActualOutput = tr2.ActualOutput) := by
    intro r1 r2 e1 e2 hx1 hx2 hsame
    obtain ⟨hst, hpassed, hmsg, _, hres⟩ := hsame
    refine ⟨r1, r2, e1, e2, hx1, hx2, hst, hpassed, hmsg, ?_, ?_⟩
    · have := congrArg List.length hres
      simpa using this
    · intro j tr1 tr2 h1 h2
      have := getElem?_of_map_eq (fun tr : TestResult => (tr.Passed, tr.ActualOutput))
        r1.TestResults r2.TestResults hres j tr1 tr2 h1 h2
      simp only [Prod.mk.injEq] at this
      exact this
  have hsetup : setupOk host1 code language = setupOk host2 code language := by
    simp only [setupOk, hlower, hmkdir, htemp, hcode]
  cases hs1 : setupOk host1 code language with
  | false =>
    have hs2 : setupOk host2 code language = false := by rw [← hsetup, hs1]
    obtain ⟨e1, v1, hx1⟩ :=
      ExecuteCode_setup_failed_result es host1 w1 code language testCases hs1
    obtain ⟨e2, v2, hx2⟩ :=
      ExecuteCode_setup_failed_result es host2 w2 code language testCases hs2
    have hmsg : setupFailureMessage host1 language = setupFailureMessage host2 language := by
      simp only [setupFailureMessage, hmkdir, htemp]
    right
    exact hfinish
      { Status := StatusInternalError, ErrorMessage := setupFailureMessage host1 language }
      { Status := StatusInternalError, ErrorMessage := setupFailureMessage host2 language }
      e1 e2 (by rw [hx1]) (by rw [hx2]) ⟨rfl, rfl, hmsg, rfl, rfl⟩
  | true =>
    have hs2 : setupOk host2 code language = true := by rw [← hsetup, hs1]
    obtain ⟨execDir1, codeFile1, finalCode1, hx1⟩ :=
      ExecuteCode_of_setupOk es host1 w1 code language testCases hs1
    obtain ⟨execDir2, codeFile2, finalCode2, hx2⟩ :=
      ExecuteCode_of_setupOk es host2 w2 code language testCases hs2
    rcases runTestCases_sameVerdict es host1 host2 execDir1 codeFile1 execDir2 codeFile2 language
        hinput hruns testCases 0
        { result := { TotalTestCases := testCases.length, TestResults := [] } }
        { result := { TotalTestCases := testCases.length, TestResults := [] } }
        (((w1.mkdirAll es.tempDir).mkdirTemp execDir1).writeFile codeFile1 finalCode1)
        (((w2.mkdirAll es.tempDir).mkdirTemp execDir2).writeFile codeFile2 finalCode2)
        ⟨rfl, rfl, rfl, rfl, rfl⟩ with
      ⟨r1, r2, v1, v2, hr1, hr2, hsame⟩ | ⟨t1, t2, v1, v2, hr1, hr2, hsame⟩
    · rw [hr1] at hx1
      rw [hr2] at hx2
      right
      exact hfinish r1 r2 none none (by rw [hx1]; rfl) (by rw [hx2]; rfl) hsame
    · rw [hr1] at hx1
      rw [hr2] at hx2
      by_cases hlen : testCases.length = 0
      · left
        exact ⟨"runtime error: integer divide by zero",
          by rw [hx1]; simp [conclude, hlen], by rw [hx2]; simp [conclude, hlen]⟩
      · right
        obtain ⟨hst, hpassed, hmsg, htotal, hres⟩ := hsame
        by_cases hall : t1.result.TestCasesPassed = t1.result.TotalTestCases
        · have hall2 : t2.result.TestCasesPassed = t2.result.TotalTestCases := by
            rw [← hpassed, ← htotal]; exact hall
          exact hfinish
            { t1.result with
              Status := StatusAccepted
              RuntimeMs := t1.totalRuntime / testCases.length
              MemoryKb := t1.maxMemory }
            { t2.result with
              Status := StatusAccepted
              RuntimeMs := t2.totalRuntime / testCases.length
              MemoryKb := t2.maxMemory }
            none none (by rw [hx1]; simp [conclude, hlen, hall])
            (by rw [hx2]; simp [conclude, hlen, hall2])
            ⟨rfl, hpassed, hmsg, htotal, hres⟩
        · have hall2 : ¬ t2.result.TestCasesPassed = t2.result.TotalTestCases := by
            rw [← hpassed, ← htotal]; exact hall
          exact hfinish
            { t1.result with
              RuntimeMs := t1.totalRuntime / testCases.length
              MemoryKb := t1.maxMemory }
            { t2.result with
              RuntimeMs := t2.totalRuntime / testCases.length
              MemoryKb := t2.maxMemory }
            none none (by rw [hx1]; simp [conclude, hlen, hall])
            (by rw [hx2]; simp [conclude, hlen, hall2])
            ⟨hst, hpassed, hmsg, htotal, hres⟩

/-- Witness of C20: the same failing run measured at 100 ms and at 3 ms. -/
theorem verdict_independent_of_elapsed_time_witness :
    (∃ msg, (ExecuteCode NewExecutionService
        (okHost (runsOf [{ output := "41\n", elapsedMs := 100 }])) {} sampleCode "python"
        [sampleTest]).1 = .panicked msg ∧
      (ExecuteCode NewExecutionService
        (okHost (runsOf [{ output := "41\n", elapsedMs := 3 }])) {} sampleCode "python"
        [sampleTest]).1 = .panicked msg) ∨
    (∃ r1 r2 e1 e2,
      (ExecuteCode NewExecutionService
        (okHost (runsOf [{ output := "41\n", elapsedMs := 100 }])) {} sampleCode "python"
        [sampleTest]).1 = .returned r1 e1 ∧
      (ExecuteCode NewExecutionService
        (okHost (runsOf [{ output := "41\n", elapsedMs := 3 }])) {} sampleCode "python"
        [sampleTest]).1 = .returned r2 e2 ∧
      r1.Status = r2.Status ∧ r1.TestCasesPassed = r2.TestCasesPassed ∧
      r1.ErrorMessage = r2.ErrorMessage ∧
      r1.TestResults.length = r2.TestResults.length ∧
      (∀ (j : Nat) (tr1 tr2 : TestResult),
        r1.TestResults[j]? = some tr1 → r2.TestResults[j]? = some tr2 →
        tr1.Passed = tr2.Passed ∧ tr1.ActualOutput = tr2.ActualOutput)) :=
  verdict_independent_of_elapsed_time NewExecutionService
    (okHost (runsOf [{ output := "41\n", elapsedMs := 100 }]))
    (okHost (runsOf [{ output := "41\n", elapsedMs := 3 }])) {} {} sampleCode "python"
    [sampleTest] rfl rfl rfl rfl (fun _ => rfl)
    (fun i => by cases i <;> simp [okHost, runsOf])

/-! ## Removal of the execution directory -/

theorem runTestCases_log_extends (es : ExecutionService) (host : Host)
    (execDir codeFile language : String) (tcs : List TestCase) :
    ∀ (i : Nat) (s : LoopState) (w : World),
      ∃ events, (runTestCases es host execDir codeFile language i tcs s w).2.log
        = w.log ++ events := by
  induction tcs with
  | nil => intro i s w; exact ⟨[], by simp [runTestCases]⟩
  | cons tc rest ih =>
    intro i s w
    cases hw : host.writeInputFile i with
    | some e =>
      rw [runTestCases_write_failed_head es host execDir codeFile language i tc rest s w e hw]
      exact ⟨[], by simp⟩
    | none =>
      cases hp : (buildTestResult tc (host.run i)).Passed with
      | false =>
        rw [runTestCases_fail_head es host execDir codeFile language i tc rest s w hw hp]
        exact ⟨_, runStep_log es w execDir codeFile language tc⟩
      | true =>
        simp only [runTestCases, executeTestCase_run _ _ _ _ _ _ _ _ hw, hp, if_true]
        obtain ⟨events, hev⟩ := ih (i + 1)
          { result :=
              { s.result with
                TestResults := s.result.TestResults ++ [buildTestResult tc (host.run i)]
                TestCasesPassed := s.result.TestCasesPassed + 1 }
            totalRuntime := s.totalRuntime + (buildTestResult tc (host.run i)).RuntimeMs
            maxMemory :=
              if (buildTestResult tc (host.run i)).MemoryKb > s.maxMemory then
                (buildTestResult tc (host.run i)).MemoryKb
              else s.maxMemory }
          ((w.writeFile (Join execDir "input.txt") tc.Input).dockerRun
            (buildDockerCommand es execDir codeFile language))
        refine ⟨runEvents es execDir codeFile language tc ++ events, ?_⟩
        rw [hev, runStep_log, List.append_assoc]

theorem prepareCodeFile_log_extends (es : ExecutionService) (host : Host) (w : World)
    (execDir code language : String) :
    ∃ events, (prepareCodeFile es host w execDir code language).2.log = w.log ++ events := by
  cases hv : validateCode host.unicodeToLower code language with
  | some e => exact ⟨[], by simp [prepareCodeFile, hv]⟩
  | none =>
    by_cases h1 : language = LanguageJavaScript
    · cases hc : host.writeCodeFile with
      | some e => exact ⟨[], by simp only [prepareCodeFile, hv]; simp [hc, h1, LanguageJavaScript, LanguagePython, LanguageJava]⟩
      | none =>
        exact ⟨[Event.writeFile (Join execDir "solution.js") (wrapJavaScriptCode code)], by
          simp only [prepareCodeFile, hv]; simp [hc, h1, World.writeFile, LanguageJavaScript, LanguagePython, LanguageJava]⟩
    · by_cases h2 : language = LanguagePython
      · cases hc : host.writeCodeFile with
        | some e => exact ⟨[], by simp only [prepareCodeFile, hv]; simp [hc, h1, h2, LanguageJavaScript, LanguagePython, LanguageJava]⟩
        | none =>
          exact ⟨[Event.writeFile (Join execDir "solution.py") (wrapPythonCode code)], by
            simp only [prepareCodeFile, hv]; simp [hc, h1, h2, World.writeFile, LanguageJavaScript, LanguagePython, LanguageJava]⟩
      · by_cases h3 : language = LanguageJava
        · cases hc : host.writeCodeFile with
          | some e => exact ⟨[], by simp only [prepareCodeFile, hv]; simp [hc, h1, h2, h3, LanguageJavaScript, LanguagePython, LanguageJava]⟩
          | none =>
            exact ⟨[Event.writeFile (Join execDir "Solution.java") (wrapJavaCode code)], by
              simp only [prepareCodeFile, hv]; simp [hc, h1, h2, h3, World.writeFile, LanguageJavaScript, LanguagePython, LanguageJava]⟩
        · exact ⟨[], by simp only [prepareCodeFile, hv]; simp [h1, h2, h3]⟩

theorem executeInDir_log_extends (es : ExecutionService) (host : Host) (w : World)
    (execDir code language : String) (tcs : List TestCase) :
    ∃ events, (executeInDir es host w execDir code language tcs).2.log = w.log ++ events := by
  obtain ⟨ev1, h1⟩ := prepareCodeFile_log_extends es host w execDir code language
  rcases hp : prepareCodeFile es host w execDir code language with ⟨res, w1⟩
  rw [hp] at h1
  cases res with
  | error e => exact ⟨ev1, by simp only [executeInDir, hp]; exact h1⟩
  | ok codeFile =>
    obtain ⟨ev2, h2⟩ := runTestCases_log_extends es host execDir codeFile language tcs 0
      { result := { TotalTestCases := tcs.length, TestResults := [] } } w1
    rcases hr : runTestCases es host execDir codeFile language 0 tcs
      { result := { TotalTestCases := tcs.length, TestResults := [] } } w1 with ⟨exit, w2⟩
    rw [hr] at h2
    refine ⟨ev1 ++ ev2, ?_⟩
    have hw2 : w2.log = w.log ++ (ev1 ++ ev2) := by
      rw [← List.append_assoc]
      simp only at h1 h2
      rw [h2, h1]
    simp only [executeInDir, hp, hr]
    cases exit with
    | returned r => exact hw2
    | finished s' =>
      by_cases hlen : tcs.length = 0
      · simp only [hlen, if_true]; exact hw2
      · simp only [hlen, if_false]; exact hw2

theorem isUnder_self (path : String) : isUnder path path = true := by
  simp [isUnder]

/-! ## The verdict of a failing run -/

/-- C29: when the first test case that does not pass is run, the status is
drawn from its actual output alone, by substring tests in this order:
`timeout`, then `memory`, then `error` or `Error`, else `Wrong Answer`; and
when every test case passes the status is `Accepted`, whatever the outputs
contain. -/
theorem verdict_by_substring_precedence (es : ExecutionService) (host : Host) (w : World)
    (code language : String) (pre : List TestCase)
    (hsetup : setupOk host code language = true)
    (hpre : allPassFrom host 0 pre = true) :
    (∀ (tc : TestCase) (post : List TestCase), host.writeInputFile pre.length = none →
      (buildTestResult tc (host.run pre.length)).Passed = false →
      ∃ r, (ExecuteCode es host w code language (pre ++ tc :: post)).1 = .returned r none ∧
        r.TestResults.getLast? = some (buildTestResult tc (host.run pre.length)) ∧
        r.Status =
          if Contains (buildTestResult tc (host.run pre.length)).ActualOutput "timeout" then
            StatusTimeLimitExceeded
          else if Contains (buildTestResult tc (host.run pre.length)).ActualOutput "memory" then
            StatusMemoryLimitExceeded
          else if Contains (buildTestResult tc (host.run pre.length)).ActualOutput "error" ∨
              Contains (buildTestResult tc (host.run pre.length)).ActualOutput "Error" then
            StatusRuntimeError
          else StatusWrongAnswer) ∧
    (pre ≠ [] →
      ∃ r, (ExecuteCode es host w code language pre).1 = .returned r none ∧
        r.Status = StatusAccepted) := by
  constructor
  · intro tc post hw hp
    obtain ⟨r, w', _, _, _, hexec, hstatus, _, _, _, hres, _⟩ :=
      ExecuteCode_first_failure es host w code language pre tc post hsetup hpre hw hp
    refine ⟨r, by rw [hexec], by rw [hres]; simp, ?_⟩
    rw [hstatus]
    simp only [failureStatus, Bool.or_eq_true]
  · intro hne
    obtain ⟨r, w', _, _, _, hexec, hstatus, _⟩ :=
      ExecuteCode_all_pass es host w code language pre hsetup hne hpre
    exact ⟨r, by rw [hexec], hstatus⟩

/-- Witness of C29: a passing test case whose output is the word `timeout`,
followed by a normally completed run that prints `TIMEOUT, out of memory`:
the test is case-sensitive, so the status is `Memory Limit Exceeded`. -/
theorem verdict_by_substring_precedence_witness :
    (∃ r, (ExecuteCode NewExecutionService
        (okHost (runsOf [{ output := "timeout" }, { output := "TIMEOUT, out of memory" }])) {}
        sampleCode "python"
        ([{ Input := "1", ExpectedOutput := "timeout" }] ++ sampleTest :: [])).1
        = .returned r none ∧ r.Status = StatusMemoryLimitExceeded) ∧
    (∃ r, (ExecuteCode NewExecutionService
        (okHost (runsOf [{ output := "timeout" }, { output := "TIMEOUT, out of memory" }])) {}
        sampleCode "python" [{ Input := "1", ExpectedOutput := "timeout" }]).1
        = .returned r none ∧ r.Status = StatusAccepted) :=
  ⟨by
    obtain ⟨r, hr, _, hst⟩ :=
      (verdict_by_substring_precedence NewExecutionService
        (okHost (runsOf [{ output := "timeout" }, { output := "TIMEOUT, out of memory" }])) {}
        sampleCode "python" [{ Input := "1", ExpectedOutput := "timeout" }]
        (by decide) (by decide)).1 sampleTest [] (by decide) (by decide)
    exact ⟨r, hr, by rw [hst]; decide⟩,
   (verdict_by_substring_precedence NewExecutionService
      (okHost (runsOf [{ output := "timeout" }, { output := "TIMEOUT, out of memory" }])) {}
      sampleCode "python" [{ Input := "1", ExpectedOutput := "timeout" }]
      (by decide) (by decide)).2 (by decide)⟩

/-! ## Totality -/

/-- C30: on a non-empty list of test cases `ExecuteCode` always returns, the
division being by the length of the list; on the empty list, once the set-up
has succeeded (supported language, valid code, directory and code file
written), it reaches the division by zero and panics instead of returning, as
it does for the sample code on the sample host. -/
theorem total_on_nonempty_test_list (es : ExecutionService) (host : Host) (w : World)
    (code language : String) (testCases : List TestCase) :
    (testCases ≠ [] →
      ∃ r err, (ExecuteCode es host w code language testCases).1 = .returned r err) ∧
    (setupOk host code language = true →
      (ExecuteCode es host w code language []).1
        = .panicked "runtime error: integer divide by zero") ∧
    (ExecuteCode NewExecutionService (okHost (runsOf [])) {} sampleCode "python" []).1
      = .panicked "runtime error: integer divide by zero" := by
  refine ⟨?_, ?_, by decide⟩
  · intro hne
    cases hs : setupOk host code language with
    | false =>
      obtain ⟨r, err, w', events, hexec, _⟩ :=
        ExecuteCode_setup_failed es host w code language testCases hs
      exact ⟨r, err, by rw [hexec]⟩
    | true =>
      obtain ⟨execDir, codeFile, finalCode, hexec⟩ :=
        ExecuteCode_of_setupOk es host w code language testCases hs
      rw [hexec]
      have hlen : testCases.length ≠ 0 := by simpa using hne
      rcases runTestCases es host execDir codeFile language 0 testCases
        { result := { TotalTestCases := testCases.length, TestResults := [] } }
        (((w.mkdirAll es.tempDir).mkdirTemp execDir).writeFile codeFile finalCode) with ⟨exit, w2⟩
      cases exit with
      | returned r => exact ⟨r, none, rfl⟩
      | finished s' =>
        simp only [conclude, hlen, if_false]
        exact ⟨_, _, rfl⟩
  · intro hs
    obtain ⟨w', hexec⟩ := ExecuteCode_empty_panics es host w code language hs
    rw [hexec]

/-! ## Paths -/

theorem splitSlash_ne_nil (l : List Char) : splitSlash l ≠ [] := by
  cases l with
  | nil => simp [splitSlash]
  | cons c cs =>
    simp only [splitSlash]
    split
    · simp
    · split <;> simp

theorem splitSlash_plain (name : List Char) (h : ∀ c ∈ name, c ≠ '/') :
    splitSlash name = [name] := by
  induction name with
  | nil => rfl
  | cons c cs ih =>
    have hc : c ≠ '/' := h c (by simp)
    have hcs := ih (fun x hx => h x (by simp [hx]))
    simp [splitSlash, hc, hcs]

theorem splitSlash_append_slash (p name : List Char) (h : ∀ c ∈ name, c ≠ '/') :
    splitSlash (p ++ '/' :: name) = splitSlash p ++ [name] := by
  induction p with
  | nil => simp [splitSlash, splitSlash_plain name h]
  | cons c cs ih =>
    by_cases hc : c = '/'
    · simp [splitSlash, hc, ih]
    · simp only [List.cons_append, splitSlash, hc, if_false, ih]
      cases hs : splitSlash cs with
      | nil => exact absurd hs (splitSlash_ne_nil cs)
      | cons x xs =>
        show (match splitSlash (cs ++ '/' :: name) with
          | [] => [[c]]
          | h :: t => (c :: h) :: t) = _
        rw [ih, hs]
        simp

theorem intercalate_cons_cons (sep x y : List Char) (zs : List (List Char)) :
    List.intercalate sep (x :: y :: zs) = x ++ sep ++ List.intercalate sep (y :: zs) := by
  simp [List.intercalate, List.intersperse]

theorem intercalate_append_last (xs : List (List Char)) (name : List Char) :
    ∃ q, List.intercalate ['/'] (xs ++ [name]) = q ++ name ∧
      (q = [] ∨ ∃ q', q = q' ++ ['/']) := by
  induction xs with
  | nil => exact ⟨[], by simp [List.intercalate, List.intersperse], Or.inl rfl⟩
  | cons x rest ih =>
    obtain ⟨q, hq, hend⟩ := ih
    cases hr : rest ++ [name] with
    | nil => simp at hr
    | cons y zs =>
      refine ⟨x ++ ['/'] ++ q, ?_, ?_⟩
      · rw [List.cons_append, hr, intercalate_cons_cons, ← hr, hq]
        simp
      · rcases hend with hq0 | ⟨q', hq'⟩
        · right; exact ⟨x, by simp [hq0]⟩
        · right; exact ⟨x ++ ['/'] ++ q', by simp [hq']⟩

/-- The cleaned path of a directory and a plain file name ends in that name,
which follows the start of the path or a slash. -/
theorem Clean_data_last (l name : List Char)
    (hne : name ≠ [])
    (hdot : name ≠ ['.']) (hdotdot : name ≠ ['.', '.'])
    (hsplit : ∃ pre, splitSlash l = pre ++ [name]) :
    ∃ q, (Clean ⟨l⟩).data = q ++ name ∧ (q = [] ∨ ∃ q', q = q' ++ ['/']) := by
  obtain ⟨pre, hpre⟩ := hsplit
  simp only [Clean, hpre, List.foldl_append, List.foldl_cons, List.foldl_nil]
  have hstep : ∀ (rooted : Bool) (stack : List (List Char)),
      cleanStep rooted stack name = name :: stack := by
    intro rooted stack
    simp [cleanStep, hne, hdot, hdotdot]
  rw [hstep, List.reverse_cons]
  obtain ⟨q, hq, hend⟩ := intercalate_append_last
    (List.foldl (cleanStep (decide (l.head? = some '/'))) [] pre).reverse name
  rw [hq]
  by_cases hroot : l.head? = some '/'
  · simp only [hroot, decide_True, if_true]
    have hout : '/' :: (q ++ name) ≠ [] := by simp
    simp only [hout, if_false]
    refine ⟨'/' :: q, by simp, ?_⟩
    rcases hend with hq0 | ⟨q', hq'⟩
    · right; exact ⟨[], by simp [hq0]⟩
    · right; exact ⟨'/' :: q', by simp [hq']⟩
  · simp only [hroot, decide_False, if_false, Bool.false_eq_true]
    have hout : q ++ name ≠ [] := by simp [hne]
    simp only [hout, if_false]
    exact ⟨q, rfl, hend⟩

theorem Base_of_last (q name : List Char)
    (hne : name ≠ []) (hplain : ∀ c ∈ name, c ≠ '/')
    (hend : q = [] ∨ ∃ q', q = q' ++ ['/']) :
    Base ⟨q ++ name⟩ = ⟨name⟩ := by
  have hdata : q ++ name ≠ [] := by simp [hne]
  have hstrip : ((q ++ name).reverse.dropWhile (fun c => decide (c = '/'))).reverse
      = q ++ name := by
    rw [List.reverse_append]
    cases hrev : name.reverse with
    | nil => simp at hrev; exact absurd hrev hne
    | cons c r =>
      have hc : c ≠ '/' := hplain c (by
        have : c ∈ name.reverse := by rw [hrev]; simp
        simpa using this)
      simp only [List.cons_append, List.dropWhile_cons, hc, decide_False, if_false,
        Bool.false_eq_true]
      rw [← List.cons_append, ← hrev, ← List.reverse_append, List.reverse_reverse]
  have htake : ((q ++ name).reverse.takeWhile (fun c => decide (c ≠ '/'))).reverse = name := by
    rw [List.reverse_append,
      List.takeWhile_append_of_pos (fun c hc => by
        have := hplain c (by simpa using hc)
        simpa using this)]
    rcases hend with hq0 | ⟨q', hq'⟩
    · simp [hq0]
    · simp [hq', List.takeWhile_cons]
  simp only [Base, hdata, if_false, hstrip, htake]

/-- The last element of the path that `Join` builds from a directory and a
plain file name is that name. -/
theorem Base_Join (dir name : String)
    (hne : name.data ≠ []) (hplain : ∀ c ∈ name.data, c ≠ '/')
    (hdot : name.data ≠ ['.']) (hdotdot : name.data ≠ ['.', '.']) :
    Base (Join dir name) = name := by
  have hname : name ≠ "" := by
    intro h
    rw [h] at hne
    exact hne rfl
  have hclean : ∀ l : List Char, (∃ pre, splitSlash l = pre ++ [name.data]) →
      Base (Clean ⟨l⟩) = name := by
    intro l hl
    obtain ⟨q, hq, hend⟩ := Clean_data_last l name.data hne hdot hdotdot hl
    have : Clean ⟨l⟩ = ⟨q ++ name.data⟩ := by
      apply String.ext
      exact hq
    rw [this, Base_of_last q name.data hne hplain hend]
  unfold Join
  by_cases hdir : dir = ""
  · simp only [hdir, if_true, hname, if_false]
    exact hclean name.data ⟨[], by simp [splitSlash_plain name.data hplain]⟩
  · simp only [hdir, if_false, hname]
    have hdata : dir ++ "/" ++ name = ⟨dir.data ++ '/' :: name.data⟩ := by
      apply String.ext
      simp [String.data_append]
    rw [hdata]
    exact hclean _ ⟨splitSlash dir.data, splitSlash_append_slash dir.data name.data hplain⟩

/-! ## Artifact names -/

theorem Base_Join_solution_js (execDir : String) :
    Base (Join execDir "solution.js") = "solution.js" :=
  Base_Join execDir "solution.js" (by decide) (by decide) (by decide) (by decide)

theorem Base_Join_solution_py (execDir : String) :
    Base (Join execDir "solution.py") = "solution.py" :=
  Base_Join execDir "solution.py" (by decide) (by decide) (by decide) (by decide)

theorem Base_Join_Solution_java (execDir : String) :
    Base (Join execDir "Solution.java") = "Solution.java" :=
  Base_Join execDir "Solution.java" (by decide) (by decide) (by decide) (by decide)

/-- C22: for a valid code of any content, `prepareCodeFile` writes the artifact
`solution.js`, `solution.py` or `Solution.java` of the language into the
execution directory; the Java harness opens with the class `Solution`; and for
the path that `prepareCodeFile` returns, the command that `buildDockerCommand`
puts after the isolation profile runs that very file name, for Java compiling
`Solution.java` and launching the class `Solution`. -/
theorem artifact_named_by_language (es : ExecutionService) (host : Host) (w : World)
    (execDir code : String)
    (hv : ∀ language, validateCode host.unicodeToLower code language = none)
    (hc : host.writeCodeFile = none) :
    (prepareCodeFile es host w execDir code "javascript"
      = (.ok (Join execDir "solution.js"),
          w.writeFile (Join execDir "solution.js") (wrapJavaScriptCode code)) ∧
     (buildDockerCommand es execDir (Join execDir "solution.js") "javascript").drop 14
      = ["node:18-alpine", "timeout", toString es.timeoutSeconds ++ "s", "node",
          "solution.js"]) ∧
    (prepareCodeFile es host w execDir code "python"
      = (.ok (Join execDir "solution.py"),
          w.writeFile (Join execDir "solution.py") (wrapPythonCode code)) ∧
     (buildDockerCommand es execDir (Join execDir "solution.py") "python").drop 14
      = ["python:3.11-alpine", "timeout", toString es.timeoutSeconds ++ "s", "python3",
          "solution.py"]) ∧
    (prepareCodeFile es host w execDir code "java"
      = (.ok (Join execDir "Solution.java"),
          w.writeFile (Join execDir "Solution.java") (wrapJavaCode code)) ∧
     (buildDockerCommand es execDir (Join execDir "Solution.java") "java").drop 14
      = ["openjdk:17-alpine", "sh", "-c",
          "javac " ++ "Solution.java" ++ " && timeout " ++ toString es.timeoutSeconds
            ++ "s java " ++ "Solution"] ∧
     ∃ tail, wrapJavaCode code
      = "\nimport java.io.*;\nimport java.util.*;\n\npublic class Solution \x7b\n    "
          ++ code ++ tail) := by
  refine ⟨⟨?_, ?_⟩, ⟨?_, ?_⟩, ⟨?_, ?_, ⟨_, rfl⟩⟩⟩
  · simp only [prepareCodeFile, hv, hc]
    simp [LanguageJavaScript]
  · simp [buildDockerCommand, LanguageJavaScript, Base_Join_solution_js]
  · simp only [prepareCodeFile, hv, hc]
    simp [LanguageJavaScript, LanguagePython]
  · simp [buildDockerCommand, LanguageJavaScript, LanguagePython, Base_Join_solution_py]
  · simp only [prepareCodeFile, hv, hc]
    simp [LanguageJavaScript, LanguagePython, LanguageJava]
  · have htrim : TrimSuffix "Solution.java" ".java" = "Solution" := by decide
    simp [buildDockerCommand, LanguageJavaScript, LanguagePython, LanguageJava,
      Base_Join_Solution_java, htrim]

/-- Witness of C22: the sample code on the sample host, in the directory `exec-1`. -/
theorem artifact_named_by_language_witness :
    (buildDockerCommand NewExecutionService "/tmp/leetcode-execution/exec-1"
        (Join "/tmp/leetcode-execution/exec-1" "Solution.java") "java").drop 14
      = ["openjdk:17-alpine", "sh", "-c",
          "javac " ++ "Solution.java" ++ " && timeout "
            ++ toString NewExecutionService.timeoutSeconds ++ "s java " ++ "Solution"] :=
  (artifact_named_by_language NewExecutionService (okHost (runsOf [])) {}
    "/tmp/leetcode-execution/exec-1" sampleCode
    (fun _ => (by decide : validateCode Char.toLower sampleCode "java" = none)) rfl).2.2.2.1

/-! ## The submission service -/

theorem publicTestResultsFrom_eq (testCases : List TestCase) (results : List TestResult) :
    ∀ (i : Nat) (kept : List TestResult),
      publicTestResultsFrom testCases i results kept
        = kept ++ publicResultsSpec (testCases.drop i) results := by
  induction results with
  | nil => intro i kept; simp [publicTestResultsFrom, publicResultsSpec]
  | cons tr rest ih =>
    intro i kept
    cases hi : testCases[i]? with
    | none =>
      have hlen : testCases.length ≤ i := List.getElem?_eq_none_iff.mp hi
      have hdrop : testCases.drop i = [] := List.drop_eq_nil_of_le hlen
      have hdrop1 : testCases.drop (i + 1) = [] := List.drop_eq_nil_of_le (by omega)
      have := ih (i + 1) kept
      simp only [publicTestResultsFrom, hi, this, hdrop, hdrop1]
      simp [publicResultsSpec]
    | some tc =>
      obtain ⟨hlt, hget⟩ := List.getElem?_eq_some_iff.mp hi
      have hdrop : testCases.drop i = tc :: testCases.drop (i + 1) := by
        rw [← hget]; exact List.drop_eq_getElem_cons hlt
      simp only [publicTestResultsFrom, hi, hdrop, ih]
      cases hh : tc.IsHidden <;> simp [publicResultsSpec, hh]

theorem publicTestResults_eq (testCases : List TestCase) (results : List TestResult) :
    publicTestResults testCases results = publicResultsSpec testCases results := by
  simp [publicTestResults, publicTestResultsFrom_eq]

/-- C23: the test results that `ProcessSubmission` and the handler `SubmitCode`
put into their response are the execution results at the positions whose test
case is not hidden, in their order: whenever the execution returns a result and
the submission is stored, the response carries exactly `publicResultsSpec`, in
which every entry is the result at a position `i` with `testCases[i]` public. -/
theorem response_keeps_public_results (testCases : List TestCase) (result : ExecutionResult)
    (hne : testCases.length ≠ 0) :
    publicTestResults testCases result.TestResults
      = publicResultsSpec testCases result.TestResults ∧
    (∀ tr ∈ publicResultsSpec testCases result.TestResults, ∃ (i : Nat) (testCase : TestCase),
      result.TestResults[i]? = some tr ∧ testCases[i]? = some testCase ∧
        testCase.IsHidden = false) ∧
    (∀ (deps : SubmissionDeps) (req : SubmissionRequest) (created : Submission),
      validateSubmissionRequest req = none →
      deps.getTestCases req.ProblemID = .ok testCases →
      deps.executeCode req.Code req.Language testCases = .returned result none →
      deps.createSubmission
        { UserID := req.UserID
          ProblemID := req.ProblemID
          Language := req.Language
          Code := req.Code
          Status := result.Status
          TestCasesPassed := result.TestCasesPassed
          TotalTestCases := result.TotalTestCases
          RuntimeMs := if result.RuntimeMs > 0 then some result.RuntimeMs else none
          MemoryKb := if result.MemoryKb > 0 then some result.MemoryKb else none
          ErrorMessage := if result.ErrorMessage ≠ "" then some result.ErrorMessage else none }
        = .ok created →
      ∃ r, ProcessSubmission deps req = .response r ∧
        r.TestResults = publicResultsSpec testCases result.TestResults) ∧
    (∀ (getTestCases : Int → Except String (List TestCase))
        (executeCode : String → String → List TestCase → Outcome) (req : ExecuteCodeRequest),
      getTestCases req.ProblemID = .ok testCases →
      executeCode req.Code req.Language testCases = .returned result none →
      ∃ r, SubmitCode getTestCases executeCode (some req) = .ok r ∧
        r.TestResults = publicResultsSpec testCases result.TestResults) := by
  refine ⟨publicTestResults_eq _ _, ?_, ?_, ?_⟩
  · intro tr htr
    simp only [publicResultsSpec, List.mem_map, List.mem_filter] at htr
    obtain ⟨⟨tr1, tc⟩, ⟨hmem, hhid⟩, rfl⟩ := htr
    obtain ⟨i, hi⟩ := List.getElem?_of_mem hmem
    rw [List.getElem?_zip_eq_some] at hi
    exact ⟨i, tc, hi.1, hi.2, by simpa using hhid⟩
  · intro deps req created hv htc hex hcreate
    simp only [ProcessSubmission, hv, htc, hne, if_false, hex, hcreate]
    exact ⟨_, rfl, publicTestResults_eq _ _⟩
  · intro getTestCases executeCode req htc hex
    simp only [SubmitCode, htc, hne, if_false, hex]
    exact ⟨_, rfl, publicTestResults_eq _ _⟩

/-- Witness of C23: of the two results of a hidden and a public test case, the
response keeps the second one. -/
theorem response_keeps_public_results_witness :
    [hiddenTest "7", sampleTest].length ≠ 0 ∧
    publicTestResults [hiddenTest "7", sampleTest]
        [{ Input := "1", ExpectedOutput := "7", ActualOutput := "7", Passed := true },
         { Input := "1", ExpectedOutput := "42", ActualOutput := "42", Passed := true }]
      = [{ Input := "1", ExpectedOutput := "42", ActualOutput := "42", Passed := true }] :=
  ⟨by decide,
    (response_keeps_public_results [hiddenTest "7", sampleTest]
      { TestResults :=
          [{ Input := "1", ExpectedOutput := "7", ActualOutput := "7", Passed := true },
           { Input := "1", ExpectedOutput := "42", ActualOutput := "42", Passed := true }] }
      (by decide)).1⟩

theorem Contains_prefix (head tail : String) : Contains (head ++ tail) head = true := by
  have h := Contains_infix "" head tail
  simpa using h

/-- C25: `validateSubmissionRequest` accepts a request exactly when the user
and the problem identifier are positive, the code is not empty and the language
is `javascript`, `python` or `java`; otherwise its error is that of the first
rule violated, in this order; and on a rejected request `ProcessSubmission`
gives no response but an error that contains `invalid submission request`. -/
theorem submission_request_validation (req : SubmissionRequest) :
    (validateSubmissionRequest req = none ↔
      0 < req.UserID ∧ 0 < req.ProblemID ∧ req.Code ≠ "" ∧
        (req.Language = "javascript" ∨ req.Language = "python" ∨ req.Language = "java")) ∧
    (req.UserID ≤ 0 → validateSubmissionRequest req = some "invalid user ID") ∧
    (0 < req.UserID → req.ProblemID ≤ 0 →
      validateSubmissionRequest req = some "invalid problem ID") ∧
    (0 < req.UserID → 0 < req.ProblemID → req.Code = "" →
      validateSubmissionRequest req = some "code cannot be empty") ∧
    (0 < req.UserID → 0 < req.ProblemID → req.Code ≠ "" → req.Language = "" →
      validateSubmissionRequest req = some "language cannot be empty") ∧
    (0 < req.UserID → 0 < req.ProblemID → req.Code ≠ "" → req.Language ≠ "" →
      ¬ (req.Language = "javascript" ∨ req.Language = "python" ∨ req.Language = "java") →
      validateSubmissionRequest req = some ("unsupported language: " ++ req.Language)) ∧
    (∀ (deps : SubmissionDeps) (err : String), validateSubmissionRequest req = some err →
      ProcessSubmission deps req = .failed ("invalid submission request: " ++ err) ∧
      Contains ("invalid submission request: " ++ err) "invalid submission request" = true) := by
  have hlang : ("" : String) ≠ "javascript" ∧ ("" : String) ≠ "python" ∧ ("" : String) ≠ "java" := by
    decide
  refine ⟨?_, ?_, ?_, ?_, ?_, ?_, ?_⟩
  · by_cases hu : req.UserID ≤ 0
    · simp [validateSubmissionRequest, hu, not_lt.mpr hu]
    · by_cases hp : req.ProblemID ≤ 0
      · simp [validateSubmissionRequest, hu, hp, not_lt.mpr hp]
      · by_cases hc : req.Code = ""
        · simp [validateSubmissionRequest, hu, hp, hc]
        · by_cases hl : req.Language = ""
          · simp [validateSubmissionRequest, hu, hp, hc, hl, hlang]
          · simp only [validateSubmissionRequest, hu, hp, hc, hl, if_false]
            simp only [LanguageJavaScript, LanguagePython, LanguageJava, List.any_cons,
              List.any_nil, Bool.or_false, Bool.not_eq_true, not_le.mp hu, not_le.mp hp,
              true_and, ne_eq, hc, not_false_eq_true]
            by_cases h1 : req.Language = "javascript"
            · simp [h1]
            · by_cases h2 : req.Language = "python"
              · simp [h2]
              · by_cases h3 : req.Language = "java"
                · simp [h3]
                · simp [h1, h2, h3]
  · intro hu
    simp [validateSubmissionRequest, hu]
  · intro hu hp
    simp [validateSubmissionRequest, not_le.mpr hu, hp]
  · intro hu hp hc
    simp [validateSubmissionRequest, not_le.mpr hu, not_le.mpr hp, hc]
  · intro hu hp hc hl
    simp [validateSubmissionRequest, not_le.mpr hu, not_le.mpr hp, hc, hl]
  · intro hu hp hc hl hno
    simp only [validateSubmissionRequest, not_le.mpr hu, not_le.mpr hp, hc, hl, if_false]
    simp only [not_or] at hno
    simp [LanguageJavaScript, LanguagePython, LanguageJava, hno.1, hno.2.1, hno.2.2]
  · intro deps err herr
    refine ⟨by simp [ProcessSubmission, herr], ?_⟩
    have h := Contains_prefix "invalid submission request" (": " ++ err)
    have he : "invalid submission request" ++ (": " ++ err) = "invalid submission request: " ++ err := by
      rw [← String.append_assoc]; rfl
    rw [he] at h
    exact h

/-- Witness of C25: a request in the language `cpp` is rejected by the last rule. -/
theorem submission_request_validation_witness :
    validateSubmissionRequest { UserID := 1, ProblemID := 1, Language := "cpp", Code := "x" }
      = some ("unsupported language: " ++ "cpp") :=
  (submission_request_validation
    { UserID := 1, ProblemID := 1, Language := "cpp", Code := "x" }).2.2.2.2.2.1
    (by decide) (by decide) (by decide) (by decide) (by decide)

theorem wrapInt64_of_fits (x : Int) (hlo : -9223372036854775808 ≤ x)
    (hhi : x < 9223372036854775808) : wrapInt64 x = x := by
  unfold wrapInt64
  rw [Int.emod_eq_of_lt (by omega) (by omega)]
  omega

theorem listSubmissions_ok (query : Int → Int → Except String (List Submission))
    (failure : String) (page pageSize p ps : Int) (rows : List Submission)
    (hp : p = if page < 1 then 1 else page)
    (hps : ps = if pageSize < 1 ∨ pageSize > 100 then 20 else pageSize)
    (hq : query (ps + 1) (wrapInt64 ((p - 1) * ps)) = .ok rows) :
    listSubmissions query failure page pageSize
      = .ok { Submissions := rows.take ps.toNat
              Total := (rows.take ps.toNat).length
              Page := p
              PageSize := ps
              HasNext := decide ((rows.length : Int) > ps) } := by
  have hp1 : (if page < 1 then 1 else page) = p := hp.symm
  have hps1 : (if pageSize < 1 ∨ pageSize > 100 then 20 else pageSize) = ps := hps.symm
  simp only [listSubmissions, hp1, hps1, hq]
  by_cases hnext : (rows.length : Int) > ps
  · simp [hnext]
  · have htake : rows.take ps.toNat = rows := by
      apply List.take_of_length_le
      omega
    simp [hnext, htake]

theorem listSubmissions_error (query : Int → Int → Except String (List Submission))
    (failure : String) (page pageSize p ps : Int) (err : String)
    (hp : p = if page < 1 then 1 else page)
    (hps : ps = if pageSize < 1 ∨ pageSize > 100 then 20 else pageSize)
    (hq : query (ps + 1) (wrapInt64 ((p - 1) * ps)) = .error err) :
    listSubmissions query failure page pageSize = .error (failure ++ err) := by
  have hp1 : (if page < 1 then 1 else page) = p := hp.symm
  have hps1 : (if pageSize < 1 ∨ pageSize > 100 then 20 else pageSize) = ps := hps.symm
  simp only [listSubmissions, hp1, hps1, hq]

/-- C27: with `p` the page put to 1 when it is below 1 and `ps` the page size
put to 20 when it is below 1 or above 100, `GetUserSubmissions` asks the
repository for `ps + 1` rows from the offset `(p - 1) * ps` (the 64-bit product,
which is the exact one whenever that fits) and answers with the first `ps` of
the rows returned, in their order, `HasNext` telling whether more than `ps` rows
were returned; `GetProblemSubmissions` and `GetUserProblemSubmissions` do the
same with their own query. -/
theorem submission_pages_window (page pageSize p ps : Int)
    (hp : p = if page < 1 then 1 else page)
    (hps : ps = if pageSize < 1 ∨ pageSize > 100 then 20 else pageSize) :
    (1 ≤ p ∧ 1 ≤ ps ∧ ps ≤ 100) ∧
    ((p - 1) * ps < 9223372036854775808 → wrapInt64 ((p - 1) * ps) = (p - 1) * ps) ∧
    (∀ (getByUserID : Int → Int → Int → Except String (List Submission)) (userID : Int)
        (rows : List Submission),
      getByUserID userID (ps + 1) (wrapInt64 ((p - 1) * ps)) = .ok rows →
      GetUserSubmissions getByUserID userID page pageSize
        = .ok { Submissions := rows.take ps.toNat
                Total := (rows.take ps.toNat).length
                Page := p
                PageSize := ps
                HasNext := decide ((rows.length : Int) > ps) }) ∧
    (∀ (getByProblemID : Int → Int → Int → Except String (List Submission)) (problemID : Int)
        (rows : List Submission),
      getByProblemID problemID (ps + 1) (wrapInt64 ((p - 1) * ps)) = .ok rows →
      GetProblemSubmissions getByProblemID problemID page pageSize
        = .ok { Submissions := rows.take ps.toNat
                Total := (rows.take ps.toNat).length
                Page := p
                PageSize := ps
                HasNext := decide ((rows.length : Int) > ps) }) ∧
    (∀ (getByUserAndProblem : Int → Int → Int → Int → Except String (List Submission))
        (userID problemID : Int) (rows : List Submission),
      getByUserAndProblem userID problemID (ps + 1) (wrapInt64 ((p - 1) * ps)) = .ok rows →
      GetUserProblemSubmissions getByUserAndProblem userID problemID page pageSize
        = .ok { Submissions := rows.take ps.toNat
                Total := (rows.take ps.toNat).length
                Page := p
                PageSize := ps
                HasNext := decide ((rows.length : Int) > ps) }) ∧
    (∀ rows : List Submission,
      ((rows.take ps.toNat).length : Int) ≤ ps ∧ rows.take ps.toNat <+: rows ∧
        ((rows.length : Int) ≤ ps → rows.take ps.toNat = rows)) := by
  have hp1 : 1 ≤ p := by rw [hp]; split <;> omega
  have hps1 : 1 ≤ ps ∧ ps ≤ 100 := by rw [hps]; split <;> omega
  refine ⟨⟨hp1, hps1⟩, ?_, ?_, ?_, ?_, ?_⟩
  · intro hfit
    have hnonneg : 0 ≤ (p - 1) * ps := Int.mul_nonneg (by omega) (by omega)
    exact wrapInt64_of_fits _ (by omega) hfit
  · intro getByUserID userID rows hq
    exact listSubmissions_ok _ _ page pageSize p ps rows hp hps hq
  · intro getByProblemID problemID rows hq
    exact listSubmissions_ok _ _ page pageSize p ps rows hp hps hq
  · intro getByUserAndProblem userID problemID rows hq
    exact listSubmissions_ok _ _ page pageSize p ps rows hp hps hq
  · intro rows
    refine ⟨?_, List.take_prefix _ _, ?_⟩
    · rw [List.length_take]; omega
    · intro hle
      apply List.take_of_length_le
      omega

/-- Witness of C27: page 0 with page size 500 is page 1 with page size 20; of
the 21 rows that the repository returns the first 20 are kept. -/
theorem submission_pages_window_witness :
    GetUserSubmissions (fun _ limit _ => .ok (List.replicate limit.toNat {})) 7 0 500
      = .ok { Submissions := (List.replicate 21 {}).take 20
              Total := 20
              Page := 1
              PageSize := 20
              HasNext := true } :=
  (submission_pages_window 0 500 1 20 (by decide) (by decide)).2.2.1
    (fun _ limit _ => .ok (List.replicate limit.toNat {})) 7 (List.replicate 21 {}) rfl

/-! ## Statistics -/

theorem wrapInt64_add_wrap (a b : Int) : wrapInt64 (wrapInt64 a + b) = wrapInt64 (a + b) := by
  unfold wrapInt64
  have h : (a + 9223372036854775808) % 18446744073709551616 - 9223372036854775808 + b
      + 9223372036854775808
      = (a + 9223372036854775808) % 18446744073709551616 + b := by ring
  rw [h, Int.emod_add_emod]
  congr 2
  ring

theorem wrapInt64_idem (a : Int) : wrapInt64 (wrapInt64 a) = wrapInt64 a := by
  have h := wrapInt64_add_wrap a 0
  simpa using h

theorem statsStep_stats (s : StatsLoop) (x : Submission) :
    (statsStep s x).stats.total_submissions = s.stats.total_submissions ∧
    (statsStep s x).stats.accepted = s.stats.accepted + countStatus StatusAccepted [x] ∧
    (statsStep s x).stats.wrong_answer
      = s.stats.wrong_answer + countStatus StatusWrongAnswer [x] ∧
    (statsStep s x).stats.time_limit_exceeded
      = s.stats.time_limit_exceeded + countStatus StatusTimeLimitExceeded [x] ∧
    (statsStep s x).stats.memory_limit_exceeded
      = s.stats.memory_limit_exceeded + countStatus StatusMemoryLimitExceeded [x] ∧
    (statsStep s x).stats.runtime_error
      = s.stats.runtime_error + countStatus StatusRuntimeError [x] ∧
    (statsStep s x).stats.compile_error
      = s.stats.compile_error + countStatus StatusCompileError [x] ∧
    (statsStep s x).stats.avg_runtime_ms = s.stats.avg_runtime_ms ∧
    (statsStep s x).stats.avg_memory_kb = s.stats.avg_memory_kb := by
  by_cases h1 : x.Status = "Accepted"
  · simp [statsStep, countStatus, StatusAccepted, StatusWrongAnswer, StatusTimeLimitExceeded,
      StatusMemoryLimitExceeded, StatusRuntimeError, StatusCompileError, h1]
  by_cases h2 : x.Status = "Wrong Answer"
  · simp [statsStep, countStatus, StatusAccepted, StatusWrongAnswer, StatusTimeLimitExceeded,
      StatusMemoryLimitExceeded, StatusRuntimeError, StatusCompileError, h2]
  by_cases h3 : x.Status = "Time Limit Exceeded"
  · simp [statsStep, countStatus, StatusAccepted, StatusWrongAnswer, StatusTimeLimitExceeded,
      StatusMemoryLimitExceeded, StatusRuntimeError, StatusCompileError, h3]
  by_cases h4 : x.Status = "Memory Limit Exceeded"
  · simp [statsStep, countStatus, StatusAccepted, StatusWrongAnswer, StatusTimeLimitExceeded,
      StatusMemoryLimitExceeded, StatusRuntimeError, StatusCompileError, h4]
  by_cases h5 : x.Status = "Runtime Error"
  · simp [statsStep, countStatus, StatusAccepted, StatusWrongAnswer, StatusTimeLimitExceeded,
      StatusMemoryLimitExceeded, StatusRuntimeError, StatusCompileError, h5]
  by_cases h6 : x.Status = "Compile Error"
  · simp [statsStep, countStatus, StatusAccepted, StatusWrongAnswer, StatusTimeLimitExceeded,
      StatusMemoryLimitExceeded, StatusRuntimeError, StatusCompileError, h6]
  simp [statsStep, countStatus, StatusAccepted, StatusWrongAnswer, StatusTimeLimitExceeded,
    StatusMemoryLimitExceeded, StatusRuntimeError, StatusCompileError, h1, h2, h3, h4, h5, h6]

theorem statsStep_totals (s : StatsLoop) (x : Submission) :
    (statsStep s x).totalRuntime
      = (match x.RuntimeMs with
          | some runtime => wrapInt64 (s.totalRuntime + runtime)
          | none => s.totalRuntime) ∧
    (statsStep s x).runtimeCount = s.runtimeCount + (runtimeValues [x]).length ∧
    (statsStep s x).totalMemory
      = (match x.MemoryKb with
          | some memory => wrapInt64 (s.totalMemory + memory)
          | none => s.totalMemory) ∧
    (statsStep s x).memoryCount = s.memoryCount + (memoryValues [x]).length := by
  cases hr : x.RuntimeMs <;> cases hm : x.MemoryKb <;>
    simp [statsStep, runtimeValues, memoryValues, hr, hm]

theorem countStatus_cons (status : String) (x : Submission) (l : List Submission) :
    countStatus status (x :: l) = countStatus status [x] + countStatus status l := by
  by_cases h : x.Status = status <;> simp [countStatus, List.filter_cons, h]
  omega

theorem runtimeValues_cons (x : Submission) (l : List Submission) :
    runtimeValues (x :: l) = runtimeValues [x] ++ runtimeValues l := by
  cases h : x.RuntimeMs <;> simp [runtimeValues, List.filterMap_cons, h]

theorem memoryValues_cons (x : Submission) (l : List Submission) :
    memoryValues (x :: l) = memoryValues [x] ++ memoryValues l := by
  cases h : x.MemoryKb <;> simp [memoryValues, List.filterMap_cons, h]

theorem statsLoop_counters (l : List Submission) :
    ∀ s : StatsLoop,
      (l.foldl statsStep s).stats.total_submissions = s.stats.total_submissions ∧
      (l.foldl statsStep s).stats.accepted = s.stats.accepted + countStatus StatusAccepted l ∧
      (l.foldl statsStep s).stats.wrong_answer
        = s.stats.wrong_answer + countStatus StatusWrongAnswer l ∧
      (l.foldl statsStep s).stats.time_limit_exceeded
        = s.stats.time_limit_exceeded + countStatus StatusTimeLimitExceeded l ∧
      (l.foldl statsStep s).stats.memory_limit_exceeded
        = s.stats.memory_limit_exceeded + countStatus StatusMemoryLimitExceeded l ∧
      (l.foldl statsStep s).stats.runtime_error
        = s.stats.runtime_error + countStatus StatusRuntimeError l ∧
      (l.foldl statsStep s).stats.compile_error
        = s.stats.compile_error + countStatus StatusCompileError l ∧
      (l.foldl statsStep s).stats.avg_runtime_ms = s.stats.avg_runtime_ms ∧
      (l.foldl statsStep s).stats.avg_memory_kb = s.stats.avg_memory_kb := by
  induction l with
  | nil => intro s; simp [countStatus]
  | cons x rest ih =>
    intro s
    obtain ⟨h0, h1, h2, h3, h4, h5, h6, h7, h8⟩ := statsStep_stats s x
    obtain ⟨i0, i1, i2, i3, i4, i5, i6, i7, i8⟩ := ih (statsStep s x)
    simp only [List.foldl_cons]
    refine ⟨?_, ?_, ?_, ?_, ?_, ?_, ?_, ?_, ?_⟩
    · rw [i0, h0]
    · rw [i1, h1, countStatus_cons _ x rest]; ring
    · rw [i2, h2, countStatus_cons _ x rest]; ring
    · rw [i3, h3, countStatus_cons _ x rest]; ring
    · rw [i4, h4, countStatus_cons _ x rest]; ring
    · rw [i5, h5, countStatus_cons _ x rest]; ring
    · rw [i6, h6, countStatus_cons _ x rest]; ring
    · rw [i7, h7]
    · rw [i8, h8]

theorem statsLoop_totals (l : List Submission) :
    ∀ s : StatsLoop, wrapInt64 s.totalRuntime = s.totalRuntime →
      wrapInt64 s.totalMemory = s.totalMemory →
      (l.foldl statsStep s).totalRuntime
        = wrapInt64 (s.totalRuntime + (runtimeValues l).sum) ∧
      (l.foldl statsStep s).runtimeCount = s.runtimeCount + (runtimeValues l).length ∧
      (l.foldl statsStep s).totalMemory
        = wrapInt64 (s.totalMemory + (memoryValues l).sum) ∧
      (l.foldl statsStep s).memoryCount = s.memoryCount + (memoryValues l).length := by
  induction l with
  | nil =>
    intro s hr hm
    simp [runtimeValues, memoryValues, hr, hm]
  | cons x rest ih =>
    intro s hr hm
    obtain ⟨h1, h2, h3, h4⟩ := statsStep_totals s x
    have hr1 : wrapInt64 (statsStep s x).totalRuntime = (statsStep s x).totalRuntime := by
      rw [h1]; cases x.RuntimeMs <;> simp [hr, wrapInt64_idem]
    have hm1 : wrapInt64 (statsStep s x).totalMemory = (statsStep s x).totalMemory := by
      rw [h3]; cases x.MemoryKb <;> simp [hm, wrapInt64_idem]
    obtain ⟨i1, i2, i3, i4⟩ := ih (statsStep s x) hr1 hm1
    simp only [List.foldl_cons]
    refine ⟨?_, ?_, ?_, ?_⟩
    · rw [i1, h1, runtimeValues_cons x rest]
      cases hx : x.RuntimeMs with
      | none => simp [runtimeValues, hx]
      | some r =>
        simp only [runtimeValues, List.filterMap_cons, hx, List.filterMap_nil,
          List.singleton_append, List.sum_cons]
        rw [wrapInt64_add_wrap]
        congr 1
        ring
    · rw [i2, h2, runtimeValues_cons x rest, List.length_append]; push_cast; ring
    · rw [i3, h3, memoryValues_cons x rest]
      cases hx : x.MemoryKb with
      | none => simp [memoryValues, hx]
      | some r =>
        simp only [memoryValues, List.filterMap_cons, hx, List.filterMap_nil,
          List.singleton_append, List.sum_cons]
        rw [wrapInt64_add_wrap]
        congr 1
        ring
    · rw [i4, h4, memoryValues_cons x rest, List.length_append]; push_cast; ring

theorem submissionStats_fields (submissions : List Submission) :
    (submissionStats submissions).total_submissions = submissions.length ∧
    (submissionStats submissions).accepted = countStatus StatusAccepted submissions ∧
    (submissionStats submissions).wrong_answer = countStatus StatusWrongAnswer submissions ∧
    (submissionStats submissions).time_limit_exceeded
      = countStatus StatusTimeLimitExceeded submissions ∧
    (submissionStats submissions).memory_limit_exceeded
      = countStatus StatusMemoryLimitExceeded submissions ∧
    (submissionStats submissions).runtime_error = countStatus StatusRuntimeError submissions ∧
    (submissionStats submissions).compile_error = countStatus StatusCompileError submissions ∧
    (submissionStats submissions).avg_runtime_ms
      = (if (runtimeValues submissions).length = 0 then 0
          else Int.tdiv (wrapInt64 (runtimeValues submissions).sum)
            (runtimeValues submissions).length) ∧
    (submissionStats submissions).avg_memory_kb
      = (if (memoryValues submissions).length = 0 then 0
          else Int.tdiv (wrapInt64 (memoryValues submissions).sum)
            (memoryValues submissions).length) := by
  by_cases hlen : submissions.length = 0
  · have hnil : submissions = [] := List.length_eq_zero.mp hlen
    subst hnil
    simp [submissionStats, countStatus, runtimeValues, memoryValues]
  · have h0 : wrapInt64 0 = 0 := by decide
    obtain ⟨i0, i1, i2, i3, i4, i5, i6, i7, i8⟩ :=
      statsLoop_counters submissions { stats := { total_submissions := submissions.length } }
    obtain ⟨j1, j2, j3, j4⟩ :=
      statsLoop_totals submissions { stats := { total_submissions := submissions.length } }
        h0 h0
    simp only [zero_add] at i1 i2 i3 i4 i5 i6 j1 j2 j3 j4
    simp only [submissionStats, hlen, if_false]
    generalize List.foldl statsStep { stats := { total_submissions := submissions.length } }
      submissions = s at *
    have hrc : (s.runtimeCount > 0) ↔ ¬ (runtimeValues submissions).length = 0 := by
      rw [j2]; omega
    have hmc : (s.memoryCount > 0) ↔ ¬ (memoryValues submissions).length = 0 := by
      rw [j4]; omega
    by_cases hr : (runtimeValues submissions).length = 0
    · have hr1 : ¬ s.runtimeCount > 0 := fun h => hrc.mp h hr
      by_cases hm : (memoryValues submissions).length = 0
      · have hm1 : ¬ s.memoryCount > 0 := fun h => hmc.mp h hm
        simp only [hr1, hm1, hr, hm, if_true, if_false]
        exact ⟨i0, i1, i2, i3, i4, i5, i6, i7, i8⟩
      · have hm1 : s.memoryCount > 0 := hmc.mpr hm
        simp only [hr1, hm1, hr, hm, if_true, if_false]
        exact ⟨i0, i1, i2, i3, i4, i5, i6, i7, by rw [j3, j4]⟩
    · have hr1 : s.runtimeCount > 0 := hrc.mpr hr
      by_cases hm : (memoryValues submissions).length = 0
      · have hm1 : ¬ s.memoryCount > 0 := fun h => hmc.mp h hm
        simp only [hr1, hm1, hr, hm, if_true, if_false]
        exact ⟨i0, i1, i2, i3, i4, i5, i6, by rw [j1, j2], i8⟩
      · have hm1 : s.memoryCount > 0 := hmc.mpr hm
        simp only [hr1, hm1, hr, hm, if_true, if_false]
        exact ⟨i0, i1, i2, i3, i4, i5, i6, by rw [j1, j2], by rw [j3, j4]⟩

/-- C26: for the list of submissions that the repository returns,
`GetUserSubmissionStats` reports the length of the list as the total, for each
of the six statuses the number of submissions with exactly that status, and as
the averages the truncating quotient of the sum of the run times, and of the
memory figures, that are present by their number, 0 when there is none; the
sums are 64-bit sums, so the quotient is that of the exact sum whenever that
sum is a 64-bit number; for the empty list every entry is 0. -/
theorem user_submission_statistics
    (getByUserID : Int → Int → Int → Except String (List Submission)) (userID : Int)
    (submissions : List Submission) (hq : getByUserID userID 1000 0 = .ok submissions) :
    ∃ stats, GetUserSubmissionStats getByUserID userID = .ok stats ∧
      stats.total_submissions = submissions.length ∧
      stats.accepted = countStatus "Accepted" submissions ∧
      stats.wrong_answer = countStatus "Wrong Answer" submissions ∧
      stats.time_limit_exceeded = countStatus "Time Limit Exceeded" submissions ∧
      stats.memory_limit_exceeded = countStatus "Memory Limit Exceeded" submissions ∧
      stats.runtime_error = countStatus "Runtime Error" submissions ∧
      stats.compile_error = countStatus "Compile Error" submissions ∧
      stats.avg_runtime_ms
        = (if (runtimeValues submissions).length = 0 then 0
            else Int.tdiv (wrapInt64 (runtimeValues submissions).sum)
              (runtimeValues submissions).length) ∧
      stats.avg_memory_kb
        = (if (memoryValues submissions).length = 0 then 0
            else Int.tdiv (wrapInt64 (memoryValues submissions).sum)
              (memoryValues submissions).length) ∧
      (-9223372036854775808 ≤ (runtimeValues submissions).sum →
        (runtimeValues submissions).sum < 9223372036854775808 →
        stats.avg_runtime_ms = truncatedAverage (runtimeValues submissions)) ∧
      (-9223372036854775808 ≤ (memoryValues submissions).sum →
        (memoryValues submissions).sum < 9223372036854775808 →
        stats.avg_memory_kb = truncatedAverage (memoryValues submissions)) ∧
      (submissions = [] → stats = {}) := by
  obtain ⟨h0, h1, h2, h3, h4, h5, h6, h7, h8⟩ := submissionStats_fields submissions
  refine ⟨submissionStats submissions, by simp [GetUserSubmissionStats, hq], h0, h1, h2, h3,
    h4, h5, h6, h7, h8, ?_, ?_, ?_⟩
  · intro hlo hhi
    rw [h7, wrapInt64_of_fits _ hlo hhi]
    rfl
  · intro hlo hhi
    rw [h8, wrapInt64_of_fits _ hlo hhi]
    rfl
  · intro hnil
    subst hnil
    rfl

/-- Witness of C26: two accepted submissions and a wrong answer, with the run
times 100, 200, 200 and the memory figures 1024, 2048, 1024. -/
theorem user_submission_statistics_witness :
    GetUserSubmissionStats (fun _ _ _ => .ok statsSample) 1
      = .ok { total_submissions := 3, accepted := 2, wrong_answer := 1,
              avg_runtime_ms := 166, avg_memory_kb := 1365 } ∧
    ∃ stats, GetUserSubmissionStats (fun _ _ _ => .ok statsSample) 1 = .ok stats ∧
      stats.total_submissions = statsSample.length ∧
      stats.accepted = countStatus "Accepted" statsSample :=
  ⟨rfl,
    (user_submission_statistics (fun _ _ _ => .ok statsSample) 1 statsSample rfl).imp
      (fun _ h => ⟨h.1, h.2.1, h.2.2.1⟩)⟩

/-! ## Hidden test cases -/

/-- C24: the details of a hidden test case do reach the client.  For a
submission whose only test case is hidden and fails with a wrong answer, the
response of `ProcessSubmission` and the reply of `SubmitCode` keep no test
result, but their `ErrorMessage` spells out the expected output of the hidden
test case and the output produced on it; and two hidden test cases that fail in
the same way with different expected outputs give different responses. -/
theorem hidden_expected_output_in_error_message :
    ProcessSubmission (sampleDeps [hiddenTest "secret-17"] (okHost (runsOf [{ output := "0" }])))
        sampleRequest
      = .response
          { ID := 1
            Status := "Wrong Answer"
            RuntimeMs := none
            MemoryKb := some 1024
            TestCasesPassed := 0
            TotalTestCases := 1
            ErrorMessage := some "Test case failed: expected secret-17, got 0"
            SubmittedAt := 1730000000
            TestResults := [] } ∧
    SubmitCode
        (sampleDeps [hiddenTest "secret-17"] (okHost (runsOf [{ output := "0" }]))).getTestCases
        (sampleDeps [hiddenTest "secret-17"] (okHost (runsOf [{ output := "0" }]))).executeCode
        (some { Code := sampleCode, Language := "python", ProblemID := 1 })
      = .ok
          { Status := "Wrong Answer"
            ErrorMessage := "Test case failed: expected secret-17, got 0"
            RuntimeMs := 0
            MemoryKb := 1024
            TestCasesPassed := 0
            TotalTestCases := 1
            TestResults := [] } ∧
    ProcessSubmission (sampleDeps [hiddenTest "secret-17"] (okHost (runsOf [{ output := "0" }])))
        sampleRequest
      ≠ ProcessSubmission
          (sampleDeps [hiddenTest "secret-18"] (okHost (runsOf [{ output := "0" }])))
          sampleRequest := by
  refine ⟨by decide, by decide, by decide⟩

/-! ## Slugs -/

theorem isSlugChar_hyphen : isSlugChar '-' = false := by decide

theorem ne_hyphen_of_isSlugChar (c : Char) (h : isSlugChar c = true) : c ≠ '-' := by
  intro hc
  rw [hc, isSlugChar_hyphen] at h
  exact Bool.noConfusion h

theorem hyphen_cutset (c : Char) : ("-" : String).data.contains c = decide (c = '-') := by
  by_cases h : c = '-' <;> simp [h]

theorem replaceNonSlugRuns_mem (l : List Char) :
    ∀ (inRun : Bool) (c : Char), c ∈ replaceNonSlugRuns inRun l →
      isSlugChar c = true ∨ c = '-' := by
  induction l with
  | nil => intro inRun c h; simp [replaceNonSlugRuns] at h
  | cons a rest ih =>
    intro inRun c h
    by_cases ha : isSlugChar a = true
    · simp only [replaceNonSlugRuns, ha, if_true, List.mem_cons] at h
      rcases h with h | h
      · exact Or.inl (h ▸ ha)
      · exact ih _ _ h
    · cases inRun with
      | true =>
        simp only [replaceNonSlugRuns, ha, if_false, if_true] at h
        exact ih _ _ h
      | false =>
        simp only [replaceNonSlugRuns, ha, if_false, List.mem_cons, Bool.false_eq_true] at h
        rcases h with h | h
        · exact Or.inr h
        · exact ih _ _ h

theorem replaceNonSlugRuns_slug (inRun : Bool) (a : Char) (rest : List Char)
    (ha : isSlugChar a = true) :
    replaceNonSlugRuns inRun (a :: rest) = a :: replaceNonSlugRuns false rest := by
  simp [replaceNonSlugRuns, ha]

theorem replaceNonSlugRuns_inRun (a : Char) (rest : List Char) (ha : isSlugChar a = false) :
    replaceNonSlugRuns true (a :: rest) = replaceNonSlugRuns true rest := by
  simp [replaceNonSlugRuns, ha]

theorem replaceNonSlugRuns_start (a : Char) (rest : List Char) (ha : isSlugChar a = false) :
    replaceNonSlugRuns false (a :: rest) = '-' :: replaceNonSlugRuns true rest := by
  simp [replaceNonSlugRuns, ha]

theorem replaceNonSlugRuns_keeps (l : List Char) :
    ∀ (inRun : Bool) (c : Char), isSlugChar c = true →
      (c ∈ replaceNonSlugRuns inRun l ↔ c ∈ l) := by
  induction l with
  | nil => intro inRun c _; simp [replaceNonSlugRuns]
  | cons a rest ih =>
    intro inRun c hc
    have hne : c ≠ '-' := ne_hyphen_of_isSlugChar c hc
    cases ha : isSlugChar a with
    | true => rw [replaceNonSlugRuns_slug _ _ _ ha, List.mem_cons, List.mem_cons, ih false c hc]
    | false =>
      have hca : c ≠ a := fun h => by rw [h, ha] at hc; exact Bool.noConfusion hc
      cases inRun with
      | true =>
        rw [replaceNonSlugRuns_inRun _ _ ha, List.mem_cons, ih true c hc]
        simp [hca]
      | false =>
        rw [replaceNonSlugRuns_start _ _ ha, List.mem_cons, List.mem_cons, ih true c hc]
        simp [hca, hne]

theorem replaceNonSlugRuns_chain (l : List Char) :
    ∀ inRun : Bool,
      (replaceNonSlugRuns inRun l).Chain' (fun a b => ¬ (a = '-' ∧ b = '-')) ∧
      (inRun = true → (replaceNonSlugRuns inRun l).head? ≠ some '-') := by
  induction l with
  | nil => intro inRun; simp [replaceNonSlugRuns]
  | cons a rest ih =>
    intro inRun
    cases ha : isSlugChar a with
    | true =>
      have hne : a ≠ '-' := ne_hyphen_of_isSlugChar a ha
      rw [replaceNonSlugRuns_slug _ _ _ ha, List.chain'_cons', List.head?_cons]
      exact ⟨⟨fun y _ h => hne h.1, (ih false).1⟩, fun _ h => hne (Option.some.inj h)⟩
    | false =>
      cases inRun with
      | true =>
        rw [replaceNonSlugRuns_inRun _ _ ha]
        exact ih true
      | false =>
        rw [replaceNonSlugRuns_start _ _ ha, List.chain'_cons']
        refine ⟨⟨fun y hy h => ?_, (ih true).1⟩, fun h => Bool.noConfusion h⟩
        have hy1 : (replaceNonSlugRuns true rest).head? = some y := by simpa using hy
        exact (ih true).2 rfl (h.2 ▸ hy1)

theorem Trim_hyphen_data (s : String) :
    (Trim s "-").data
      = (s.data.dropWhile (fun c => decide (c = '-'))).rdropWhile (fun c => decide (c = '-')) := by
  have hp : (fun c : Char => ("-" : String).data.contains c) = fun c => decide (c = '-') := by
    funext c
    exact hyphen_cutset c
  unfold Trim List.rdropWhile
  rw [hp]

theorem trimmed_subset (p : Char → Bool) (l : List Char) (c : Char)
    (h : c ∈ (l.dropWhile p).rdropWhile p) : c ∈ l :=
  List.IsSuffix.subset ( List.dropWhile_suffix p)
    (List.IsPrefix.subset ( List.rdropWhile_prefix p (l.dropWhile p)) h)

theorem trimmed_chain (r : Char → Char → Prop) (p : Char → Bool) (l : List Char)
    (h : l.Chain' r) : ((l.dropWhile p).rdropWhile p).Chain' r := by
  have hdrop : (l.dropWhile p).Chain' r := by
    apply List.Chain'.suffix h
    exact List.dropWhile_suffix p
  apply List.Chain'.prefix hdrop
  exact List.rdropWhile_prefix p (l.dropWhile p)

theorem trimmed_head (p : Char → Bool) (l : List Char) (c : Char)
    (h : ((l.dropWhile p).rdropWhile p).head? = some c) : p c = false := by
  obtain ⟨tail, htail⟩ := List.rdropWhile_prefix p (l.dropWhile p)
  cases hr : (l.dropWhile p).rdropWhile p with
  | nil => rw [hr] at h; simp at h
  | cons a rest =>
    rw [hr] at h htail
    have hac : a = c := by simpa using h
    have hne : l.dropWhile p ≠ [] := by rw [← htail]; simp
    have hnot := List.head_dropWhile_not p l hne
    have hhead : (l.dropWhile p).head hne = a := by
      have : (l.dropWhile p).head? = some a := by rw [← htail]; rfl
      rw [List.head?_eq_head hne] at this
      exact Option.some.inj this
    rw [hhead, hac] at hnot
    exact hnot

theorem trimmed_last (p : Char → Bool) (l : List Char) (c : Char)
    (h : ((l.dropWhile p).rdropWhile p).getLast? = some c) : p c = false := by
  have hne : (l.dropWhile p).rdropWhile p ≠ [] := by
    intro hnil; rw [hnil] at h; simp at h
  have hnot := List.rdropWhile_last_not p (l.dropWhile p) hne
  rw [List.getLast?_eq_getLast _ hne] at h
  rw [Option.some.inj h] at hnot
  simpa using hnot

theorem trimmed_eq_nil_iff (p : Char → Bool) (l : List Char) :
    (l.dropWhile p).rdropWhile p = [] ↔ ∀ c ∈ l, p c = true := by
  constructor
  · intro h
    by_contra hall
    have hne : l.dropWhile p ≠ [] := fun hnil => hall (List.dropWhile_eq_nil_iff.mp hnil)
    have hnot := List.head_dropWhile_not p l hne
    have hall2 := List.rdropWhile_eq_nil_iff.mp h
    have := hall2 _ (List.head_mem hne)
    rw [this] at hnot
    exact Bool.noConfusion hnot
  · intro hall
    rw [List.dropWhile_eq_nil_iff.mpr hall]
    rfl

theorem trimmed_eq_self (p : Char → Bool) (l : List Char)
    (hhead : ∀ c, l.head? = some c → p c = false)
    (hlast : ∀ c, l.getLast? = some c → p c = false) :
    (l.dropWhile p).rdropWhile p = l := by
  have hdrop : l.dropWhile p = l := by
    cases l with
    | nil => rfl
    | cons a rest =>
      have := hhead a rfl
      simp [List.dropWhile_cons, this]
  rw [hdrop, List.rdropWhile_eq_self_iff]
  intro hne
  have := hlast _ (List.getLast?_eq_getLast _ hne)
  simp [this]

theorem containsChars_double_hyphen (l : List Char)
    (h : l.Chain' (fun a b => ¬ (a = '-' ∧ b = '-'))) :
    containsChars ['-', '-'] l = false := by
  induction l with
  | nil => rfl
  | cons a rest ih =>
    rw [List.chain'_cons'] at h
    simp only [containsChars, ih h.2, Bool.or_false]
    cases rest with
    | nil => simp [List.isPrefixOf]
    | cons b rest2 =>
      have hab := h.1 b rfl
      by_cases ha : a = '-'
      · have hb : b ≠ '-' := fun hb => hab ⟨ha, hb⟩
        simp [List.isPrefixOf, ha, Ne.symm hb]
      · simp [List.isPrefixOf, Ne.symm ha]

theorem generateSlug_data (lower : Char → Char) (title : String) :
    (generateSlug lower title).data
      = ((replaceNonSlugRuns false (title.data.map lower)).dropWhile
          (fun c => decide (c = '-'))).rdropWhile (fun c => decide (c = '-')) := by
  unfold generateSlug
  rw [Trim_hyphen_data]
  rfl

theorem replaceNonSlugRuns_fixed (l : List Char) :
    (∀ c ∈ l, isSlugChar c = true ∨ c = '-') →
    l.Chain' (fun a b => ¬ (a = '-' ∧ b = '-')) →
    ∀ inRun : Bool, (inRun = true → l.head? ≠ some '-') → replaceNonSlugRuns inRun l = l := by
  induction l with
  | nil => intro _ _ inRun _; rfl
  | cons a rest ih =>
    intro hmem hchain inRun hhead
    rw [List.chain'_cons'] at hchain
    have hrest : ∀ c ∈ rest, isSlugChar c = true ∨ c = '-' :=
      fun c hc => hmem c (List.mem_cons_of_mem _ hc)
    cases ha : isSlugChar a with
    | true =>
      rw [replaceNonSlugRuns_slug _ _ _ ha, ih hrest hchain.2 false (fun h => Bool.noConfusion h)]
    | false =>
      have hhy : a = '-' := by
        rcases hmem a (List.mem_cons_self _ _) with h | h
        · rw [ha] at h; exact Bool.noConfusion h
        · exact h
      cases inRun with
      | true => exact absurd (by rw [hhy]; rfl) (hhead rfl)
      | false =>
        rw [replaceNonSlugRuns_start _ _ ha, hhy]
        rw [ih hrest hchain.2 true (fun _ h => ?_)]
        obtain ⟨y, hy⟩ : ∃ y, rest.head? = some y := ⟨_, h⟩
        exact hchain.1 '-' (by rw [h]; rfl) ⟨hhy, rfl⟩

theorem toLower_slug_char (c : Char) (h : isSlugChar c = true ∨ c = '-') : Char.toLower c = c := by
  have hn : ¬ (c.toNat ≥ 65 ∧ c.toNat ≤ 90) := by
    rcases h with h | h
    · simp only [isSlugChar, Bool.or_eq_true, Bool.and_eq_true, decide_eq_true_eq] at h
      omega
    · rw [h]; decide
  unfold Char.toLower
  simp only [hn, if_false]

/-- C28: where the code parts from the claim.  The problem with the title
`???` passes `validateProblem` and comes without a slug; `CreateProblem`
generates the slug of its title, which is the empty string, and stores the
problem with it, although a slug is to be there after this step. -/
theorem symbol_title_gets_empty_slug :
    validateProblem symbolProblem = none ∧ symbolProblem.Slug = "" ∧
    generateSlug Char.toLower symbolProblem.Title = "" ∧
    (CreateProblem Char.toLower storeProblem symbolProblem).2.map (fun stored => stored.Slug)
      = some "" ∧
    ∃ created, (CreateProblem Char.toLower storeProblem symbolProblem).1 = .ok created ∧
      created.Slug = "" := by
  refine ⟨by decide, by decide, by decide, by decide, _, rfl, rfl⟩

/-- The shape of a generated slug: `CreateProblem` stores a valid problem that
has no slug with the slug `generateSlug` of its title; that slug has only the
characters `a` to `z`, `0` to `9` and `-`, does not begin or end with `-`, has
no two `-` in a row, is left as it is by `generateSlug` (lower-casing leaves
its characters alone), and is not empty exactly when the lower-cased title has
a character from `a` to `z` or `0` to `9`; `Two Sum` gives `two-sum` and `3Sum`
gives `3sum`. -/
theorem generated_slug_shape (lower : Char → Char) (title : String) :
    (∀ c ∈ (generateSlug lower title).data, isSlugChar c = true ∨ c = '-') ∧
    (generateSlug lower title).data.head? ≠ some '-' ∧
    (generateSlug lower title).data.getLast? ≠ some '-' ∧
    Contains (generateSlug lower title) "--" = false ∧
    ((∀ c, isSlugChar c = true ∨ c = '-' → lower c = c) →
      generateSlug lower (generateSlug lower title) = generateSlug lower title) ∧
    (generateSlug lower title ≠ "" ↔ ∃ c ∈ title.data, isSlugChar (lower c) = true) ∧
    (∀ (create : Problem → Except String Problem) (problem created : Problem),
      validateProblem problem = none → problem.Slug = "" → problem.Title = title →
      create { problem with Slug := generateSlug lower title } = .ok created →
      CreateProblem lower create problem
        = (.ok created, some { problem with Slug := generateSlug lower title })) ∧
    generateSlug Char.toLower "Two Sum" = "two-sum" ∧
    generateSlug Char.toLower "3Sum" = "3sum" := by
  have hdata := generateSlug_data lower title
  have hmem : ∀ c ∈ (generateSlug lower title).data, isSlugChar c = true ∨ c = '-' := by
    intro c hc
    rw [hdata] at hc
    exact replaceNonSlugRuns_mem _ _ _ (trimmed_subset _ _ _ hc)
  have hchain : (generateSlug lower title).data.Chain' (fun a b => ¬ (a = '-' ∧ b = '-')) := by
    rw [hdata]
    exact trimmed_chain _ _ _ (replaceNonSlugRuns_chain _ false).1
  have hhead : (generateSlug lower title).data.head? ≠ some '-' := by
    intro h
    rw [hdata] at h
    have := trimmed_head _ _ _ h
    simp at this
  have hlast : (generateSlug lower title).data.getLast? ≠ some '-' := by
    intro h
    rw [hdata] at h
    have := trimmed_last _ _ _ h
    simp at this
  refine ⟨hmem, hhead, hlast, ?_, ?_, ?_, ?_, by decide, by decide⟩
  · exact containsChars_double_hyphen _ hchain
  · intro hlower
    apply String.ext
    rw [generateSlug_data lower (generateSlug lower title)]
    have hmap : (generateSlug lower title).data.map lower = (generateSlug lower title).data := by
      conv_rhs => rw [← List.map_id (generateSlug lower title).data]
      exact List.map_congr_left (fun c hc => hlower c (hmem c hc))
    rw [hmap, replaceNonSlugRuns_fixed _ hmem hchain false (fun h => Bool.noConfusion h)]
    apply trimmed_eq_self
    · intro c hc
      have : c ≠ '-' := fun h => hhead (h ▸ hc)
      simp [this]
    · intro c hc
      have : c ≠ '-' := fun h => hlast (h ▸ hc)
      simp [this]
  · have hne : generateSlug lower title ≠ "" ↔ (generateSlug lower title).data ≠ [] := by
      constructor
      · intro h hnil
        exact h (String.ext hnil)
      · intro h heq
        exact h (by rw [heq])
    rw [hne, hdata, Ne, trimmed_eq_nil_iff]
    constructor
    · intro hall
      by_contra hno
      apply hall
      intro c hc
      rcases replaceNonSlugRuns_mem _ _ _ hc with hs | hh
      · have hin := (replaceNonSlugRuns_keeps _ false c hs).mp hc
        obtain ⟨a, ha, hac⟩ := List.mem_map.mp hin
        exact absurd ⟨a, ha, hac ▸ hs⟩ hno
      · simp [hh]
    · rintro ⟨a, ha, hs⟩ hall
      have hin : lower a ∈ replaceNonSlugRuns false (title.data.map lower) :=
        (replaceNonSlugRuns_keeps _ false _ hs).mpr (List.mem_map.mpr ⟨a, ha, rfl⟩)
      have := hall _ hin
      have hne2 := ne_hyphen_of_isSlugChar _ hs
      simp [hne2] at this
  · intro create problem created hvalid hslug htitle hcreate
    subst htitle
    simp only [CreateProblem, hvalid, hslug, if_true, hcreate]

/-- The slug `two-sum` of the title `Two Sum` is its own slug. -/
theorem generated_slug_shape_witness :
    generateSlug Char.toLower (generateSlug Char.toLower "Two Sum")
      = generateSlug Char.toLower "Two Sum" :=
  (generated_slug_shape Char.toLower "Two Sum").2.2.2.2.1 toLower_slug_char

/-! ## The execution directory and the filesystem -/

theorem runTestCases_dirs (es : ExecutionService) (host : Host)
    (execDir codeFile language : String) (tcs : List TestCase) :
    ∀ (i : Nat) (s : LoopState) (w : World),
      (runTestCases es host execDir codeFile language i tcs s w).2.fs.dirs = w.fs.dirs := by
  induction tcs with
  | nil => intro i s w; simp [runTestCases]
  | cons tc rest ih =>
    intro i s w
    cases hw : host.writeInputFile i with
    | some e =>
      rw [runTestCases_write_failed_head es host execDir codeFile language i tc rest s w e hw]
    | none =>
      cases hp : (buildTestResult tc (host.run i)).Passed with
      | false =>
        rw [runTestCases_fail_head es host execDir codeFile language i tc rest s w hw hp]
        exact runStep_dirs w _ _ _
      | true =>
        simp only [runTestCases, executeTestCase_run _ _ _ _ _ _ _ _ hw, hp, if_true]
        rw [ih]
        exact runStep_dirs w _ _ _

theorem prepareCodeFile_dirs (es : ExecutionService) (host : Host) (w : World)
    (execDir code language : String) :
    (prepareCodeFile es host w execDir code language).2.fs.dirs = w.fs.dirs := by
  simp only [prepareCodeFile]
  split
  · rfl
  · split
    · rfl
    · split
      · rfl
      · simp [World.writeFile]

theorem executeInDir_dirs (es : ExecutionService) (host : Host) (w : World)
    (execDir code language : String) (tcs : List TestCase) :
    (executeInDir es host w execDir code language tcs).2.fs.dirs = w.fs.dirs := by
  have h1 := prepareCodeFile_dirs es host w execDir code language
  rcases hp : prepareCodeFile es host w execDir code language with ⟨res, w1⟩
  rw [hp] at h1
  cases res with
  | error e => simp only [executeInDir, hp]; exact h1
  | ok codeFile =>
    have h2 := runTestCases_dirs es host execDir codeFile language tcs 0
      { result := { TotalTestCases := tcs.length, TestResults := [] } } w1
    rcases hr : runTestCases es host execDir codeFile language 0 tcs
      { result := { TotalTestCases := tcs.length, TestResults := [] } } w1 with ⟨exit, w2⟩
    rw [hr] at h2
    have hw2 : w2.fs.dirs = w.fs.dirs := by
      simp only at h1 h2
      rw [h2, h1]
    simp only [executeInDir, hp, hr]
    cases exit with
    | returned r => exact hw2
    | finished s' =>
      by_cases hlen : tcs.length = 0
      · simp only [hlen, if_true]; exact hw2
      · simp only [hlen, if_false]; exact hw2

/-- C21, as stated, fails: when the deferred removal fails, its error is
discarded and the execution directory still exists when `ExecuteCode` returns,
here with an accepted result. -/
theorem directory_remains_when_removal_fails :
    (ExecuteCode NewExecutionService
        (removalFailsHost (runsOf [{ output := "42\n", elapsedMs := 5 }])) {} sampleCode "python"
        [sampleTest]).1 = .returned acceptedSample none ∧
    (ExecuteCode NewExecutionService
        (removalFailsHost (runsOf [{ output := "42\n", elapsedMs := 5 }])) {} sampleCode "python"
        [sampleTest]).2.log.getLast? = some (Event.removeAll "/tmp/leetcode-execution/exec-1") ∧
    "/tmp/leetcode-execution/exec-1" ∈
      (ExecuteCode NewExecutionService
        (removalFailsHost (runsOf [{ output := "42\n", elapsedMs := 5 }])) {} sampleCode "python"
        [sampleTest]).2.fs.dirs := by
  decide

/-- C21, amended: once the execution directory has been created, `ExecuteCode`
ends, whatever the way out is (a result with or without an error, or the panic
on an empty list of test cases), with the call that removes that directory as
its last effect, nothing having removed it before; when that removal succeeds
neither the directory nor anything below it exists afterwards, and when it
fails the directory is still there. -/
theorem execution_directory_removed (es : ExecutionService) (host : Host) (w : World)
    (code language unique : String) (testCases : List TestCase)
    (hl : isLanguageSupported language = true)
    (hm : host.mkdirAll = none) (ht : host.mkdirTemp = .ok unique) :
    (∃ events, (ExecuteCode es host w code language testCases).2.log
      = w.log
        ++ [Event.mkdirAll es.tempDir, Event.mkdirTemp (mkdirTempPath host es.tempDir unique)]
        ++ events ++ [Event.removeAll (mkdirTempPath host es.tempDir unique)]) ∧
    (host.removeAll = none →
      mkdirTempPath host es.tempDir unique
        ∉ (ExecuteCode es host w code language testCases).2.fs.dirs ∧
      (∀ d ∈ (ExecuteCode es host w code language testCases).2.fs.dirs,
        isUnder (mkdirTempPath host es.tempDir unique) d = false) ∧
      (∀ f ∈ (ExecuteCode es host w code language testCases).2.fs.files,
        isUnder (mkdirTempPath host es.tempDir unique) f.1 = false)) ∧
    (host.removeAll ≠ none →
      mkdirTempPath host es.tempDir unique
        ∈ (ExecuteCode es host w code language testCases).2.fs.dirs) := by
  have hexec : (ExecuteCode es host w code language testCases).2
      = (executeInDir es host
          ((w.mkdirAll es.tempDir).mkdirTemp (mkdirTempPath host es.tempDir unique))
          (mkdirTempPath host es.tempDir unique) code language testCases).2.removeAll
          host.removeAll (mkdirTempPath host es.tempDir unique) := by
    simp [ExecuteCode, hl, createTempDir, hm, ht]
  obtain ⟨events, hev⟩ := executeInDir_log_extends es host
    ((w.mkdirAll es.tempDir).mkdirTemp (mkdirTempPath host es.tempDir unique))
    (mkdirTempPath host es.tempDir unique) code language testCases
  have hdirs := executeInDir_dirs es host
    ((w.mkdirAll es.tempDir).mkdirTemp (mkdirTempPath host es.tempDir unique))
    (mkdirTempPath host es.tempDir unique) code language testCases
  rw [hexec]
  refine ⟨⟨events, ?_⟩, fun hok => ⟨?_, ?_, ?_⟩, fun hfail => ?_⟩
  · simp only [World.removeAll, hev]
    simp [World.mkdirTemp, World.mkdirAll]
  · intro hmem
    simp only [World.removeAll, hok, Option.isNone_none, if_true, List.mem_filter] at hmem
    have := hmem.2
    rw [isUnder_self] at this
    simp at this
  · intro d hd
    simp only [World.removeAll, hok, Option.isNone_none, if_true, List.mem_filter] at hd
    simpa using hd.2
  · intro f hf
    simp only [World.removeAll, hok, Option.isNone_none, if_true, List.mem_filter] at hf
    simpa using hf.2
  · have hsome : host.removeAll.isNone = false := by
      cases hr : host.removeAll with
      | none => exact absurd hr hfail
      | some e => rfl
    simp only [World.removeAll, hsome, Bool.false_eq_true, if_false, hdirs]
    simp [World.mkdirTemp]

/-- Witness of C21, amended: the panic on an empty list of test cases, on a
host whose removal succeeds. -/
theorem execution_directory_removed_witness :
    (ExecuteCode NewExecutionService (okHost (runsOf [])) {} sampleCode "python" []).1
      = .panicked "runtime error: integer divide by zero" ∧
    "/tmp/leetcode-execution/exec-1"
      ∉ (ExecuteCode NewExecutionService (okHost (runsOf [])) {} sampleCode "python" []).2.fs.dirs :=
  ⟨by decide,
    ((execution_directory_removed NewExecutionService (okHost (runsOf [])) {} sampleCode "python"
      "1" [] (by decide) rfl rfl).2.1 rfl).1⟩

theorem removeAll_fresh (w : World) (err : Option String) (path : String)
    (hfresh : isFresh w.fs path = true) :
    ((w.mkdirTemp path).removeAll err path).fs.files = w.fs.files ∧
    (∀ d ∈ w.fs.dirs, d ∈ ((w.mkdirTemp path).removeAll err path).fs.dirs) ∧
    (err = none → ((w.mkdirTemp path).removeAll err path).fs.dirs = w.fs.dirs) := by
  simp only [isFresh, Bool.and_eq_true, List.all_eq_true] at hfresh
  obtain ⟨hd, hf⟩ := hfresh
  have hdirs : w.fs.dirs.filter (fun d => !isUnder path d) = w.fs.dirs :=
    List.filter_eq_self.mpr hd
  have hfiles : w.fs.files.filter (fun f => !isUnder path f.1) = w.fs.files :=
    List.filter_eq_self.mpr hf
  cases err with
  | none =>
    simp [World.removeAll, World.mkdirTemp, List.filter_append, hdirs, hfiles, isUnder_self]
  | some e =>
    simp only [World.removeAll, World.mkdirTemp, Option.isNone_some, Bool.false_eq_true, if_false,
      List.mem_append, true_and]
    exact ⟨fun d hd => Or.inl hd, fun hne => Option.noConfusion hne⟩

theorem mkdirAll_fs (w : World) (path : String) :
    (w.mkdirAll path).fs.files = w.fs.files ∧
    (∀ d ∈ w.fs.dirs, d ∈ (w.mkdirAll path).fs.dirs) ∧
    ((w.mkdirAll path).fs.dirs = w.fs.dirs ∨ (w.mkdirAll path).fs.dirs = w.fs.dirs ++ [path]) := by
  by_cases h : path ∈ w.fs.dirs
  · simp [World.mkdirAll, h]
  · simp only [World.mkdirAll, h, if_false, List.mem_append, true_and]
    exact ⟨fun d hd => Or.inl hd, Or.inr trivial⟩

/-- C4, amended: for every code that `validateCode` rejects, `ExecuteCode`
returns an internal error with no test result, writes no file and starts no
docker run, and the files that exist afterwards are exactly those that existed
before, the directory that `os.MkdirTemp` creates being a fresh one; of the
directories none that existed is removed, and once the deferred removal has
succeeded at most the base directory has been added. -/
theorem rejected_code_writes_and_runs_nothing (es : ExecutionService) (host : Host) (w : World)
    (code language : String) (testCases : List TestCase)
    (h : validateCode host.unicodeToLower code language ≠ none)
    (hfresh : ∀ unique, host.mkdirTemp = .ok unique →
      isFresh (w.mkdirAll es.tempDir).fs (mkdirTempPath host es.tempDir unique) = true) :
    ∃ r err events,
      (ExecuteCode es host w code language testCases).1 = .returned r err ∧
      r.Status = StatusInternalError ∧ r.TestResults = [] ∧
      (ExecuteCode es host w code language testCases).2.log = w.log ++ events ∧
      fileWrites events = [] ∧ dockerRuns events = [] ∧
      (ExecuteCode es host w code language testCases).2.fs.files = w.fs.files ∧
      (∀ d ∈ w.fs.dirs, d ∈ (ExecuteCode es host w code language testCases).2.fs.dirs) ∧
      (host.removeAll = none →
        (ExecuteCode es host w code language testCases).2.fs.dirs = w.fs.dirs ∨
        (ExecuteCode es host w code language testCases).2.fs.dirs
          = w.fs.dirs ++ [es.tempDir]) := by
  obtain ⟨hmf, hmd, hmcases⟩ := mkdirAll_fs w es.tempDir
  cases hl : isLanguageSupported language with
  | false =>
    have hexec : ExecuteCode es host w code language testCases
        = (.returned { Status := StatusInternalError
                       ErrorMessage := "Unsupported language: " ++ language } none, w) := by
      simp [ExecuteCode, hl]
    rw [hexec]
    exact ⟨_, _, [], rfl, rfl, rfl, by simp, rfl, rfl, rfl, fun d hd => hd, fun _ => Or.inl rfl⟩
  | true =>
    cases hm : host.mkdirAll with
    | some e =>
      have hexec : ExecuteCode es host w code language testCases
          = (.returned { Status := StatusInternalError
                         ErrorMessage := "Failed to create temporary directory" } (some e), w) := by
        simp [ExecuteCode, hl, createTempDir, hm]
      rw [hexec]
      exact ⟨_, _, [], rfl, rfl, rfl, by simp, rfl, rfl, rfl, fun d hd => hd, fun _ => Or.inl rfl⟩
    | none =>
      cases hmt : host.mkdirTemp with
      | error e =>
        have hexec : ExecuteCode es host w code language testCases
            = (.returned { Status := StatusInternalError
                           ErrorMessage := "Failed to create temporary directory" } (some e),
                w.mkdirAll es.tempDir) := by
          simp [ExecuteCode, hl, createTempDir, hm, hmt]
        rw [hexec]
        exact ⟨_, _, [Event.mkdirAll es.tempDir], rfl, rfl, rfl, by simp [World.mkdirAll], rfl,
          rfl, hmf, hmd, fun _ => hmcases⟩
      | ok unique =>
        cases hv : validateCode host.unicodeToLower code language with
        | none => exact absurd hv h
        | some reason =>
          obtain ⟨hrf, hrd, hrok⟩ := removeAll_fresh (w.mkdirAll es.tempDir) host.removeAll
            (mkdirTempPath host es.tempDir unique) (hfresh unique hmt)
          rw [ExecuteCode_rejected es host w code language reason unique testCases hl hm hmt hv]
          refine ⟨_, _, [Event.mkdirAll es.tempDir,
              Event.mkdirTemp (mkdirTempPath host es.tempDir unique),
              Event.removeAll (mkdirTempPath host es.tempDir unique)],
            rfl, rfl, rfl, ?_, rfl, rfl, ?_, ?_, ?_⟩
          · simp [World.removeAll, World.mkdirTemp, World.mkdirAll]
          · exact hrf.trans hmf
          · exact fun d hd => hrd d (hmd d hd)
          · intro hok
            show ((w.mkdirAll es.tempDir).mkdirTemp _ |>.removeAll host.removeAll _).fs.dirs = _ ∨ _
            rw [hrok hok]
            exact hmcases

/-- Witness of C4, amended: the rejected code `import os` in a world in
which the base directory and a file of another execution exist. -/
theorem rejected_code_writes_and_runs_nothing_witness :
    ∃ r err events,
      (ExecuteCode NewExecutionService (okHost (runsOf [])) usedWorld "import os" "python"
        [sampleTest]).1 = .returned r err ∧
      r.Status = StatusInternalError ∧ r.TestResults = [] ∧
      (ExecuteCode NewExecutionService (okHost (runsOf [])) usedWorld "import os" "python"
        [sampleTest]).2.log = usedWorld.log ++ events ∧
      fileWrites events = [] ∧ dockerRuns events = [] ∧
      (ExecuteCode NewExecutionService (okHost (runsOf [])) usedWorld "import os" "python"
        [sampleTest]).2.fs.files = usedWorld.fs.files ∧
      (∀ d ∈ usedWorld.fs.dirs,
        d ∈ (ExecuteCode NewExecutionService (okHost (runsOf [])) usedWorld "import os" "python"
          [sampleTest]).2.fs.dirs) ∧
      ((okHost (runsOf [])).removeAll = none →
        (ExecuteCode NewExecutionService (okHost (runsOf [])) usedWorld "import os" "python"
          [sampleTest]).2.fs.dirs = usedWorld.fs.dirs ∨
        (ExecuteCode NewExecutionService (okHost (runsOf [])) usedWorld "import os" "python"
          [sampleTest]).2.fs.dirs = usedWorld.fs.dirs ++ [NewExecutionService.tempDir]) :=
  rejected_code_writes_and_runs_nothing NewExecutionService (okHost (runsOf [])) usedWorld
    "import os" "python" [sampleTest] (by decide)
    (fun unique hu => by
      cases hu
      decide)

end Execution
